import Mathlib

/-!
Verification development for the 文書送付書/受領書 auto-generation system.

The JavaScript source (system/generate.js) is shallowly embedded here:
strings are `List Char` (JavaScript string indices coincide with character
indices for the inputs considered, which stay inside the BMP), regular
expressions are transcribed as deterministic scanning functions whose
comments cite the source pattern, and stateful loops become folds.
-/

/-- The JavaScript `\s` character class (also the set removed by
`String.prototype.trim`): ASCII whitespace, NBSP, Ogham space mark,
the U+2000–U+200A range, line/paragraph separators, narrow NBSP,
medium mathematical space, ideographic space and BOM. -/
def isJsWs (c : Char) : Bool :=
  c == ' ' || c == '\t' || c == '\n' || c.val == 11 || c.val == 12 || c == '\r' ||
  c.val == 0xa0 || c.val == 0x1680 || (0x2000 ≤ c.val && c.val ≤ 0x200a) ||
  c.val == 0x2028 || c.val == 0x2029 || c.val == 0x202f || c.val == 0x205f ||
  c.val == 0x3000 || c.val == 0xfeff

/-- `hay.indexOf(old)` of JavaScript: position of the first occurrence of
`old` in `hay`, `none` when absent.  `indexOf("") = 0`, as in JavaScript. -/
def firstMatchIdx (hay old : List Char) : Option Nat :=
  if old.isPrefixOf hay then some 0
  else
    match hay with
    | [] => none
    | _ :: t => (firstMatchIdx t old).map (· + 1)

/-- `hay.includes(old)` of JavaScript. -/
def containsSub (hay old : List Char) : Bool :=
  (firstMatchIdx hay old).isSome

/-- One `<w:t attrs>text</w:t>` segment of a paragraph: a text run.
`attrs` is the raw attribute string of the element (opaque styling token),
`text` its character data.  This is the `segments` entry built at
generate.js lines 795-805. -/
structure WtSeg where
  attrs : List Char
  text : List Char
  deriving DecidableEq, Repr

/-- The concatenated visible text of a paragraph's runs:
`segments.map(s => s.text).join('')` (generate.js line 809). -/
def joinedText (segs : List WtSeg) : List Char :=
  (segs.map WtSeg.text).flatten

/-- A run together with its index in the paragraph and its cumulative
start/end character offsets (generate.js lines 819-824). -/
structure PosSeg where
  idx : Nat
  seg : WtSeg
  startPos : Nat
  endPos : Nat
  deriving DecidableEq, Repr

/-- Annotate each run with its index and cumulative offsets
(generate.js lines 819-824). -/
def withPos : List WtSeg → Nat → Nat → List PosSeg
  | [], _, _ => []
  | s :: rest, i, pos =>
    ⟨i, s, pos, pos + s.text.length⟩ :: withPos rest (i + 1) (pos + s.text.length)

/-- The `xml:space="preserve"` attribute string added to modified runs
(generate.js lines 839-840, 862-863). -/
def preserveAttrs : List Char := " xml:space=\"preserve\"".data

/-- `hasPreserve ? attrs : ' xml:space="preserve"'` of generate.js
lines 839-840: keep the attributes when they already carry
`xml:space="preserve"`, otherwise use exactly that attribute. -/
def newAttrsFor (attrs : List Char) : List Char :=
  if containsSub attrs "xml:space=\"preserve\"".data then attrs else preserveAttrs

/-- The runs overlapping the match span `[mStart, mEnd)`:
`segments.filter(seg => seg.endPos > matchStart && seg.startPos < matchEnd)`
(generate.js lines 826-829). -/
def affSegs (ps : List PosSeg) (mStart mEnd : Nat) : List PosSeg :=
  ps.filter (fun x => decide (mStart < x.endPos) && decide (x.startPos < mEnd))

/-- Splicing the replacement into one run that fully contains the match
(generate.js lines 836-841 and 865-869): prefix before `localStart`, then
`newText`, then the suffix from `localEnd`.  Natural-number subtraction
mirrors the clamping of JavaScript `String.prototype.substring`. -/
def spliceWithin (s : WtSeg) (startPos mStart mEnd : Nat) (newT : List Char) : WtSeg :=
  { attrs := newAttrsFor s.attrs,
    text := s.text.take (mStart - startPos) ++ newT ++ s.text.drop (mEnd - startPos) }

/-- The per-run rewriting of the several-affected-runs branch
(generate.js lines 851-887): an unaffected run is returned verbatim
(lines 855-858); the run that is both first and last affected is spliced
(lines 865-869); the first affected keeps its pre-match prefix plus the
replacement (lines 870-873); the last affected keeps only its post-match
suffix, with its original attributes when the suffix is empty
(lines 874-882); a middle run is emptied, keeping its attributes
(lines 883-886). -/
def multiStep (aff : List PosSeg) (mStart mEnd : Nat) (newT : List Char) (x : PosSeg) : WtSeg :=
  if x ∉ aff then x.seg
  else if aff.head? = some x ∧ aff.getLast? = some x then
    spliceWithin x.seg x.startPos mStart mEnd newT
  else if aff.head? = some x then
    { attrs := newAttrsFor x.seg.attrs,
      text := x.seg.text.take (mStart - x.startPos) ++ newT }
  else if aff.getLast? = some x then
    if x.seg.text.drop (mEnd - x.startPos) ≠ [] then
      { attrs := newAttrsFor x.seg.attrs, text := x.seg.text.drop (mEnd - x.startPos) }
    else { attrs := x.seg.attrs, text := [] }
  else { attrs := x.seg.attrs, text := [] }

/-- The single-affected-run branch (generate.js lines 834-846): only that
run is rewritten, all other runs of the paragraph are untouched. -/
def singleStep (aff : List PosSeg) (mStart mEnd : Nat) (newT : List Char) (x : PosSeg) : WtSeg :=
  if x ∈ aff then spliceWithin x.seg x.startPos mStart mEnd newT else x.seg

/-- The per-paragraph (per-Block) body of `safeReplaceInXml`
(generate.js lines 791-891).  A Block is its ordered list of `w:t` runs;
the XML between the runs is invariant under the source transformation and
is not modeled.  Branches:
* no runs → unchanged (line 807);
* `oldT` not in the joined text → unchanged (line 812);
* otherwise the runs overlapping the span `[matchStart, matchEnd)` are
  located (lines 826-829); if none overlap, unchanged (line 831);
* exactly one affected run → splice the replacement into it
  (lines 834-846);
* several affected runs → rewrite each run by `multiStep`
  (lines 851-887). -/
def safeReplaceInXml (segs : List WtSeg) (oldT newT : List Char) : List WtSeg :=
  if segs = [] then segs
  else
    match firstMatchIdx (joinedText segs) oldT with
    | none => segs
    | some mStart =>
      let mEnd := mStart + oldT.length
      let ps := withPos segs 0 0
      let aff := affSegs ps mStart mEnd
      if aff = [] then segs
      else if aff.length = 1 then
        ps.map (singleStep aff mStart mEnd newT)
      else
        ps.map (multiStep aff mStart mEnd newT)

/-- Specification-side definition (spec §4.6 (b)): the text with the first
occurrence of `old` replaced by `new`, to be compared with the
concatenated text produced by `safeReplaceInXml`. -/
def replaceFirstOcc (hay old new : List Char) : List Char :=
  match firstMatchIdx hay old with
  | none => hay
  | some i => hay.take i ++ new ++ hay.drop (i + old.length)

/-- Reference recursion equivalent to the several-affected-runs rewriting:
walks the runs carrying the cumulative offset `pos` and rewrites each run
according to how its span `[pos, pos + len)` meets `[mStart, mEnd)`.
Used only as a proof device; `safeReplaceInXml` is the embedding. -/
def spliceGo (mStart mEnd : Nat) (newT : List Char) : List WtSeg → Nat → List WtSeg
  | [], _ => []
  | s :: rest, pos =>
    if pos + s.text.length ≤ mStart ∨ mEnd ≤ pos then
      s :: spliceGo mStart mEnd newT rest (pos + s.text.length)
    else if pos ≤ mStart ∧ mEnd ≤ pos + s.text.length then
      spliceWithin s pos mStart mEnd newT ::
        spliceGo mStart mEnd newT rest (pos + s.text.length)
    else if pos ≤ mStart then
      { attrs := newAttrsFor s.attrs, text := s.text.take (mStart - pos) ++ newT } ::
        spliceGo mStart mEnd newT rest (pos + s.text.length)
    else if mEnd ≤ pos + s.text.length then
      (if s.text.drop (mEnd - pos) ≠ [] then
        { attrs := newAttrsFor s.attrs, text := s.text.drop (mEnd - pos) }
      else { attrs := s.attrs, text := ([] : List Char) }) ::
        spliceGo mStart mEnd newT rest (pos + s.text.length)
    else
      { attrs := s.attrs, text := ([] : List Char) } ::
        spliceGo mStart mEnd newT rest (pos + s.text.length)

/-- An OCR word: recognized text and its pixel bounding box, as produced
by `runOcr` (generate.js lines 1304-1314). -/
structure OcrWord where
  text : List Char
  x1 : Int
  y1 : Int
  x2 : Int
  y2 : Int
  deriving DecidableEq, Repr

/-- The split-label loop of `findReceiptLabel` (generate.js lines
1353-1362): for each word reading 「受」, look for a word 「領」 on the
same line (vertical distance < 50px) to its right within 300px; the
first 「受」 with such a partner gives the label y. -/
def findReceiptLabelSplit (juWords words : List OcrWord) : Option Int :=
  match juWords with
  | [] => none
  | ju :: rest =>
    match words.find? (fun w =>
        w.text = "領".data && decide ((w.y1 - ju.y1).natAbs < 50) &&
        decide (ju.x1 < w.x1) && decide (w.x1 < ju.x1 + 300)) with
    | some _ => some ju.y1
    | none => findReceiptLabelSplit rest words

/-- `findReceiptLabel` (generate.js lines 1346-1365): first a word whose
text contains 「受領書」 or 「受領」 (the second check subsumes the
first, transcribed verbatim), then the split 「受　領　書」 pattern.
Returns the label's pixel y when found. -/
def findReceiptLabel (words : List OcrWord) : Option Int :=
  match words.find? (fun w =>
      containsSub w.text "受領書".data || containsSub w.text "受領".data) with
  | some w => some w.y1
  | none => findReceiptLabelSplit (words.filter (fun w => w.text = "受".data)) words

/-- `scoreReceiptPage` (generate.js lines 1371-1388): +50 for the receipt
label, +10 for 「令和」, +10 for 「代理人」, −20 for more than 200 words,
another −20 for more than 300 words. -/
def scoreReceiptPage (words : List OcrWord) : Int :=
  let allText := (words.map OcrWord.text).flatten
  let score : Int := 0
  let score := if (findReceiptLabel words).isSome then score + 50 else score
  let score := if containsSub allText "令和".data then score + 10 else score
  let score := if containsSub allText "代理人".data then score + 10 else score
  let score := if words.length > 200 then score - 20 else score
  let score := if words.length > 300 then score - 20 else score
  score

/-- The scan order of `findReceiptPage` (generate.js lines 1404-1407):
page 1, then the last page, then 2, 3, …, totalPages−1. -/
def scanOrder (totalPages : Nat) : List Nat :=
  1 :: totalPages :: List.range' 2 (totalPages - 2)

/-- The scan loop of `findReceiptPage` (generate.js lines 1409-1430),
instrumented with the list of pages that get OCR'd and scored.
`bestS = none` models the initial `-Infinity` (line 1411), so
`score > bestScore` is `bestS.all (fun b => b < score)`; a page becomes
the best when its score strictly exceeds the best score (line 1419); the
loop returns the current page the moment its score reaches 50
(lines 1426-1429). -/
def findReceiptPageGo (ocr : Nat → List OcrWord) :
    List Nat → Nat → Option Int → Nat × List Nat
  | [], bestP, _ => (bestP, [])
  | p :: rest, bestP, bestS =>
    let score := scoreReceiptPage (ocr p)
    let better := bestS.all (fun b => decide (b < score))
    let bestP' := if better then p else bestP
    let bestS' := if better then some score else bestS
    if 50 ≤ score then (p, [p])
    else
      let r := findReceiptPageGo ocr rest bestP' bestS'
      (r.1, p :: r.2)

/-- `findReceiptPage` (generate.js lines 1394-1434): the OCR collaborator
is abstracted as `ocr : page number → word list`.  A single-page document
returns page 1 immediately without scoring (lines 1397-1401); otherwise
the scan loop runs over `scanOrder`.  Result: (chosen page number, pages
scored, in order). -/
def findReceiptPage (ocr : Nat → List OcrWord) (totalPages : Nat) : Nat × List Nat :=
  if totalPages = 1 then (1, [])
  else findReceiptPageGo ocr (scanOrder totalPages) 1 none

/-- `findReceiptSectionStart` (generate.js lines 1448-1461): the receipt
sub-section starts 50px above the 「受領書」 label, or at y = 0 when the
label is absent (then the whole page is the receipt).  The source's
`imgH` parameter is unused there and omitted. -/
def findReceiptSectionStart (words : List OcrWord) : Int :=
  match findReceiptLabel words with
  | some y => max 0 (y - 50)
  | none => 0

/-- The receipt sub-region: words at or below the section start
(`words.filter(w => w.y1 >= receiptStartY)`, generate.js line 1471). -/
def receiptRegionWords (words : List OcrWord) : List OcrWord :=
  words.filter (fun w => decide (findReceiptSectionStart words ≤ w.y1))

/-- `reduce((a, b) => a.x1 > b.x1 ? a : b)` over a nonempty list
(generate.js line 1505): the rightmost word. -/
def pickRightmost (g : OcrWord) (gs : List OcrWord) : OcrWord :=
  gs.foldl (fun a b => if a.x1 > b.x1 then a else b) g

/-- `reduce((a, b) => a.y1 < b.y1 ? a : b)` over a nonempty list
(generate.js line 1512): the topmost word. -/
def pickTopmost (g : OcrWord) (gs : List OcrWord) : OcrWord :=
  gs.foldl (fun a b => if a.y1 < b.y1 then a else b) g

/-- The 「行」(strike-target) detection step of `detectPositions`
(generate.js lines 1466-1517).  Only words whose OCR text is exactly
「行」 inside the receipt sub-region are considered (line 1487); among
them, a word on the same line (±60px) as a 「弁護(士)」 word is preferred,
taking the rightmost (lines 1489-1507); otherwise the topmost 「行」 in
the sub-region is used (lines 1510-1514); with no exact match the result
is `none` and no estimation is performed (lines 1515-1517). -/
def detectGyouWord (words : List OcrWord) : Option OcrWord :=
  let rw := receiptRegionWords words
  let allGyouWords := rw.filter (fun w => w.text = "行".data)
  match allGyouWords with
  | [] => none
  | g :: gs =>
    let bengo := rw.find? (fun w =>
      containsSub w.text "弁護".data || containsSub w.text "護士".data)
    let fromBengoLine :=
      match bengo with
      | none => none
      | some b =>
        match (g :: gs).filter (fun w => decide ((w.y1 - b.y1).natAbs < 60)) with
        | [] => none
        | g2 :: gs2 => some (pickRightmost g2 gs2)
    match fromBengoLine with
    | some w => some w
    | none => some (pickTopmost g gs)

/-- Whether `generateReceipt` performs the strike-through + 「先生」
annotation step: lines 1745-1779 run exactly when `pos.gyou` is non-null,
and `pos.gyou` is non-null exactly when the 「行」 word was detected
(lines 1636-1643: `gyouWord ? {...} : null`). -/
def strikeAnnotationRuns (words : List OcrWord) : Bool :=
  (detectGyouWord words).isSome

/-! ## Field extraction: `extractInfoFromText` (generate.js lines 321-772)

The regular expressions of the source are transcribed as deterministic
scanning functions.  Each pattern of the source is annotated with its
source line; where a JavaScript regex could in principle backtrack, the
transcription either performs the same backtracking explicitly (bounded
loops) or a comment argues why the deterministic reading coincides
(disjoint character classes / pairwise non-prefix alternatives). -/

/-- The JavaScript `\d` class (half-width ASCII digits only). -/
def isHalfDigit (c : Char) : Bool := '0' ≤ c && c ≤ '9'

/-- The `[０-９]` class (full-width digits). -/
def isFullDigit (c : Char) : Bool := '０' ≤ c && c ≤ '９'

/-- The `[一-鿿]` class (CJK unified ideographs). -/
def isKanji (c : Char) : Bool := 0x4e00 ≤ c.val && c.val ≤ 0x9fff

/-- The `[぀-ゟ]` class (hiragana). -/
def isHiragana (c : Char) : Bool := 0x3040 ≤ c.val && c.val ≤ 0x309f

/-- The `[゠-ヿ]` class (katakana). -/
def isKatakana (c : Char) : Bool := 0x30a0 ≤ c.val && c.val ≤ 0x30ff

/-- The fax-number character class `[0-9０-９\-－ー]`. -/
def isFaxChar (c : Char) : Bool :=
  isHalfDigit c || isFullDigit c || c = '-' || c = '－' || c = 'ー'

/-- `replace(/\s+/g, '')`: remove every JavaScript-whitespace character. -/
def stripJsWs (s : List Char) : List Char := s.filter (fun c => !(isJsWs c))

/-- `String.prototype.trim()`. -/
def jsTrim (s : List Char) : List Char :=
  ((s.dropWhile isJsWs).reverse.dropWhile isJsWs).reverse

/-- Match a literal string at the start, returning the rest. -/
def dropLit : List Char → List Char → Option (List Char)
  | [], cs => some cs
  | _ :: _, [] => none
  | l :: ls, c :: cs => if c = l then dropLit ls cs else none

/-- Try an ordered list of literal alternatives at the start (the first
that matches wins, as a JavaScript alternation does when no later
alternative can succeed where an earlier one matched). -/
def dropFirstLit : List (List Char) → List Char → Option (List Char)
  | [], _ => none
  | lit :: lits, cs =>
    match dropLit lit cs with
    | some rest => some rest
    | none => dropFirstLit lits cs

/-- Matcher-combinator state: `none` = the pattern already failed,
`some cs` = the rest of the input.  `pWs` is `\s*` (greedy; all uses are
followed by a non-whitespace requirement, so greedy = deterministic),
`pLit` a literal, `pClass1` a single character of a class, `pDigits` a
`\d+`, `pOpt` an optional piece `X?` (committing to `X` when it matches;
each use site argues why the uncommitted alternative could never succeed
where the committed one fails). -/
def pWs : Option (List Char) → Option (List Char)
  | none => none
  | some cs => some (cs.dropWhile isJsWs)

def pLit (lit : List Char) : Option (List Char) → Option (List Char)
  | none => none
  | some cs => dropLit lit cs

def pClass1 (p : Char → Bool) : Option (List Char) → Option (List Char)
  | none => none
  | some [] => none
  | some (c :: cs) => if p c then some cs else none

def pDigits : Option (List Char) → Option (List Char)
  | none => none
  | some cs =>
    let ds := cs.takeWhile isHalfDigit
    if ds.isEmpty then none else some (cs.drop ds.length)

def pOpt (f : Option (List Char) → Option (List Char))
    (s : Option (List Char)) : Option (List Char) :=
  match f s with
  | some r => some r
  | none => s

/-- Leftmost-match search: try the matcher at every position from the
left, including the end-of-string position, as `RegExp.exec` does. -/
def scanFirst {α : Type} (m : List Char → Option α) : List Char → Option α
  | [] => m []
  | c :: cs =>
    match m (c :: cs) with
    | some r => some r
    | none => scanFirst m cs

/-- Leftmost-match search returning the matched slice (the matcher
returns the rest after the match). -/
def scanFirstSlice (m : List Char → Option (List Char)) : List Char → Option (List Char)
  | [] =>
    match m [] with
    | some _ => some []
    | none => none
  | c :: cs =>
    match m (c :: cs) with
    | some rest => some ((c :: cs).take ((c :: cs).length - rest.length))
    | none => scanFirstSlice m cs

/-- The `exec` loop of a global regex: collect every non-overlapping
leftmost match together with its start index, resuming each search at
the previous match's end (`lastIndex`).  All transcribed patterns
consume at least one character, so the fuel `text.length + 1` always
suffices. -/
def scanAll {α : Type} (m : List Char → Option (α × List Char)) :
    Nat → List Char → Nat → List (Nat × α)
  | 0, _, _ => []
  | _ + 1, [], i =>
    match m [] with
    | some (r, _) => [(i, r)]
    | none => []
  | fuel + 1, c :: cs, i =>
    match m (c :: cs) with
    | some (r, rest) =>
      (i, r) :: scanAll m fuel rest (i + ((c :: cs).length - rest.length))
    | none => scanAll m fuel cs (i + 1)

/-- `text.substring(Math.max(0, i - win), i)`: the lookback window. -/
def lookback (text : List Char) (i win : Nat) : List Char :=
  (text.take i).drop (i - win)

/-- A lazy bounded gap `[\s\S]{0,budget}?` followed by `tail`: the
smallest gap (0 first) for which `tail` matches wins. -/
def lazyGap {α : Type} (tail : List Char → Option α) : List Char → Nat → Option α
  | cs, 0 => tail cs
  | cs, g + 1 =>
    match tail cs, cs with
    | some r, _ => some r
    | none, [] => none
    | none, _ :: cs2 => lazyGap tail cs2 g

/-- Greedy class run followed by a capture of another class (used for
`[cls]*([^…]{1,max})` tails): the run is consumed greedily and shortened
one character at a time (exactly the regex backtracking order over the
distinct capture-start positions) until a nonempty capture can start. -/
def captureAfterRun (capClass : Char → Bool) (maxLen : Nat) (cs : List Char) :
    Nat → Option (List Char)
  | 0 =>
    let cap := (cs.takeWhile capClass).take maxLen
    if cap.isEmpty then none else some cap
  | L + 1 =>
    let cap := ((cs.drop (L + 1)).takeWhile capClass).take maxLen
    if !cap.isEmpty then some cap else captureAfterRun capClass maxLen cs L

/-- A decimal digit character (models JavaScript's decimal rendering of a
nonnegative integer, digit by digit). -/
def digitChar (m : Nat) : Char :=
  if m = 0 then '0' else if m = 1 then '1' else if m = 2 then '2' else if m = 3 then '3'
  else if m = 4 then '4' else if m = 5 then '5' else if m = 6 then '6' else if m = 7 then '7'
  else if m = 8 then '8' else '9'

/-- Decimal rendering of a natural number (JavaScript `${n}`). -/
def natToDecAux (n : Nat) (acc : List Char) : List Char :=
  if n < 10 then digitChar (n % 10) :: acc
  else natToDecAux (n / 10) (digitChar (n % 10) :: acc)
termination_by n
decreasing_by exact Nat.div_lt_self (by omega) (by omega)

def natToDec (n : Nat) : List Char := natToDecAux n []

/-- `parseInt` of a `\d+` capture. -/
def digitsToNat (ds : List Char) : Nat :=
  ds.foldl (fun n c => n * 10 + (c.toNat - '0'.toNat)) 0

/-- The city-name alternation of `courtPattern` (generate.js line 329),
in source order.  No city name is a prefix of another, so at any position
at most one alternative matches and the first-match transcription equals
the regex alternation (no later alternative can rescue a failed rest). -/
def cityNames : List (List Char) :=
  ["東京".data, "大阪".data, "名古屋".data, "広島".data, "福岡".data, "仙台".data,
   "札幌".data, "高松".data, "京都".data, "神戸".data, "横浜".data, "さいたま".data,
   "千葉".data, "山口".data, "岡山".data, "福山".data, "松山".data, "高知".data,
   "那覇".data, "長崎".data, "熊本".data, "鹿児島".data, "大分".data, "宮崎".data,
   "佐賀".data, "秋田".data, "青森".data, "盛岡".data, "山形".data, "福島".data,
   "水戸".data, "宇都宮".data, "前橋".data, "甲府".data, "長野".data, "新潟".data,
   "富山".data, "金沢".data, "福井".data, "津".data, "大津".data, "奈良".data,
   "和歌山".data, "鳥取".data, "松江".data, "徳島".data, "旭川".data, "釧路".data,
   "函館".data]

/-- The court-type alternation `(?:地方|高等|家庭|簡易)` (line 333);
pairwise distinct first characters, so deterministic. -/
def courtTypes : List (List Char) :=
  ["地方".data, "高等".data, "家庭".data, "簡易".data]

/-- The branch-office group `(?:\s*[一-鿿]+\s*支部)?` of courtPattern:
the greedy CJK run is tried from the longest length down (regex greedy
backtracking) until `\s*支部` follows. -/
def tryShibu (cs0 : List Char) : Nat → Option (List Char)
  | 0 => none
  | k + 1 =>
    if (cs0.take (k + 1)).all isKanji then
      match dropLit "支部".data ((cs0.drop (k + 1)).dropWhile isJsWs) with
      | some rest => some rest
      | none => tryShibu cs0 k
    else tryShibu cs0 k

/-- The civil-division group `(?:\s*民事\s*第\s*[０-９\d]+\s*部)?` of
courtPattern; digit run and following classes are disjoint, so greedy =
deterministic. -/
def tryMinji (cs : List Char) : Option (List Char) :=
  match dropLit "民事".data (cs.dropWhile isJsWs) with
  | none => none
  | some r1 =>
    match dropLit "第".data (r1.dropWhile isJsWs) with
    | none => none
    | some r2 =>
      let r2w := r2.dropWhile isJsWs
      let ds := r2w.takeWhile (fun c => isFullDigit c || isHalfDigit c)
      if ds.isEmpty then none
      else dropLit "部".data ((r2w.drop ds.length).dropWhile isJsWs)

/-- One attempt of `courtPattern` (generate.js lines 332-335):
`(city)\s*(地方|高等|家庭|簡易)\s*裁判\s*所(支部-group)?(民事-group)?`.
Returns the rest after the match; the capture is the whole match. -/
def matchCourtAt (cs : List Char) : Option (List Char) :=
  match dropFirstLit cityNames cs with
  | none => none
  | some r1 =>
    match dropFirstLit courtTypes (r1.dropWhile isJsWs) with
    | none => none
    | some r2 =>
      match dropLit "裁判".data (r2.dropWhile isJsWs) with
      | none => none
      | some r3 =>
        match dropLit "所".data (r3.dropWhile isJsWs) with
        | none => none
        | some r4 =>
          let shibuIn := r4.dropWhile isJsWs
          let afterShibu :=
            match tryShibu shibuIn (shibuIn.takeWhile isKanji).length with
            | some r => r
            | none => r4
          let afterMinji :=
            match tryMinji afterShibu with
            | some r => r
            | none => afterShibu
          some afterMinji

/-- The `courtPattern.exec` loop (generate.js lines 336-341): every
non-overlapping match of courtPattern, as a matched slice. -/
def courtMatches (text : List Char) : List (List Char) :=
  (scanAll
    (fun cs =>
      match matchCourtAt cs with
      | none => none
      | some rest => some (cs.take (cs.length - rest.length), rest))
    (text.length + 1) text 0).map (fun x => x.2)

/-- Court-name selection (generate.js lines 331-345): all matches are
whitespace-stripped and the longest is kept
(`reduce((a, b) => a.length >= b.length ? a : b)`). -/
def extractCourtName (text : List Char) : Option (List Char) :=
  match (courtMatches text).map stripJsWs with
  | [] => none
  | c :: cs => some (cs.foldl (fun a b => if a.length ≥ b.length then a else b) c)

/-- The case-type symbols `[ワヲネレモハノニナラ行わをねれもはのになら]`
(generate.js line 350). -/
def caseSymbols : List Char := "ワヲネレモハノニナラ行わをねれもはのになら".data

def isCaseSymbol (c : Char) : Bool := caseSymbols.contains c

def isOpenParen (c : Char) : Bool := c = '（' || c = '('
def isCloseParen (c : Char) : Bool := c = '）' || c = ')'

/-- Case-number pattern 1 (generate.js line 353):
`([令平]和\d+年[（(][sym][）)]\s*第?\s*\d+号)`.  The optional `第` commits
when present: if the rest then fails, the variant without `第` fails too
(it would have to read digits where `第` stands). -/
def matchCaseP1 (cs : List Char) : Option (List Char) :=
  some cs |> pClass1 (fun c => c = '令' || c = '平') |> pLit "和".data |> pDigits
    |> pLit "年".data |> pClass1 isOpenParen |> pClass1 isCaseSymbol
    |> pClass1 isCloseParen |> pWs |> pOpt (pLit "第".data) |> pWs
    |> pDigits |> pLit "号".data

/-- Case-number pattern 2 (generate.js line 355):
`([令平]\s*和\s*\d+\s*年\s*[（(]\s*[sym]\s*[）)]\s*第?\s*\d+\s*号)`. -/
def matchCaseP2 (cs : List Char) : Option (List Char) :=
  some cs |> pClass1 (fun c => c = '令' || c = '平') |> pWs |> pLit "和".data |> pWs
    |> pDigits |> pWs |> pLit "年".data |> pWs |> pClass1 isOpenParen
    |> pWs |> pClass1 isCaseSymbol |> pWs |> pClass1 isCloseParen
    |> pWs |> pOpt (pLit "第".data) |> pWs |> pDigits |> pWs |> pLit "号".data

/-- Case-number pattern 3 (generate.js line 357): as pattern 2 but with
half-width parentheses only. -/
def matchCaseP3 (cs : List Char) : Option (List Char) :=
  some cs |> pClass1 (fun c => c = '令' || c = '平') |> pWs |> pLit "和".data |> pWs
    |> pDigits |> pWs |> pLit "年".data |> pWs |> pClass1 (fun c => c = '(')
    |> pWs |> pClass1 isCaseSymbol |> pWs |> pClass1 (fun c => c = ')')
    |> pWs |> pOpt (pLit "第".data) |> pWs |> pDigits |> pWs |> pLit "号".data

/-- Case-number pattern 4 (generate.js line 359):
`(令\s*和\s*(\d+)\s*年\s*[（(]\s*([sym])\s*[）)]\s*第\s*(\d+)\s*号)` —
era fixed to 令, `第` mandatory. -/
def matchCaseP4 (cs : List Char) : Option (List Char) :=
  some cs |> pLit "令".data |> pWs |> pLit "和".data |> pWs |> pDigits |> pWs
    |> pLit "年".data |> pWs |> pClass1 isOpenParen |> pWs |> pClass1 isCaseSymbol
    |> pWs |> pClass1 isCloseParen |> pWs |> pLit "第".data |> pWs
    |> pDigits |> pWs |> pLit "号".data

/-- `/（/g → ( , /）/g → )` (generate.js line 367). -/
def normBrackets (s : List Char) : List Char :=
  s.map (fun c => if c = '（' then '(' else if c = '）' then ')' else c)

/-- The pattern cascade of generate.js lines 361-371: the first pattern
with a match (leftmost) wins; the match is whitespace-stripped and its
brackets normalized. -/
def extractCaseNumberMain (text : List Char) : Option (List Char) :=
  match scanFirstSlice matchCaseP1 text with
  | some s => some (normBrackets (stripJsWs s))
  | none =>
    match scanFirstSlice matchCaseP2 text with
    | some s => some (normBrackets (stripJsWs s))
    | none =>
      match scanFirstSlice matchCaseP3 text with
      | some s => some (normBrackets (stripJsWs s))
      | none =>
        match scanFirstSlice matchCaseP4 text with
        | some s => some (normBrackets (stripJsWs s))
        | none => none

/-- The class `[】\]\s]` of the 事件の表示 pattern (generate.js line 376). -/
def isDispClass (c : Char) : Bool := c = '】' || c = ']' || isJsWs c

/-- `/事\s*件\s*の\s*表\s*示[】\]\s]*([^\n]{1,80})/` (generate.js line 376)
at one position, returning the capture (the section text). -/
def matchDispSectionAt (cs : List Char) : Option (List Char) :=
  match some cs |> pLit "事".data |> pWs |> pLit "件".data |> pWs |> pLit "の".data
      |> pWs |> pLit "表".data |> pWs |> pLit "示".data with
  | none => none
  | some r => captureAfterRun (fun c => c ≠ '\n') 80 r (r.takeWhile isDispClass).length

/-- The full case-number pattern inside the section (generate.js line 382):
`令?\s*和?\s*(\d+)\s*年?\s*[（(]\s*([sym])\s*[）)]\s*第\s*(\d+)\s*号`,
capturing (year digits, symbol, serial digits).  Each optional literal
commits when present: the uncommitted variant would have to match a
different class at the very same character and fails with it. -/
def matchDispFullAt (cs : List Char) : Option (List Char × Char × List Char) :=
  match some cs |> pOpt (pLit "令".data) |> pWs |> pOpt (pLit "和".data) |> pWs with
  | none => none
  | some r1 =>
    let year := r1.takeWhile isHalfDigit
    if year.isEmpty then none
    else
      match some (r1.drop year.length) |> pWs |> pOpt (pLit "年".data) |> pWs
          |> pClass1 isOpenParen |> pWs with
      | none => none
      | some r2 =>
        match r2 with
        | [] => none
        | sym :: r3 =>
          if isCaseSymbol sym then
            match some r3 |> pWs |> pClass1 isCloseParen |> pWs |> pLit "第".data
                |> pWs with
            | none => none
            | some r4 =>
              let num := r4.takeWhile isHalfDigit
              if num.isEmpty then none
              else
                match some (r4.drop num.length) |> pWs |> pLit "号".data with
                | none => none
                | some _ => some (year, sym, num)
          else none

/-- `/第\s*(\d+)\s*号/` (generate.js line 391), returning the digits. -/
def matchNumAt (cs : List Char) : Option (List Char) :=
  match dropLit "第".data cs with
  | none => none
  | some r1 =>
    let r1w := r1.dropWhile isJsWs
    let num := r1w.takeWhile isHalfDigit
    if num.isEmpty then none
    else
      match some (r1w.drop num.length) |> pWs |> pLit "号".data with
      | none => none
      | some _ => some num

/-- `/[（(]\s*([sym])\s*[）)]/` (generate.js line 395), returning the
symbol. -/
def matchSymbolAt (cs : List Char) : Option Char :=
  match cs with
  | [] => none
  | c :: r1 =>
    if isOpenParen c then
      match r1.dropWhile isJsWs with
      | [] => none
      | sym :: r2 =>
        if isCaseSymbol sym then
          match some r2 |> pWs |> pClass1 isCloseParen with
          | some _ => some sym
          | none => none
        else none
    else none

/-- One match of `/令\s*和\s*(\d+)\s*年/g` (generate.js line 401):
(parsed year, rest). -/
def matchYearAt (cs : List Char) : Option (Nat × List Char) :=
  match some cs |> pLit "令".data |> pWs |> pLit "和".data |> pWs with
  | none => none
  | some r1 =>
    let ds := r1.takeWhile isHalfDigit
    if ds.isEmpty then none
    else
      match some (r1.drop ds.length) |> pWs |> pLit "年".data with
      | none => none
      | some rest => some (digitsToNat ds, rest)

/-- The labeled-section fallback of case-number extraction (generate.js
lines 374-417).  Returns the field value and the `caseNumberGuessed`
flag (`none` when the source leaves the flag untouched). -/
def extractCaseNumberFallback (text : List Char) : Option (List Char) × Option Bool :=
  match scanFirst matchDispSectionAt text with
  | none => (none, none)
  | some sectionText =>
    match scanFirst matchDispFullAt sectionText with
    | some (year, symbol, num) =>
      (some ("令和".data ++ year ++ "年(".data ++ [symbol] ++ ")第".data ++ num
        ++ "号".data), none)
    | none =>
      match scanFirst matchNumAt sectionText with
      | none => (none, none)
      | some caseNum =>
        let symbolMatch := scanFirst matchSymbolAt sectionText
        let symbol := match symbolMatch with | some s => s | none => 'ワ'
        let guessed := symbolMatch.isNone
        match (scanAll matchYearAt (text.length + 1) text 0).map (fun x => x.2) with
        | [] =>
          (some ("(".data ++ [symbol] ++ ")第".data ++ caseNum ++ "号".data), some true)
        | y :: ys =>
          let minYear := ys.foldl Nat.min y
          (some ("令和".data ++ natToDec minYear ++ "年(".data ++ [symbol] ++ ")第".data
            ++ caseNum ++ "号".data), some guessed)

/-- Case-number extraction (generate.js lines 347-417): the four-pattern
cascade, then the labeled-section fallback. -/
def extractCaseNumber (text : List Char) : Option (List Char) × Option Bool :=
  match extractCaseNumberMain text with
  | some cn => (some cn, none)
  | none => extractCaseNumberFallback text

/-- The `(?:請求|確認|等?)\s*事件` tail of case-name pattern 2
(generate.js line 423), alternatives in regex order (請求, 確認, 等,
empty). -/
def matchKenAlts (cs : List Char) : Option (List Char) :=
  match some cs |> pLit "請求".data |> pWs |> pLit "事件".data with
  | some r => some r
  | none =>
    match some cs |> pLit "確認".data |> pWs |> pLit "事件".data with
    | some r => some r
    | none =>
      match some cs |> pLit "等".data |> pWs |> pLit "事件".data with
      | some r => some r
      | none => some cs |> pWs |> pLit "事件".data

/-- Greedy `[一-鿿]+` followed by a given tail, backtracking the run
length from the longest down, as the regex engine does. -/
def tryCjkThen (tail : List Char → Option (List Char)) (cs0 : List Char) :
    Nat → Option (List Char)
  | 0 => none
  | k + 1 =>
    if (cs0.take (k + 1)).all isKanji then
      match tail (cs0.drop (k + 1)) with
      | some r => some r
      | none => tryCjkThen tail cs0 k
    else tryCjkThen tail cs0 k

/-- Case-name pattern 1 (generate.js line 422):
`/損害\s*賠償[\s\S]{0,50}?請求\s*事件/` — no capture group. -/
def matchCaseNameAAt (cs : List Char) : Option (Option (List Char) × List Char) :=
  match some cs |> pLit "損害".data |> pWs |> pLit "賠償".data with
  | none => none
  | some r1 =>
    match lazyGap (fun cs2 => some cs2 |> pLit "請求".data |> pWs |> pLit "事件".data)
        r1 50 with
    | none => none
    | some rest => some (none, rest)

/-- Case-name pattern 2 (generate.js line 423):
`/(?:号\s*)([一-鿿]+(?:請求|確認|等?)\s*事件)/` — group 1 captured. -/
def matchCaseNameBAt (cs : List Char) : Option (Option (List Char) × List Char) :=
  match some cs |> pLit "号".data |> pWs with
  | none => none
  | some r1 =>
    match tryCjkThen matchKenAlts r1 (r1.takeWhile isKanji).length with
    | none => none
    | some rest => some (some (r1.take (r1.length - rest.length)), rest)

/-- Case-name pattern 3 (generate.js line 424): four fixed claim names,
then the generic `[一-鿿]+請求事件`; the whole alternation is group 1. -/
def matchCaseNameCAt (cs : List Char) : Option (Option (List Char) × List Char) :=
  let whole := fun (rest : List Char) =>
    some (some (cs.take (cs.length - rest.length)), rest)
  match dropLit "損害賠償請求事件".data cs with
  | some r => whole r
  | none =>
    match dropLit "貸金返還請求事件".data cs with
    | some r => whole r
    | none =>
      match dropLit "建物明渡請求事件".data cs with
      | some r => whole r
      | none =>
        match dropLit "不当利得返還請求事件".data cs with
        | some r => whole r
        | none =>
          match tryCjkThen (dropLit "請求事件".data) cs (cs.takeWhile isKanji).length with
          | some r => whole r
          | none => none

/-- Case-name pattern 4 (generate.js line 426):
`/([一-鿿]+\s+(?:請求|確認)\s*事件)/` — whitespace mandatory between the
compound word and its suffix. -/
def matchCaseNameDAt (cs : List Char) : Option (Option (List Char) × List Char) :=
  let tail := fun (cs2 : List Char) =>
    let ws := cs2.takeWhile isJsWs
    if ws.isEmpty then none
    else
      let r := cs2.drop ws.length
      match some r |> pLit "請求".data |> pWs |> pLit "事件".data with
      | some r2 => some r2
      | none => some r |> pLit "確認".data |> pWs |> pLit "事件".data
  match tryCjkThen tail cs (cs.takeWhile isKanji).length with
  | none => none
  | some rest => some (some (cs.take (cs.length - rest.length)), rest)

/-- Leftmost-match search returning (match[0] slice, group 1). -/
def scanFirstM0 (m : List Char → Option (Option (List Char) × List Char)) :
    List Char → Option (List Char × Option (List Char))
  | [] =>
    match m [] with
    | some (g, _) => some ([], g)
    | none => none
  | c :: cs =>
    match m (c :: cs) with
    | some (g, rest) => some ((c :: cs).take ((c :: cs).length - rest.length), g)
    | none => scanFirstM0 m cs

/-- The generic alternation `[一-鿿]+請求事件|[一-鿿]+確認事件` used for
cleanup (generate.js line 442), as a search returning the matched slice. -/
def cleanCaseNameInner (caseName : List Char) : Option (List Char) :=
  scanFirstSlice
    (fun cs =>
      match tryCjkThen (dropLit "請求事件".data) cs (cs.takeWhile isKanji).length with
      | some r => some r
      | none => tryCjkThen (dropLit "確認事件".data) cs (cs.takeWhile isKanji).length)
    caseName

/-- The post-match processing of a case-name match (generate.js lines
430-448): prefer group 1 when present and match[0] does not start with
損害; strip a leading `号`; strip whitespace; re-extract the contiguous
CJK run ending in a claim suffix, falling back to any text containing
事件. -/
def caseNameFromMatch (m0 : List Char) (g1 : Option (List Char)) : Option (List Char) :=
  let caseName :=
    match g1 with
    | some g => if !g.isEmpty && !("損害".data.isPrefixOf m0) then g else m0
    | none => m0
  let caseName :=
    match caseName with
    | '号' :: rest => rest.dropWhile isJsWs
    | other => other
  let caseName := stripJsWs caseName
  match cleanCaseNameInner caseName with
  | some cl => some cl
  | none => if containsSub caseName "事件".data then some caseName else none

/-- Case-name extraction (generate.js lines 419-450): the first pattern
of the cascade that matches ends the cascade (the source `break` runs
even when the cleanup yields nothing). -/
def extractCaseName (text : List Char) : Option (List Char) :=
  match scanFirstM0 matchCaseNameAAt text with
  | some (m0, g1) => caseNameFromMatch m0 g1
  | none =>
    match scanFirstM0 matchCaseNameBAt text with
    | some (m0, g1) => caseNameFromMatch m0 g1
    | none =>
      match scanFirstM0 matchCaseNameCAt text with
      | some (m0, g1) => caseNameFromMatch m0 g1
      | none =>
        match scanFirstM0 matchCaseNameDAt text with
        | some (m0, g1) => caseNameFromMatch m0 g1
        | none => none

/-- `/当\s*事\s*者[\s\S]{0,200}/` (generate.js lines 458-460): the label
plus (greedily) the next up-to-200 characters, as a slice. -/
def matchPartySectionAt (cs : List Char) : Option (List Char) :=
  match some cs |> pLit "当".data |> pWs |> pLit "事".data |> pWs |> pLit "者".data with
  | none => none
  | some r => some (cs.take (cs.length - r.length) ++ r.take 200)

def isUnderscoreWs (c : Char) : Bool := c = '_' || isJsWs c

/-- `/原\s*[告&]\s*[_\s]*([^\n原被]{1,40})/` (generate.js lines 466-468):
the `\s*[_\s]*` pair amounts to one greedy run over `\s ∪ {_}`, shortened
position by position until the capture can start. -/
def matchPlaintiffInPartyAt (cs : List Char) : Option (List Char) :=
  match cs with
  | '原' :: r1 =>
    match r1.dropWhile isJsWs with
    | c2 :: r2 =>
      if c2 = '告' || c2 = '&' then
        captureAfterRun (fun c => !(c = '\n' || c = '原' || c = '被')) 40 r2
          (r2.takeWhile isUnderscoreWs).length
      else none
    | [] => none
  | _ => none

/-- `/被\s*告\s*[_\s]*([^\n原被]{1,40})/` (generate.js lines 484-486). -/
def matchDefendantInPartyAt (cs : List Char) : Option (List Char) :=
  match cs with
  | '被' :: r1 =>
    match r1.dropWhile isJsWs with
    | '告' :: r2 =>
      captureAfterRun (fun c => !(c = '\n' || c = '原' || c = '被')) 40 r2
        (r2.takeWhile isUnderscoreWs).length
    | _ => none
  | _ => none

/-- `\s*(外\s*\d+\s*名)\s*$` anchored at the end (generate.js line 472):
when it matches here, the replacement is a space plus the
whitespace-stripped suffix. -/
def matchGaiSuffixAt (cs : List Char) : Option (List Char) :=
  match some cs |> pWs |> pLit "外".data |> pWs with
  | none => none
  | some r1 =>
    let ds := r1.takeWhile isHalfDigit
    if ds.isEmpty then none
    else
      match some (r1.drop ds.length) |> pWs |> pLit "名".data |> pWs with
      | some [] => some ("外".data ++ ds ++ "名".data)
      | _ => none

def replaceGaiGo : List Char → Option (List Char)
  | [] => none
  | c :: cs =>
    match matchGaiSuffixAt (c :: cs) with
    | some suf => some (' ' :: suf)
    | none => (replaceGaiGo cs).map (fun r => c :: r)

/-- `name.replace(/\s*(外\s*\d+\s*名)\s*$/, (_, s) => ' ' + s.replace(/\s+/g, ''))`
(generate.js lines 472-474): the leftmost end-anchored match is replaced. -/
def replaceGaiSuffix (cs : List Char) : List Char :=
  match replaceGaiGo cs with
  | some r => r
  | none => cs

/-- `name.split(/ (外\d+名)$/)` (generate.js line 475): splits off a
trailing `" 外N名"` (no inner whitespace), returning (prefix, token). -/
def splitGaiEndAt (cs : List Char) : Option (List Char) :=
  match cs with
  | ' ' :: r1 =>
    match dropLit "外".data r1 with
    | none => none
    | some r2 =>
      let ds := r2.takeWhile isHalfDigit
      if ds.isEmpty then none
      else
        if r2.drop ds.length = "名".data then some ("外".data ++ ds ++ "名".data)
        else none
  | _ => none

def splitGaiEndGo (acc : List Char) : List Char → Option (List Char × List Char)
  | [] => none
  | c :: cs =>
    match splitGaiEndAt (c :: cs) with
    | some tok => some (acc.reverse, tok)
    | none => splitGaiEndGo (c :: acc) cs

def splitGaiEnd (cs : List Char) : Option (List Char × List Char) :=
  splitGaiEndGo [] cs

/-- The party-name cleanup block, repeated verbatim in the source at
generate.js lines 470-480, 488-497, 511-520 and 535-544: trim, normalize
the trailing 「外N名」 suffix, then either keep the suffix as a separate
space-delimited trailing token with the name whitespace-stripped, or
strip all whitespace. -/
def cleanPartyName (raw : List Char) : List Char :=
  let name := jsTrim raw
  let name := replaceGaiSuffix name
  match splitGaiEnd name with
  | some (pre, tok) => stripJsWs pre ++ [' '] ++ tok
  | none => stripJsWs name

/-- Plaintiff fallback pattern 1 (generate.js line 504):
`/[【\[]\s*原\s*告\s*[】\]]\s*([^\n【\[]{1,30})/`. -/
def matchPlaintiffFb1At (cs : List Char) : Option (List Char) :=
  match cs with
  | c :: r1 =>
    if c = '【' || c = '[' then
      match some r1 |> pWs |> pLit "原".data |> pWs |> pLit "告".data |> pWs with
      | none => none
      | some r2 =>
        match r2 with
        | c2 :: r3 =>
          if c2 = '】' || c2 = ']' then
            captureAfterRun (fun c3 => !(c3 = '\n' || c3 = '【' || c3 = '[')) 30 r3
              (r3.takeWhile isJsWs).length
          else none
        | [] => none
    else none
  | [] => none

/-- The lookahead-guarded fallback tail `\s+(?!.*(?:訴訟|代理))(capture)`:
the mandatory whitespace run is backtracked from the longest length down;
at each stop the rest of the line must contain neither 訴訟 nor 代理
(`.` does not cross a newline) and the capture must be nonempty. -/
def fbLookaheadTail (capClass : Char → Bool) (maxLen : Nat) (r2 : List Char) :
    Nat → Option (List Char)
  | 0 => none
  | L + 1 =>
    let rest := r2.drop (L + 1)
    let lineRest := rest.takeWhile (fun c => c ≠ '\n')
    let okLook := !(containsSub lineRest "訴訟".data || containsSub lineRest "代理".data)
    let cap := (rest.takeWhile capClass).take maxLen
    if okLook && !cap.isEmpty then some cap
    else fbLookaheadTail capClass maxLen r2 L

/-- Plaintiff fallback pattern 2 (generate.js line 506):
`/原\s*告\s+(?!.*(?:訴訟|代理))([^\n（(被代訴]{1,20})/`. -/
def matchPlaintiffFb2At (cs : List Char) : Option (List Char) :=
  match cs with
  | '原' :: r1 =>
    match r1.dropWhile isJsWs with
    | '告' :: r2 =>
      fbLookaheadTail
        (fun c => !(c = '\n' || c = '（' || c = '(' || c = '被' || c = '代' || c = '訴'))
        20 r2 (r2.takeWhile isJsWs).length
    | _ => none
  | _ => none

/-- Defendant fallback pattern 1 (generate.js line 528):
`/[【\[]\s*(?:被|a)\s*告\s*[】\]]\s*([^\n【\[]{1,30})/` (the `a` is an OCR
artifact of 被). -/
def matchDefendantFb1At (cs : List Char) : Option (List Char) :=
  match cs with
  | c :: r1 =>
    if c = '【' || c = '[' then
      match r1.dropWhile isJsWs with
      | c1 :: r1b =>
        if c1 = '被' || c1 = 'a' then
          match some r1b |> pWs |> pLit "告".data |> pWs with
          | none => none
          | some r2 =>
            match r2 with
            | c2 :: r3 =>
              if c2 = '】' || c2 = ']' then
                captureAfterRun (fun c3 => !(c3 = '\n' || c3 = '【' || c3 = '[')) 30 r3
                  (r3.takeWhile isJsWs).length
              else none
            | [] => none
        else none
      | [] => none
    else none
  | [] => none

/-- Defendant fallback pattern 2 (generate.js line 530):
`/被\s*告\s+(?!.*(?:訴訟|代理))([^\n（(原代訴]{1,30})/`. -/
def matchDefendantFb2At (cs : List Char) : Option (List Char) :=
  match cs with
  | '被' :: r1 =>
    match r1.dropWhile isJsWs with
    | '告' :: r2 =>
      fbLookaheadTail
        (fun c => !(c = '\n' || c = '（' || c = '(' || c = '原' || c = '代' || c = '訴'))
        30 r2 (r2.takeWhile isJsWs).length
    | _ => none
  | _ => none

/-- JavaScript truthiness of an optional string field: `undefined` and
the empty string are falsy. -/
def truthy : Option (List Char) → Bool
  | none => false
  | some s => !s.isEmpty

/-- Plaintiff-name extraction (generate.js lines 452-524): the 当事者
section first; when that leaves the field falsy, the two fallback
patterns, the first match ending the loop. -/
def extractPlaintiffName (text : List Char) : Option (List Char) :=
  let v1 : Option (List Char) :=
    match scanFirst matchPartySectionAt text with
    | none => none
    | some sect =>
      match scanFirst matchPlaintiffInPartyAt sect with
      | none => none
      | some raw => some (cleanPartyName raw)
  if truthy v1 then v1
  else
    match scanFirst matchPlaintiffFb1At text with
    | some raw => some (cleanPartyName raw)
    | none =>
      match scanFirst matchPlaintiffFb2At text with
      | some raw => some (cleanPartyName raw)
      | none => v1

/-- Defendant-name extraction (generate.js lines 483-548), same shape. -/
def extractDefendantName (text : List Char) : Option (List Char) :=
  let v1 : Option (List Char) :=
    match scanFirst matchPartySectionAt text with
    | none => none
    | some sect =>
      match scanFirst matchDefendantInPartyAt sect with
      | none => none
      | some raw => some (cleanPartyName raw)
  if truthy v1 then v1
  else
    match scanFirst matchDefendantFb1At text with
    | some raw => some (cleanPartyName raw)
    | none =>
      match scanFirst matchDefendantFb2At text with
      | some raw => some (cleanPartyName raw)
      | none => v1

/-- The caller configuration (config.json, generate.js lines 29-36): the
firm's own lawyer names (`CONFIG.lawyerNames`) and fax numbers
(`CONFIG.faxNumbers`). -/
structure ExtractConfig where
  lawyerNames : List (List Char)
  faxNumbers : List (List Char)
  deriving DecidableEq, Repr

/-- A counsel-name candidate (generate.js lines 589, 599, 606, 618). -/
structure LawyerCand where
  name : List Char
  priority : Nat
  deriving DecidableEq, Repr

def cjkNameChar (c : Char) : Bool := isKanji c || isHiragana c || isKatakana c

/-- Removing a literal suffix once (`replace(/lit$/, '')`). -/
def dropSuffixLit (lit s : List Char) : List Char :=
  if lit.isSuffixOf s then s.take (s.length - lit.length) else s

/-- Removing the maximal suffix run of a class (`replace(/[cls]+$/, '')`). -/
def dropSuffixClassRun (p : Char → Bool) (s : List Char) : List Char :=
  (s.reverse.dropWhile p).reverse

/-- `cleanLawyerName` (generate.js lines 556-581): trim; keep only CJK
characters (the `match(/[一-鿿぀-ゟ゠-ヿ]+/g)` runs joined equal the
filter); drop a 「宛て」 suffix then any 宛殿様御中方和 suffix run; the
source's 5-character branch (lines 571-575) keeps the name unchanged;
reject lengths outside 2-6 and institutional-boilerplate first
characters. -/
def cleanLawyerName (rawName : List Char) : Option (List Char) :=
  let name := jsTrim rawName
  let cjkChars := name.filter cjkNameChar
  if cjkChars.isEmpty then none
  else
    let name := cjkChars
    let name := dropSuffixLit "宛て".data name
    let name := dropSuffixClassRun
      (fun c => c = '宛' || c = '殿' || c = '様' || c = '御' || c = '中' || c = '方' || c = '和')
      name
    if name.length < 2 || name.length > 6 then none
    else
      match name with
      | [] => none
      | c :: _ =>
        if c = '法' || c = '会' || c = '事' || c = '件' || c = '番' || c = '号' ||
            c = '裁' || c = '判' then none
        else some name

/-- A `([^\n]{2,20})`-style capture: greedily up to `maxLen` non-newline
characters, at least `minLen`; returns (capture, rest). -/
def pCapLine (minLen maxLen : Nat) (cs : List Char) : Option (List Char × List Char) :=
  let cap := (cs.takeWhile (fun c => c ≠ '\n')).take maxLen
  if cap.length < minLen then none else some (cap, cs.drop cap.length)

/-- Counsel pattern 1 (generate.js line 585):
`/原告\s*(?:ら)?\s*(?:訴\s*訟)?\s*代理\s*人\s*弁護\s*士\s*([^\n]{2,20})/g`.
Both optionals commit when present: the uncommitted variant would need
the following literal at the very character the optional consumed. -/
def matchLawyerP1At (cs : List Char) : Option (List Char × List Char) :=
  match some cs |> pLit "原告".data |> pWs |> pOpt (pLit "ら".data) |> pWs
      |> pOpt (fun st => st |> pLit "訴".data |> pWs |> pLit "訟".data) |> pWs
      |> pLit "代理".data |> pWs |> pLit "人".data |> pWs |> pLit "弁護".data |> pWs
      |> pLit "士".data |> pWs with
  | none => none
  | some r => pCapLine 2 20 r

/-- Counsel pattern 2 (generate.js line 593):
`/人\s*弁護\s*士\s*([^\n]{2,20})/g`. -/
def matchLawyerP2At (cs : List Char) : Option (List Char × List Char) :=
  match some cs |> pLit "人".data |> pWs |> pLit "弁護".data |> pWs
      |> pLit "士".data |> pWs with
  | none => none
  | some r => pCapLine 2 20 r

/-- The backtracked capture of counsel pattern 3: `([^\n]{2,15})\s*宛`,
capture length tried from the longest down. -/
def p3CapGo (r : List Char) : Nat → Option (List Char × List Char)
  | 0 => none
  | L + 1 =>
    if L + 1 < 2 then none
    else
      let cap := r.take (L + 1)
      match some (r.drop (L + 1)) |> pWs |> pLit "宛".data with
      | some rest => some (cap, rest)
      | none => p3CapGo r L

/-- Counsel pattern 3 (generate.js line 603):
`/弁護\s*士\s*([^\n]{2,15})\s*宛/g`. -/
def matchLawyerP3At (cs : List Char) : Option (List Char × List Char) :=
  match some cs |> pLit "弁護".data |> pWs |> pLit "士".data |> pWs with
  | none => none
  | some r => p3CapGo r ((r.takeWhile (fun c => c ≠ '\n')).take 15).length

/-- Counsel pattern 4 (generate.js line 612):
`/弁護\s*士\s*([^\n]{2,15})/g`. -/
def matchLawyerP4At (cs : List Char) : Option (List Char × List Char) :=
  match some cs |> pLit "弁護".data |> pWs |> pLit "士".data |> pWs with
  | none => none
  | some r => pCapLine 2 15 r

/-- Candidate collection (generate.js lines 583-620), in source order:
pattern 1 (priority 1); pattern 2 (priority 2) skipping matches whose
30-character lookback contains 被告; pattern 3 (priority 3); pattern 4
(priority 4) skipping a 50-character-lookback 被告 and names containing a
configured own-lawyer name. -/
def lawyerCandidates (cfg : ExtractConfig) (text : List Char) : List LawyerCand :=
  let p1 := (scanAll matchLawyerP1At (text.length + 1) text 0).filterMap
    (fun x => (cleanLawyerName x.2).map (fun n => (⟨n, 1⟩ : LawyerCand)))
  let p2 := (scanAll matchLawyerP2At (text.length + 1) text 0).filterMap
    (fun x =>
      if containsSub (lookback text x.1 30) "被告".data then none
      else (cleanLawyerName x.2).map (fun n => (⟨n, 2⟩ : LawyerCand)))
  let p3 := (scanAll matchLawyerP3At (text.length + 1) text 0).filterMap
    (fun x => (cleanLawyerName x.2).map (fun n => (⟨n, 3⟩ : LawyerCand)))
  let p4 := (scanAll matchLawyerP4At (text.length + 1) text 0).filterMap
    (fun x =>
      if containsSub (lookback text x.1 50) "被告".data then none
      else
        match cleanLawyerName x.2 with
        | none => none
        | some n =>
          if cfg.lawyerNames.any (fun own => containsSub n own) then none
          else some (⟨n, 4⟩ : LawyerCand))
  p1 ++ p2 ++ p3 ++ p4

/-- `[...new Set(names)]`: first-occurrence order deduplication. -/
def dedupNamesGo (seen : List (List Char)) : List (List Char) → List (List Char)
  | [] => []
  | n :: rest =>
    if seen.contains n then dedupNamesGo seen rest
    else n :: dedupNamesGo (n :: seen) rest

/-- `filter(name ==).sort(by priority)[0]` (generate.js lines 625-629):
the earliest candidate of minimal priority for a name (JavaScript sort is
stable). -/
def bestForName (n : List Char) (cands : List LawyerCand) : Option LawyerCand :=
  (cands.filter (fun c => c.name = n)).foldl
    (fun best c =>
      match best with
      | none => some c
      | some b => if c.priority < b.priority then some c else some b)
    none

/-- Name deduplication (generate.js lines 623-629). -/
def dedupCandidates (cands : List LawyerCand) : List LawyerCand :=
  (dedupNamesGo [] (cands.map (fun c => c.name))).filterMap
    (fun n => bestForName n cands)

def lawyerIdeal (c : LawyerCand) : Nat :=
  if 3 ≤ c.name.length ∧ c.name.length ≤ 4 then 0 else 1

/-- The comparator of generate.js lines 633-640 as a total preorder:
priority ascending, then 3-4-character names first, then longer names
first.  A stable sort under `lawyerLe` equals the (stable) JavaScript
`sort` under the source comparator. -/
def lawyerLe (a b : LawyerCand) : Bool :=
  if a.priority ≠ b.priority then a.priority < b.priority
  else if lawyerIdeal a ≠ lawyerIdeal b then lawyerIdeal a < lawyerIdeal b
  else b.name.length ≤ a.name.length

/-- Stable insertion sort: an element is inserted before the first
element it compares less-or-equal to, preserving the original order of
ties. -/
def insertStable (a : LawyerCand) : List LawyerCand → List LawyerCand
  | [] => [a]
  | b :: rest => if lawyerLe a b then a :: b :: rest else b :: insertStable a rest

def sortStable : List LawyerCand → List LawyerCand
  | [] => []
  | a :: rest => insertStable a (sortStable rest)

/-- Winner selection (generate.js lines 622-656): deduplicate, sort, take
the first; a 5-character winner is trimmed to 4 characters when some
candidate of length ≤ 3 is a prefix of it. -/
def resolveLawyer (cands : List LawyerCand) : Option (List Char) :=
  match cands with
  | [] => none
  | _ :: _ =>
    match sortStable (dedupCandidates cands) with
    | [] => none
    | best :: restSorted =>
      let bestName := best.name
      if bestName.length = 5 then
        match (best :: restSorted).find? (fun c =>
            decide (c.name.length ≤ 3) && c.name.isPrefixOf bestName) with
        | some _ => some (bestName.take 4)
        | none => some bestName
      else some bestName

/-- Counsel-name extraction (generate.js lines 550-656). -/
def extractPlaintiffLawyer (cfg : ExtractConfig) (text : List Char) : Option (List Char) :=
  resolveLawyer (lawyerCandidates cfg text)

/-- The court→fax dictionary `COURT_FAX_MAP` (generate.js lines 70-90),
in source (insertion) order. -/
def COURT_FAX_MAP : List (List Char × List Char) :=
  [("神戸地方裁判所尼崎支部".data, "06-6438-1710".data),
   ("大阪地方裁判所".data, "06-6316-2804".data),
   ("大阪高等裁判所".data, "06-6316-2804".data),
   ("東京地方裁判所".data, "03-3580-5611".data),
   ("東京高等裁判所".data, "03-3580-5611".data),
   ("広島地方裁判所".data, "082-228-0197".data),
   ("広島高等裁判所".data, "082-228-0197".data),
   ("広島地方裁判所福山支部".data, "084-923-2897".data),
   ("岡山地方裁判所".data, "086-222-6961".data),
   ("福岡地方裁判所".data, "092-781-3141".data),
   ("名古屋地方裁判所".data, "052-204-7780".data),
   ("京都地方裁判所".data, "075-211-4226".data),
   ("神戸地方裁判所".data, "078-367-1478".data),
   ("横浜地方裁判所".data, "045-212-0947".data),
   ("さいたま地方裁判所".data, "048-863-8761".data),
   ("千葉地方裁判所".data, "043-227-5601".data),
   ("仙台地方裁判所".data, "022-266-0091".data),
   ("札幌地方裁判所".data, "011-271-1456".data),
   ("山口地方裁判所".data, "083-922-1440".data)]

def courtFaxLookup (k : List Char) : Option (List Char) :=
  (COURT_FAX_MAP.find? (fun e => e.1 = k)).map (fun e => e.2)

/-- `Object.values(COURT_FAX_MAP)` (generate.js line 671). -/
def courtFaxValues : List (List Char) := COURT_FAX_MAP.map (fun e => e.2)

/-- `/民事第[０-９\d]+部.*$/` anchored here (generate.js line 662): the
qualifier plus everything to the end of the string (`.` cannot cross a
newline, `$` without the m-flag is the end of input). -/
def matchMinjiToEnd (cs : List Char) : Bool :=
  match dropLit "民事第".data cs with
  | none => false
  | some r1 =>
    let ds := r1.takeWhile (fun c => isFullDigit c || isHalfDigit c)
    if ds.isEmpty then false
    else
      match dropLit "部".data (r1.drop ds.length) with
      | none => false
      | some rest => rest.all (fun c => c ≠ '\n')

/-- Leftmost replacement of the above by the empty string. -/
def removeMinjiGo : List Char → List Char
  | [] => []
  | c :: cs => if matchMinjiToEnd (c :: cs) then [] else c :: removeMinjiGo cs

/-- `/第[０-９\d]+[民刑]事部$/` anchored here (generate.js line 663). -/
def matchDaiBuEnd (cs : List Char) : Bool :=
  match cs with
  | '第' :: r1 =>
    let ds := r1.takeWhile (fun c => isFullDigit c || isHalfDigit c)
    if ds.isEmpty then false
    else
      match r1.drop ds.length with
      | c :: r2 => (c = '民' || c = '刑') && r2 = "事部".data
      | [] => false
  | _ => false

def removeDaiBuGo : List Char → List Char
  | [] => []
  | c :: cs => if matchDaiBuEnd (c :: cs) then [] else c :: removeDaiBuGo cs

/-- The dictionary key: the court name with division qualifiers stripped
(generate.js lines 660-663). -/
def courtBaseOf (courtName : List Char) : List Char :=
  removeDaiBuGo (removeMinjiGo courtName)

/-- The dictionary-derived court fax (generate.js lines 658-665):
`COURT_FAX_MAP[courtBase] || ''` — absence yields the empty string. -/
def extractCourtFaxDict (courtName : Option (List Char)) : Option (List Char) :=
  if truthy courtName then
    match courtName with
    | none => none
    | some cn =>
      match courtFaxLookup (courtBaseOf cn) with
      | some fax => some fax
      | none => some []
  else none

/-- `normalizeFax` (generate.js lines 674-678): full-width digits to
half-width, 「－」 and 「ー」 to `-`. -/
def normalizeFax (raw : List Char) : List Char :=
  raw.map (fun c =>
    if isFullDigit c then Char.ofNat (c.toNat - 0xFEE0)
    else if c = '－' || c = 'ー' then '-' else c)

/-- `(?:FAX|ＦＡＸ|[Ff]ax)` (generate.js lines 683, 692, 708);
alternatives in regex order, pairwise incompatible at a position. -/
def matchFaxLabel (cs : List Char) : Option (List Char) :=
  match dropLit "FAX".data cs with
  | some r => some r
  | none =>
    match dropLit "ＦＡＸ".data cs with
    | some r => some r
    | none =>
      match cs with
      | c :: r => if c = 'F' || c = 'f' then dropLit "ax".data r else none
      | [] => none

/-- `[（(]\s*(?:FAX|ＦＡＸ|[Ff]ax)\s*([0-9０-９\-－ー]+)\s*[）)]`: the
parenthesized fax tail, returning (raw captured number, rest). -/
def matchParenFaxTail (cs : List Char) : Option (List Char × List Char) :=
  match cs with
  | c :: r1 =>
    if isOpenParen c then
      match matchFaxLabel (r1.dropWhile isJsWs) with
      | none => none
      | some r2 =>
        let r3 := r2.dropWhile isJsWs
        let ds := r3.takeWhile isFaxChar
        if ds.isEmpty then none
        else
          match (r3.drop ds.length).dropWhile isJsWs with
          | c2 :: r4 => if isCloseParen c2 then some (ds, r4) else none
          | [] => none
    else none
  | [] => none

/-- The explicit court-fax pattern (generate.js lines 682-684):
`/裁\s*判\s*所[\s\S]{0,60}?[（(]\s*(?:FAX|…)\s*([0-9…]+)\s*[）)]/`,
returning the raw capture. -/
def matchExplicitCourtFaxAt (cs : List Char) : Option (List Char) :=
  match some cs |> pLit "裁".data |> pWs |> pLit "判".data |> pWs |> pLit "所".data with
  | none => none
  | some r => lazyGap (fun cs2 => (matchParenFaxTail cs2).map (fun x => x.1)) r 60

/-- The greedy `([一-鿿]{1,10})` label of the explicit-fax pattern
(generate.js line 692), tried from 10 characters down to 1, each followed
by `\s*` and the parenthesized fax tail. -/
def explicitFaxGo (cs : List Char) : Nat → Option ((List Char × List Char) × List Char)
  | 0 => none
  | L + 1 =>
    let lab := cs.take (L + 1)
    if lab.length = L + 1 && lab.all isKanji then
      match matchParenFaxTail ((cs.drop (L + 1)).dropWhile isJsWs) with
      | some (ds, rest) => some ((lab, ds), rest)
      | none => explicitFaxGo cs L
    else explicitFaxGo cs L

/-- One match of the explicit labeled-fax pattern (generate.js line 692):
((label, raw fax), rest). -/
def matchExplicitFaxAt (cs : List Char) : Option ((List Char × List Char) × List Char) :=
  explicitFaxGo cs 10

/-- One iteration of the explicit-fax loop (generate.js lines 698-705):
skip labels naming the court, skip the fax already identified as the
court's, test against the own-fax list, and fill `plaintiffLawyerFax`
first-wins. -/
def explicitFaxStep (own : List (List Char)) (cfp : Option (List Char))
    (acc : Option (List Char)) (e : List Char × List Char) : Option (List Char) :=
  if containsSub e.1 "裁判".data || containsSub e.1 "裁判所".data then acc
  else if truthy cfp && decide (some e.2 = cfp) then acc
  else
    if !(own.any (fun p => containsSub e.2 p)) && !(truthy acc) then some e.2 else acc

/-- The separator class `[：:\s]` of the plain fax pattern
(generate.js line 708). -/
def isFaxSep (c : Char) : Bool := c = '：' || c = ':' || isJsWs c

/-- One match of `/(?:FAX|ＦＡＸ|[Ff]ax)[：:\s]*([0-9０-９\-－ー]+)/g`
(generate.js lines 708-714): (normalized fax, rest). -/
def matchFaxEntryAt (cs : List Char) : Option (List Char × List Char) :=
  match matchFaxLabel cs with
  | none => none
  | some r1 =>
    let r2 := r1.dropWhile isFaxSep
    let ds := r2.takeWhile isFaxChar
    if ds.isEmpty then none else some (normalizeFax ds, r2.drop ds.length)

/-- `/原告\s*(?:ら)?\s*訴\s*訟\s*代\s*理\s*人/` (generate.js line 737). -/
def matchPlaintiffCounselAt (cs : List Char) : Option (List Char) :=
  some cs |> pLit "原告".data |> pWs |> pOpt (pLit "ら".data) |> pWs
    |> pLit "訴".data |> pWs |> pLit "訟".data |> pWs |> pLit "代".data
    |> pWs |> pLit "理".data |> pWs |> pLit "人".data

def matchesPlaintiffCounsel (cs : List Char) : Bool :=
  (scanFirst matchPlaintiffCounselAt cs).isSome

/-- `/被告\s*(?:ら)?\s*訴\s*訟\s*代\s*理\s*人/` (generate.js line 741). -/
def matchDefendantCounselAt (cs : List Char) : Option (List Char) :=
  some cs |> pLit "被告".data |> pWs |> pOpt (pLit "ら".data) |> pWs
    |> pLit "訴".data |> pWs |> pLit "訟".data |> pWs |> pLit "代".data
    |> pWs |> pLit "理".data |> pWs |> pLit "人".data

def matchesDefendantCounsel (cs : List Char) : Bool :=
  (scanFirst matchDefendantCounselAt cs).isSome

/-- `/弁護\s*士/` (generate.js line 738). -/
def matchesBengoshi (cs : List Char) : Bool :=
  (scanFirst (fun c => some c |> pLit "弁護".data |> pWs |> pLit "士".data) cs).isSome

/-- The fax-role state threaded through the classification loop. -/
structure FaxState where
  courtFaxFromPdf : Option (List Char)
  plaintiffLawyerFax : Option (List Char)
  deriving DecidableEq, Repr

/-- One iteration of the plain fax-entry classification loop
(generate.js lines 716-764): skip own faxes; skip the fax already known
as the court's; classify via the 200-character lookback window — a
defendant's-counsel window is skipped for every role, a dictionary court
fax fills `courtFaxFromPdf`, a plaintiff's-counsel window (and the
permissive default) fills `plaintiffLawyerFax` — first value per role
wins.  The source's `textAfter` (lines 732-734) is computed but never
used and is omitted. -/
def faxEntryStep (cfg : ExtractConfig) (text : List Char) (st : FaxState)
    (entry : Nat × List Char) : FaxState :=
  if cfg.faxNumbers.any (fun p => containsSub entry.2 p) then st
  else if truthy st.courtFaxFromPdf &&
      (match st.courtFaxFromPdf with
       | some c => containsSub entry.2 c
       | none => false) then st
  else
    let isKnownCourtFax := courtFaxValues.any (fun cf => containsSub entry.2 cf)
    let textBefore := lookback text entry.1 200
    let isNearPlaintiffLawyer := matchesPlaintiffCounsel textBefore ||
      (matchesBengoshi textBefore && !(containsSub textBefore "被告".data))
    let isNearDefendantLawyer := matchesDefendantCounsel textBefore
    if isNearDefendantLawyer then st
    else if isKnownCourtFax then
      if !(truthy st.courtFaxFromPdf) then { st with courtFaxFromPdf := some entry.2 }
      else st
    else if isNearPlaintiffLawyer then
      if !(truthy st.plaintiffLawyerFax) then { st with plaintiffLawyerFax := some entry.2 }
      else st
    else
      if !(truthy st.plaintiffLawyerFax) then { st with plaintiffLawyerFax := some entry.2 }
      else st

/-- The whole fax section (generate.js lines 667-764): the explicit
court-fax pattern, the explicit labeled-fax loop, then the plain
fax-entry classification loop. -/
def extractFaxSection (cfg : ExtractConfig) (text : List Char) : FaxState :=
  let cfp0 := (scanFirst matchExplicitCourtFaxAt text).map normalizeFax
  let explicitEntries := (scanAll matchExplicitFaxAt (text.length + 1) text 0).map
    (fun x => (x.2.1, normalizeFax x.2.2))
  let plf0 := explicitEntries.foldl (explicitFaxStep cfg.faxNumbers cfp0) none
  let entries := scanAll matchFaxEntryAt (text.length + 1) text 0
  entries.foldl (faxEntryStep cfg text) ⟨cfp0, plf0⟩

/-- The Normalizer (generate.js lines 324-326):
`replace(/\r\n/g, '\n').replace(/\r/g, '\n')` — the fused single pass is
equivalent to the two sequential global replaces. -/
def normalizeNewlines : List Char → List Char
  | [] => []
  | '\r' :: '\n' :: rest => '\n' :: normalizeNewlines rest
  | '\r' :: rest => '\n' :: normalizeNewlines rest
  | c :: rest => c :: normalizeNewlines rest

/-- The DocumentInfo record produced by `extractInfoFromText`
(generate.js lines 321-772).  A field the source leaves unset is `none`;
a field set to `''` is `some []` (both are falsy in the source's
truthiness tests, modeled by `truthy`). -/
structure DocumentInfo where
  courtName : Option (List Char)
  caseNumber : Option (List Char)
  caseNumberGuessed : Option Bool
  caseName : Option (List Char)
  plaintiffName : Option (List Char)
  defendantName : Option (List Char)
  plaintiffLawyer : Option (List Char)
  courtFax : Option (List Char)
  courtFaxFromPdf : Option (List Char)
  plaintiffLawyerFax : Option (List Char)
  deriving DecidableEq, Repr

/-- `extractInfoFromText` (generate.js lines 321-772): newline
normalization, then the per-field sections in source order; the final
step promotes a PDF-derived court fax over the dictionary value
(lines 766-769). -/
def extractInfoFromText (cfg : ExtractConfig) (text : List Char) : DocumentInfo :=
  let normalizedText := normalizeNewlines text
  let courtName := extractCourtName normalizedText
  let cn := extractCaseNumber normalizedText
  let caseName := extractCaseName normalizedText
  let plaintiffName := extractPlaintiffName normalizedText
  let defendantName := extractDefendantName normalizedText
  let plaintiffLawyer := extractPlaintiffLawyer cfg normalizedText
  let courtFaxDict := extractCourtFaxDict courtName
  let fx := extractFaxSection cfg normalizedText
  let courtFax := if truthy fx.courtFaxFromPdf then fx.courtFaxFromPdf else courtFaxDict
  { courtName := courtName, caseNumber := cn.1, caseNumberGuessed := cn.2,
    caseName := caseName, plaintiffName := plaintiffName,
    defendantName := defendantName, plaintiffLawyer := plaintiffLawyer,
    courtFax := courtFax, courtFaxFromPdf := fx.courtFaxFromPdf,
    plaintiffLawyerFax := fx.plaintiffLawyerFax }

/-- The default runtime configuration (generate.js line 31):
`lawyerNames: []`, `faxNumbers: []`. -/
def defaultConfig : ExtractConfig := ⟨[], []⟩

/-- A defendant's-counsel fax line immediately followed by a
plaintiff's-counsel fax line (less than 200 characters apart). -/
def tAdj : List Char :=
  "被告訴訟代理人 FAX 03-0000-0000\n原告訴訟代理人 FAX 06-1111-1111".data

/-- The same two fax lines separated by more than 200 characters of
filler, so the second lookback window no longer sees the first label. -/
def tFar : List Char :=
  "被告訴訟代理人 FAX 03-0000-0000\n".data ++ List.replicate 210 'x' ++
  "\n原告訴訟代理人 FAX 06-1111-1111".data

/-- Insert one space between every pair of adjacent characters (the
spacing variant named by the spec). -/
def spaceEvery : List Char → List Char
  | [] => []
  | [c] => [c]
  | c :: cs => c :: ' ' :: spaceEvery cs

/-- An era-year + bracketed case-type symbol + serial-number case number
with no inserted whitespace (full-width brackets). -/
def plainCase (y n : List Char) (sym : Char) : List Char :=
  "令和".data ++ (y ++ ("年（".data ++ (sym :: ("）第".data ++ (n ++ "号".data)))))

/-- The same case number with a single space between every pair of
adjacent characters except inside the two digit runs. -/
def spacedCase (y n : List Char) (sym : Char) : List Char :=
  "令 和 ".data ++ (y ++ (" 年 （ ".data ++ (sym :: (" ） 第 ".data ++ (n ++ " 号".data)))))

/-- The normalized value both variants must produce (whitespace
stripped, half-width brackets). -/
def caseValue (y n : List Char) (sym : Char) : List Char :=
  "令和".data ++ (y ++ ("年(".data ++ (sym :: (")第".data ++ (n ++ "号".data)))))

/-- The spec's own counsel-name example: a spaced 5-character raw
capture together with a 2-character shorter candidate. -/
def t8good : List Char := "原告訴訟代理人弁護士 石 口 俊 一 知\n弁護士 石口 宛".data

/-- A 5-character winner whose co-existing shorter candidate has 4
characters: a strict prefix, but longer than 3 characters. -/
def t8bad : List Char := "原告訴訟代理人弁護士 石口俊一知\n弁護士 石口俊一 宛".data

/-- Whitespace-freeness of a field value. -/
def wsFree (s : List Char) : Bool := s.all (fun c => !(isJsWs c))

/-- The canonical fax alphabet: half-width digits and the ASCII hyphen. -/
def faxCanon (s : List Char) : Bool := s.all (fun c => isHalfDigit c || c = '-')

/-- No full-width bracket characters (canonical case numbers). -/
def noFwBrackets (s : List Char) : Bool := s.all (fun c => !(c = '（' || c = '）'))

/-- The party block of a cover sheet naming a plaintiff with an 外N名
(and-N-others) suffix. -/
def t9 : List Char := "当事者\n原告 山田民子 外1名\n".data

theorem joinedText_nil : joinedText [] = [] := rfl

theorem joinedText_cons (s : WtSeg) (rest : List WtSeg) :
    joinedText (s :: rest) = s.text ++ joinedText rest := by
  simp [joinedText]

theorem withPos_length (segs : List WtSeg) (i p : Nat) :
    (withPos segs i p).length = segs.length := by
  induction segs generalizing i p with
  | nil => rfl
  | cons s rest ih => simp [withPos, ih]

theorem withPos_bounds (segs : List WtSeg) (i p : Nat) :
    ∀ x ∈ withPos segs i p,
      i ≤ x.idx ∧ p ≤ x.startPos ∧ x.startPos ≤ x.endPos ∧
        x.endPos ≤ p + (joinedText segs).length ∧
        x.endPos = x.startPos + x.seg.text.length := by
  induction segs generalizing i p with
  | nil => intro x hx; simp [withPos] at hx
  | cons s rest ih =>
    intro x hx
    simp only [withPos, List.mem_cons] at hx
    rcases hx with rfl | hx
    · refine ⟨?_, ?_, ?_, ?_, ?_⟩ <;> simp only [joinedText_cons, List.length_append] <;> omega
    · have h := ih (i + 1) (p + s.text.length) x hx
      simp only [joinedText_cons, List.length_append]
      omega

theorem withPos_containing_unique (segs : List WtSeg) (i p q : Nat) :
    ∀ x ∈ withPos segs i p, ∀ y ∈ withPos segs i p,
      x.startPos ≤ q → q < x.endPos → y.startPos ≤ q → q < y.endPos → x = y := by
  induction segs generalizing i p with
  | nil => intro x hx; simp [withPos] at hx
  | cons s rest ih =>
    intro x hx y hy hx1 hx2 hy1 hy2
    simp only [withPos, List.mem_cons] at hx hy
    rcases hx with rfl | hx <;> rcases hy with rfl | hy
    · rfl
    · exact absurd ((withPos_bounds _ _ _ y hy).2.1) (by simp at hx2 ⊢; omega)
    · exact absurd ((withPos_bounds _ _ _ x hx).2.1) (by simp at hy2 ⊢; omega)
    · exact ih (i + 1) (p + s.text.length) x hx y hy hx1 hx2 hy1 hy2

theorem affSegs_nil_of_after (segs : List WtSeg) (i p mStart mEnd : Nat)
    (h : mEnd ≤ p) : affSegs (withPos segs i p) mStart mEnd = [] := by
  induction segs generalizing i p with
  | nil => rfl
  | cons s rest ih =>
    simp only [affSegs, withPos, List.filter_cons]
    have : ¬ (p < mEnd) := by omega
    simp only [decide_eq_true_eq, this, decide_False, Bool.and_false, if_false]
    exact ih (i + 1) (p + s.text.length) (by omega)

theorem aff_head_of_before (segs : List WtSeg) (mStart mEnd : Nat)
    (hlt : mStart < mEnd) :
    ∀ i p, p ≤ mStart → mStart < p + (joinedText segs).length →
      ∃ x, (affSegs (withPos segs i p) mStart mEnd).head? = some x ∧
        x.startPos ≤ mStart ∧ mStart < x.endPos := by
  induction segs with
  | nil => intro i p h1 h2; simp [joinedText] at h2; omega
  | cons s rest ih =>
    intro i p h1 h2
    by_cases hc : mStart < p + s.text.length
    · refine ⟨⟨i, s, p, p + s.text.length⟩, ?_, h1, hc⟩
      simp only [affSegs, withPos, List.filter_cons]
      have : (decide (mStart < p + s.text.length) && decide (p < mEnd)) = true := by
        simp; omega
      simp [this]
    · have h2' : mStart < p + s.text.length + (joinedText rest).length := by
        simp only [joinedText_cons, List.length_append] at h2; omega
      obtain ⟨x, hx, hx1, hx2⟩ := ih (i + 1) (p + s.text.length) (by omega) h2'
      refine ⟨x, ?_, hx1, hx2⟩
      simp only [affSegs, withPos, List.filter_cons] at hx ⊢
      have : ¬ (mStart < p + s.text.length) := hc
      simp only [decide_eq_true_eq, this, decide_False, Bool.false_and, if_false]
      exact hx

theorem getLast?_cons_of_ne_nil {α : Type} (a : α) (l : List α) (h : l ≠ []) :
    (a :: l).getLast? = l.getLast? := by
  cases l with
  | nil => exact absurd rfl h
  | cons b t => exact List.getLast?_cons_cons

theorem aff_getLast_of_before (segs : List WtSeg) (mStart mEnd : Nat)
    (hlt : mStart < mEnd) :
    ∀ i p, p < mEnd → mEnd ≤ p + (joinedText segs).length →
      ∃ x, (affSegs (withPos segs i p) mStart mEnd).getLast? = some x ∧
        x.startPos < mEnd ∧ mEnd ≤ x.endPos := by
  induction segs with
  | nil => intro i p h1 h2; simp [joinedText] at h2; omega
  | cons s rest ih =>
    intro i p h1 h2
    by_cases hc : mEnd ≤ p + s.text.length
    · refine ⟨⟨i, s, p, p + s.text.length⟩, ?_, h1, hc⟩
      have hpred : (decide (mStart < p + s.text.length) && decide (p < mEnd)) = true := by
        simp; omega
      have htail := affSegs_nil_of_after rest (i + 1) (p + s.text.length) mStart mEnd hc
      simp only [affSegs] at htail ⊢
      simp only [withPos, List.filter_cons, hpred, if_true, htail]
      rfl
    · have h2' : mEnd ≤ p + s.text.length + (joinedText rest).length := by
        simp only [joinedText_cons, List.length_append] at h2; omega
      obtain ⟨x, hx, hx1, hx2⟩ := ih (i + 1) (p + s.text.length) (by omega) h2'
      refine ⟨x, ?_, hx1, hx2⟩
      have hne : affSegs (withPos rest (i + 1) (p + s.text.length)) mStart mEnd ≠ [] := by
        intro hnil; rw [hnil] at hx; exact Option.noConfusion hx
      simp only [affSegs] at hx hne ⊢
      simp only [withPos, List.filter_cons]
      by_cases hp : (decide (mStart < p + s.text.length) && decide (p < mEnd)) = true
      · simp only [hp, if_true]
        rw [getLast?_cons_of_ne_nil _ _ hne]
        exact hx
      · simp only [Bool.not_eq_true] at hp
        simp only [hp, Bool.false_eq_true, if_false]
        exact hx

theorem mem_of_head?_eq {α : Type} {l : List α} {a : α} (h : l.head? = some a) : a ∈ l := by
  cases l with
  | nil => exact Option.noConfusion h
  | cons b t =>
    simp only [List.head?_cons, Option.some.injEq] at h
    exact h ▸ List.mem_cons_self b t

theorem mem_of_getLast?_eq {α : Type} {l : List α} {a : α} (h : l.getLast? = some a) : a ∈ l := by
  induction l with
  | nil => exact Option.noConfusion h
  | cons b t ih =>
    cases t with
    | nil =>
      simp only [List.getLast?_singleton, Option.some.injEq] at h
      exact h ▸ List.mem_cons_self b []
    | cons c u =>
      rw [List.getLast?_cons_cons] at h
      exact List.mem_cons_of_mem b (ih h)

theorem aff_mem_iff (segs : List WtSeg) (mStart mEnd : Nat) :
    ∀ x ∈ withPos segs 0 0,
      (x ∈ affSegs (withPos segs 0 0) mStart mEnd ↔
        (mStart < x.endPos ∧ x.startPos < mEnd)) := by
  intro x hx
  simp [affSegs, List.mem_filter, hx]

theorem aff_head_iff (segs : List WtSeg) (mStart mEnd : Nat)
    (hlt : mStart < mEnd) (hle : mEnd ≤ (joinedText segs).length) :
    ∀ x ∈ withPos segs 0 0,
      ((affSegs (withPos segs 0 0) mStart mEnd).head? = some x ↔
        (x.startPos ≤ mStart ∧ mStart < x.endPos)) := by
  obtain ⟨x0, hx0, hx01, hx02⟩ :=
    aff_head_of_before segs mStart mEnd hlt 0 0 (Nat.zero_le _) (by omega)
  intro x hx
  constructor
  · intro h
    rw [hx0] at h
    cases h
    exact ⟨hx01, hx02⟩
  · rintro ⟨h1, h2⟩
    have hx0mem : x0 ∈ withPos segs 0 0 :=
      List.mem_of_mem_filter (mem_of_head?_eq hx0)
    have := withPos_containing_unique segs 0 0 mStart x hx x0 hx0mem h1 h2 hx01 hx02
    rw [this]
    exact hx0

theorem aff_getLast_iff (segs : List WtSeg) (mStart mEnd : Nat)
    (hlt : mStart < mEnd) (hle : mEnd ≤ (joinedText segs).length) :
    ∀ x ∈ withPos segs 0 0,
      ((affSegs (withPos segs 0 0) mStart mEnd).getLast? = some x ↔
        (x.startPos < mEnd ∧ mEnd ≤ x.endPos)) := by
  obtain ⟨x0, hx0, hx01, hx02⟩ :=
    aff_getLast_of_before segs mStart mEnd hlt 0 0 (by omega) (by omega)
  intro x hx
  constructor
  · intro h
    rw [hx0] at h
    cases h
    exact ⟨hx01, hx02⟩
  · rintro ⟨h1, h2⟩
    have hx0mem : x0 ∈ withPos segs 0 0 :=
      List.mem_of_mem_filter (mem_of_getLast?_eq hx0)
    have := withPos_containing_unique segs 0 0 (mEnd - 1) x hx x0 hx0mem
      (by omega) (by omega) (by omega) (by omega)
    rw [this]
    exact hx0

theorem withPos_map_seg (segs : List WtSeg) (i p : Nat) :
    (withPos segs i p).map PosSeg.seg = segs := by
  induction segs generalizing i p with
  | nil => rfl
  | cons s rest ih => simp [withPos, ih]

theorem withPos_get (segs : List WtSeg) (i p : Nat) :
    ∀ x ∈ withPos segs i p, (withPos segs i p)[x.idx - i]? = some x := by
  induction segs generalizing i p with
  | nil => intro x hx; simp [withPos] at hx
  | cons s rest ih =>
    intro x hx
    simp only [withPos, List.mem_cons] at hx
    rcases hx with rfl | hx
    · simp [withPos]
    · have hlb := (withPos_bounds rest (i + 1) (p + s.text.length) x hx).1
      have hrw : x.idx - i = (x.idx - (i + 1)) + 1 := by omega
      rw [withPos, hrw, List.getElem?_cons_succ]
      exact ih (i + 1) (p + s.text.length) x hx

theorem spliceGo_after (mStart mEnd : Nat) (newT : List Char) :
    ∀ segs p, mEnd ≤ p → spliceGo mStart mEnd newT segs p = segs := by
  intro segs
  induction segs with
  | nil => intro p _; rfl
  | cons s rest ih =>
    intro p h
    rw [spliceGo, if_pos (Or.inr h)]
    rw [ih (p + s.text.length) (by omega)]

theorem spliceGo_inside (mStart mEnd : Nat) (newT : List Char) :
    ∀ segs p, mStart < p →
      joinedText (spliceGo mStart mEnd newT segs p) = (joinedText segs).drop (mEnd - p) := by
  intro segs
  induction segs with
  | nil => intro p _; simp [spliceGo, joinedText]
  | cons s rest ih =>
    intro p h
    by_cases h1 : mEnd ≤ p
    · rw [spliceGo, if_pos (Or.inr h1),
        spliceGo_after mStart mEnd newT rest (p + s.text.length) (by omega)]
      have : mEnd - p = 0 := by omega
      rw [this, List.drop_zero]
    · have hnotleft : ¬ (p + s.text.length ≤ mStart ∨ mEnd ≤ p) := by omega
      by_cases h2 : mEnd ≤ p + s.text.length
      · have hdrop : (mEnd - p) ≤ s.text.length := by omega
        rw [spliceGo, if_neg hnotleft, if_neg (by omega), if_neg (by omega), if_pos h2,
          spliceGo_after mStart mEnd newT rest (p + s.text.length) h2]
        by_cases h3 : s.text.drop (mEnd - p) = []
        · simp only [h3, ne_eq, not_true_eq_false, if_false, joinedText_cons,
            List.drop_append_eq_append_drop, h3]
          have : mEnd - p - s.text.length = 0 := by omega
          rw [this, List.drop_zero]
        · simp only [ne_eq, h3, not_false_eq_true, if_true, joinedText_cons,
            List.drop_append_eq_append_drop]
          have : mEnd - p - s.text.length = 0 := by omega
          rw [this, List.drop_zero]
      · rw [spliceGo, if_neg hnotleft, if_neg (by omega), if_neg (by omega), if_neg h2]
        rw [joinedText_cons, joinedText_cons]
        rw [ih (p + s.text.length) (by omega)]
        rw [List.drop_append_eq_append_drop]
        rw [List.drop_eq_nil_of_le (by omega : s.text.length ≤ mEnd - p)]
        have : mEnd - p - s.text.length = mEnd - (p + s.text.length) := by omega
        rw [this, List.nil_append]

theorem spliceGo_before (mStart mEnd : Nat) (newT : List Char) (hlt : mStart < mEnd) :
    ∀ segs p, p ≤ mStart → mEnd ≤ p + (joinedText segs).length →
      joinedText (spliceGo mStart mEnd newT segs p) =
        (joinedText segs).take (mStart - p) ++ newT ++ (joinedText segs).drop (mEnd - p) := by
  intro segs
  induction segs with
  | nil => intro p h1 h2; simp [joinedText] at h2; omega
  | cons s rest ih =>
    intro p h1 h2
    have h2' : mEnd ≤ p + (s.text.length + (joinedText rest).length) := by
      simpa [joinedText_cons] using h2
    by_cases hA : p + s.text.length ≤ mStart
    · rw [spliceGo, if_pos (Or.inl hA)]
      rw [joinedText_cons, joinedText_cons]
      rw [ih (p + s.text.length) hA (by omega)]
      rw [List.take_append_eq_append_take, List.drop_append_eq_append_drop]
      rw [List.take_of_length_le (by omega : s.text.length ≤ mStart - p)]
      rw [List.drop_eq_nil_of_le (by omega : s.text.length ≤ mEnd - p)]
      have e1 : mStart - p - s.text.length = mStart - (p + s.text.length) := by omega
      have e2 : mEnd - p - s.text.length = mEnd - (p + s.text.length) := by omega
      rw [e1, e2, List.nil_append]
      simp [List.append_assoc]
    · have hmid : mStart < p + s.text.length := by omega
      by_cases hB : mEnd ≤ p + s.text.length
      · rw [spliceGo, if_neg (by omega), if_pos ⟨h1, hB⟩,
          spliceGo_after mStart mEnd newT rest (p + s.text.length) hB]
        rw [joinedText_cons, joinedText_cons]
        rw [List.take_append_eq_append_take, List.drop_append_eq_append_drop]
        have e1 : mStart - p - s.text.length = 0 := by omega
        have e2 : mEnd - p - s.text.length = 0 := by omega
        rw [e1, e2, List.take_zero, List.drop_zero]
        simp [spliceWithin, List.append_assoc]
      · rw [spliceGo, if_neg (by omega), if_neg (by omega), if_pos h1]
        rw [joinedText_cons, joinedText_cons]
        rw [spliceGo_inside mStart mEnd newT rest (p + s.text.length) (by omega)]
        rw [List.take_append_eq_append_take, List.drop_append_eq_append_drop]
        have e1 : mStart - p - s.text.length = 0 := by omega
        rw [e1, List.take_zero]
        rw [List.drop_eq_nil_of_le (by omega : s.text.length ≤ mEnd - p)]
        have e2 : mEnd - p - s.text.length = mEnd - (p + s.text.length) := by omega
        rw [e2]
        simp [List.append_assoc]

theorem map_multiStep_eq_spliceGo (mStart mEnd : Nat) (newT : List Char) (aff : List PosSeg) :
    ∀ segs i p,
      (∀ x ∈ withPos segs i p,
        ((x ∈ aff) ↔ (mStart < x.endPos ∧ x.startPos < mEnd)) ∧
        (aff.head? = some x ↔ (x.startPos ≤ mStart ∧ mStart < x.endPos)) ∧
        (aff.getLast? = some x ↔ (x.startPos < mEnd ∧ mEnd ≤ x.endPos))) →
      (withPos segs i p).map (multiStep aff mStart mEnd newT) = spliceGo mStart mEnd newT segs p := by
  intro segs
  induction segs with
  | nil => intro i p _; rfl
  | cons s rest ih =>
    intro i p hIff
    have h0 := hIff ⟨i, s, p, p + s.text.length⟩ (by simp [withPos])
    have htail : ∀ x ∈ withPos rest (i + 1) (p + s.text.length),
        ((x ∈ aff) ↔ (mStart < x.endPos ∧ x.startPos < mEnd)) ∧
        (aff.head? = some x ↔ (x.startPos ≤ mStart ∧ mStart < x.endPos)) ∧
        (aff.getLast? = some x ↔ (x.startPos < mEnd ∧ mEnd ≤ x.endPos)) := by
      intro x hx
      exact hIff x (by simp [withPos, List.mem_cons, hx])
    rw [withPos, List.map_cons, ih (i + 1) (p + s.text.length) htail]
    rw [spliceGo]
    by_cases hA : p + s.text.length ≤ mStart ∨ mEnd ≤ p
    · rw [if_pos hA]
      have hnm : ⟨i, s, p, p + s.text.length⟩ ∉ aff := by
        intro hmem
        have := h0.1.mp hmem
        simp only at this
        omega
      rw [multiStep, if_pos hnm]
    · rw [if_neg hA]
      have hmem : (⟨i, s, p, p + s.text.length⟩ : PosSeg) ∈ aff := by
        apply h0.1.mpr
        constructor <;> [skip; skip] <;> simp <;> omega
      rw [multiStep, if_neg (by simpa using hmem)]
      by_cases hB : p ≤ mStart ∧ mEnd ≤ p + s.text.length
      · rw [if_pos hB]
        have hh : aff.head? = some ⟨i, s, p, p + s.text.length⟩ :=
          h0.2.1.mpr ⟨hB.1, by simp; omega⟩
        have hl : aff.getLast? = some ⟨i, s, p, p + s.text.length⟩ :=
          h0.2.2.mpr ⟨by simp; omega, hB.2⟩
        rw [if_pos ⟨hh, hl⟩]
      · rw [if_neg hB]
        by_cases hC : p ≤ mStart
        · have he : ¬ mEnd ≤ p + s.text.length := fun hc => hB ⟨hC, hc⟩
          rw [if_pos hC]
          have hh : aff.head? = some ⟨i, s, p, p + s.text.length⟩ :=
            h0.2.1.mpr ⟨hC, by simp; omega⟩
          have hl : aff.getLast? ≠ some ⟨i, s, p, p + s.text.length⟩ := by
            intro hc
            have := h0.2.2.mp hc
            simp only at this
            omega
          rw [if_neg (by intro hc; exact hl hc.2), if_pos hh]
        · rw [if_neg hC]
          have hh : aff.head? ≠ some ⟨i, s, p, p + s.text.length⟩ := by
            intro hc
            have := h0.2.1.mp hc
            simp only at this
            omega
          by_cases hD : mEnd ≤ p + s.text.length
          · rw [if_pos hD]
            have hl : aff.getLast? = some ⟨i, s, p, p + s.text.length⟩ :=
              h0.2.2.mpr ⟨by simp; omega, hD⟩
            rw [if_neg (by intro hc; exact hh hc.1), if_neg hh, if_pos hl]
          · rw [if_neg hD]
            have hl : aff.getLast? ≠ some ⟨i, s, p, p + s.text.length⟩ := by
              intro hc
              have := h0.2.2.mp hc
              simp only at this
              omega
            rw [if_neg (by intro hc; exact hh hc.1), if_neg hh, if_neg hl]

theorem singleStep_eq_multiStep (mStart mEnd : Nat) (newT : List Char) (aff : List PosSeg)
    (hone : aff.length = 1) (x : PosSeg) :
    singleStep aff mStart mEnd newT x = multiStep aff mStart mEnd newT x := by
  obtain ⟨a, rfl⟩ := List.length_eq_one.mp hone
  by_cases hx : x ∈ [a]
  · have hxa : x = a := by simpa using hx
    subst hxa
    rw [singleStep, if_pos hx, multiStep, if_neg (by simp)]
    rw [if_pos ⟨rfl, rfl⟩]
  · rw [singleStep, if_neg hx, multiStep, if_pos hx]

theorem firstMatchIdx_bound (hay old : List Char) :
    ∀ i, firstMatchIdx hay old = some i → i + old.length ≤ hay.length := by
  induction hay with
  | nil =>
    intro i h
    rw [firstMatchIdx] at h
    by_cases hp : old.isPrefixOf ([] : List Char)
    · rw [if_pos hp] at h
      cases h
      have := (List.isPrefixOf_iff_prefix.mp hp).length_le
      simpa using this
    · rw [if_neg hp] at h
      exact Option.noConfusion h
  | cons c t ih =>
    intro i h
    rw [firstMatchIdx] at h
    by_cases hp : old.isPrefixOf (c :: t)
    · rw [if_pos hp] at h
      cases h
      have := (List.isPrefixOf_iff_prefix.mp hp).length_le
      simpa using this
    · rw [if_neg hp] at h
      simp only [Option.map_eq_some'] at h
      obtain ⟨j, hj, rfl⟩ := h
      have := ih j hj
      simp only [List.length_cons]
      omega

theorem safeReplaceInXml_text (segs : List WtSeg) (oldT newT : List Char)
    (hne : oldT ≠ []) (hc : containsSub (joinedText segs) oldT = true) :
    joinedText (safeReplaceInXml segs oldT newT) =
      replaceFirstOcc (joinedText segs) oldT newT := by
  obtain ⟨mStart, hm⟩ : ∃ i, firstMatchIdx (joinedText segs) oldT = some i := by
    cases h : firstMatchIdx (joinedText segs) oldT with
    | none => rw [containsSub, h] at hc; exact absurd hc (by simp)
    | some i => exact ⟨i, rfl⟩
  have hbound := firstMatchIdx_bound (joinedText segs) oldT mStart hm
  have holdlen : 0 < oldT.length := List.length_pos.mpr hne
  have hlt : mStart < mStart + oldT.length := by omega
  have hle : mStart + oldT.length ≤ (joinedText segs).length := hbound
  have hsegs : segs ≠ [] := by
    intro h
    subst h
    rw [joinedText_nil] at hle
    simp only [List.length_nil, Nat.le_zero] at hle
    omega
  have hIff : ∀ x ∈ withPos segs 0 0,
      ((x ∈ affSegs (withPos segs 0 0) mStart (mStart + oldT.length)) ↔
        (mStart < x.endPos ∧ x.startPos < mStart + oldT.length)) ∧
      ((affSegs (withPos segs 0 0) mStart (mStart + oldT.length)).head? = some x ↔
        (x.startPos ≤ mStart ∧ mStart < x.endPos)) ∧
      ((affSegs (withPos segs 0 0) mStart (mStart + oldT.length)).getLast? = some x ↔
        (x.startPos < mStart + oldT.length ∧ mStart + oldT.length ≤ x.endPos)) :=
    fun x hx =>
      ⟨aff_mem_iff segs mStart (mStart + oldT.length) x hx,
       aff_head_iff segs mStart (mStart + oldT.length) hlt hle x hx,
       aff_getLast_iff segs mStart (mStart + oldT.length) hlt hle x hx⟩
  have haffne : affSegs (withPos segs 0 0) mStart (mStart + oldT.length) ≠ [] := by
    obtain ⟨x0, hx0, -, -⟩ :=
      aff_head_of_before segs mStart (mStart + oldT.length) hlt 0 0 (Nat.zero_le _) (by omega)
    intro hnil
    rw [hnil] at hx0
    exact Option.noConfusion hx0
  rw [replaceFirstOcc, hm]
  rw [safeReplaceInXml, if_neg hsegs, hm]
  simp only [if_neg haffne]
  by_cases hone : (affSegs (withPos segs 0 0) mStart (mStart + oldT.length)).length = 1
  · rw [if_pos hone]
    have hfun : singleStep (affSegs (withPos segs 0 0) mStart (mStart + oldT.length))
          mStart (mStart + oldT.length) newT =
        multiStep (affSegs (withPos segs 0 0) mStart (mStart + oldT.length))
          mStart (mStart + oldT.length) newT :=
      funext (singleStep_eq_multiStep mStart (mStart + oldT.length) newT _ hone)
    rw [hfun, map_multiStep_eq_spliceGo mStart (mStart + oldT.length) newT _ segs 0 0 hIff]
    rw [spliceGo_before mStart (mStart + oldT.length) newT hlt segs 0 (Nat.zero_le _) (by omega)]
    simp
  · rw [if_neg hone]
    rw [map_multiStep_eq_spliceGo mStart (mStart + oldT.length) newT _ segs 0 0 hIff]
    rw [spliceGo_before mStart (mStart + oldT.length) newT hlt segs 0 (Nat.zero_le _) (by omega)]
    simp

theorem safeReplaceInXml_of_not_contains (segs : List WtSeg) (oldT newT : List Char)
    (hc : containsSub (joinedText segs) oldT = false) :
    safeReplaceInXml segs oldT newT = segs := by
  have hm : firstMatchIdx (joinedText segs) oldT = none := by
    rw [containsSub] at hc
    exact Option.not_isSome_iff_eq_none.mp (by simp [hc])
  by_cases hsegs : segs = []
  · rw [safeReplaceInXml, if_pos hsegs]
  · rw [safeReplaceInXml, if_neg hsegs, hm]

theorem safeReplaceInXml_length (segs : List WtSeg) (oldT newT : List Char) :
    (safeReplaceInXml segs oldT newT).length = segs.length := by
  by_cases hsegs : segs = []
  · rw [safeReplaceInXml, if_pos hsegs]
  · rw [safeReplaceInXml, if_neg hsegs]
    cases hm : firstMatchIdx (joinedText segs) oldT with
    | none => rfl
    | some mStart =>
      simp only
      split_ifs
      · rfl
      · rw [List.length_map, withPos_length]
      · rw [List.length_map, withPos_length]

theorem safeReplaceInXml_unaffected (segs : List WtSeg) (oldT newT : List Char)
    (mStart : Nat) (hm : firstMatchIdx (joinedText segs) oldT = some mStart) :
    ∀ x ∈ withPos segs 0 0,
      ¬ (mStart < x.endPos ∧ x.startPos < mStart + oldT.length) →
      (safeReplaceInXml segs oldT newT)[x.idx]? = some x.seg := by
  intro x hx hnot
  have hget : (withPos segs 0 0)[x.idx]? = some x := by
    have := withPos_get segs 0 0 x hx
    simpa using this
  have hxnotaff : x ∉ affSegs (withPos segs 0 0) mStart (mStart + oldT.length) := by
    intro hmem
    rw [affSegs, List.mem_filter] at hmem
    simp only [Bool.and_eq_true, decide_eq_true_eq] at hmem
    exact hnot hmem.2
  have hsegs : segs ≠ [] := by
    intro h
    subst h
    simp [withPos] at hx
  rw [safeReplaceInXml, if_neg hsegs, hm]
  simp only
  split_ifs
  · rw [← withPos_map_seg segs 0 0, List.getElem?_map, hget]
    rfl
  · rw [List.getElem?_map, hget]
    simp only [Option.map_some']
    rw [singleStep, if_neg hxnotaff]
  · rw [List.getElem?_map, hget]
    simp only [Option.map_some']
    rw [multiStep, if_pos hxnotaff]

theorem safeReplaceInXml_middle (segs : List WtSeg) (oldT newT : List Char)
    (mStart : Nat) (hm : firstMatchIdx (joinedText segs) oldT = some mStart) :
    ∀ x ∈ withPos segs 0 0,
      (mStart < x.endPos ∧ x.startPos < mStart + oldT.length) →
      (affSegs (withPos segs 0 0) mStart (mStart + oldT.length)).head? ≠ some x →
      (affSegs (withPos segs 0 0) mStart (mStart + oldT.length)).getLast? ≠ some x →
      (safeReplaceInXml segs oldT newT)[x.idx]? = some ⟨x.seg.attrs, []⟩ := by
  intro x hx hpred hnoth hnotl
  have hget : (withPos segs 0 0)[x.idx]? = some x := by
    have := withPos_get segs 0 0 x hx
    simpa using this
  have hxaff : x ∈ affSegs (withPos segs 0 0) mStart (mStart + oldT.length) := by
    rw [affSegs, List.mem_filter]
    simp only [Bool.and_eq_true, decide_eq_true_eq]
    exact ⟨hx, hpred⟩
  have haffne : affSegs (withPos segs 0 0) mStart (mStart + oldT.length) ≠ [] := by
    intro hnil
    rw [hnil] at hxaff
    simp at hxaff
  have hsegs : segs ≠ [] := by
    intro h
    subst h
    simp [withPos] at hx
  rw [safeReplaceInXml, if_neg hsegs, hm]
  simp only [if_neg haffne]
  by_cases hone : (affSegs (withPos segs 0 0) mStart (mStart + oldT.length)).length = 1
  · exfalso
    obtain ⟨a, ha⟩ := List.length_eq_one.mp hone
    rw [ha] at hxaff
    have : x = a := by simpa using hxaff
    subst this
    rw [ha] at hnoth
    exact hnoth rfl
  · rw [if_neg hone, List.getElem?_map, hget]
    simp only [Option.map_some']
    rw [multiStep, if_neg (by simp [hxaff]), if_neg (by intro hcon; exact hnoth hcon.1),
      if_neg hnoth, if_neg hnotl]

/-- **C1** (amended: `oldValue` must be nonempty).  For every Block whose
concatenated run text contains a nonempty `oldValue`, `safeReplaceInXml`
returns a Block whose concatenated visible run text equals the original
concatenated text with the first occurrence of `oldValue` replaced by
`newValue`; in particular a Block with runs `["ABC","DEF"]` after
replacing `"CD"` with `"XYZ"` yields exactly the two runs
`["ABXYZ","EF"]` (concatenation `"ABXYZEF"`), the first run's pre-match
prefix and the second run's post-match suffix intact. -/
theorem claim_C1_run_safe_substitution :
    (∀ (segs : List WtSeg) (oldT newT : List Char), oldT ≠ [] →
      containsSub (joinedText segs) oldT = true →
      joinedText (safeReplaceInXml segs oldT newT) =
        replaceFirstOcc (joinedText segs) oldT newT) ∧
    (safeReplaceInXml [⟨[], "ABC".data⟩, ⟨[], "DEF".data⟩] "CD".data "XYZ".data).map WtSeg.text
      = ["ABXYZ".data, "EF".data] :=
  ⟨safeReplaceInXml_text, by decide⟩

/-- **C1** counterexample: with `oldValue = ""` (which every concatenated
text contains), the code returns the Block unchanged, so the concatenated
text does not equal the original with one occurrence of `oldValue`
replaced by `newValue = "X"`. -/
theorem claim_C1_counterexample :
    containsSub (joinedText [⟨[], "A".data⟩]) [] = true ∧
    safeReplaceInXml [⟨[], "A".data⟩] [] "X".data = [⟨[], "A".data⟩] ∧
    joinedText (safeReplaceInXml [⟨[], "A".data⟩] [] "X".data) ≠
      replaceFirstOcc (joinedText [⟨[], "A".data⟩]) [] "X".data := by
  decide

/-- Witness for **C1**: the amended theorem applied at the Block
`["ABC","DEF"]` with `oldValue = "CD"`, `newValue = "XYZ"`. -/
theorem claim_C1_witness :
    joinedText (safeReplaceInXml [⟨[], "ABC".data⟩, ⟨[], "DEF".data⟩] "CD".data "XYZ".data) =
      replaceFirstOcc (joinedText [⟨[], "ABC".data⟩, ⟨[], "DEF".data⟩]) "CD".data "XYZ".data :=
  claim_C1_run_safe_substitution.1 _ _ _ (by decide) (by decide)

/-- **C2**.  `safeReplaceInXml` (a) leaves every Block whose concatenated
run text does not contain `oldValue` unchanged, (b) always preserves the
number of runs (no run is ever deleted), (c) returns every run outside
the match span `[mStart, mStart + |oldValue|)` unchanged, and (d) turns
every affected run that is neither the first nor the last affected run
into an empty run that keeps its attributes. -/
theorem claim_C2_frame_effect :
    (∀ (segs : List WtSeg) (oldT newT : List Char),
      containsSub (joinedText segs) oldT = false →
      safeReplaceInXml segs oldT newT = segs) ∧
    (∀ (segs : List WtSeg) (oldT newT : List Char),
      (safeReplaceInXml segs oldT newT).length = segs.length) ∧
    (∀ (segs : List WtSeg) (oldT newT : List Char) (mStart : Nat),
      firstMatchIdx (joinedText segs) oldT = some mStart →
      ∀ x ∈ withPos segs 0 0,
        ¬ (mStart < x.endPos ∧ x.startPos < mStart + oldT.length) →
        (safeReplaceInXml segs oldT newT)[x.idx]? = some x.seg) ∧
    (∀ (segs : List WtSeg) (oldT newT : List Char) (mStart : Nat),
      firstMatchIdx (joinedText segs) oldT = some mStart →
      ∀ x ∈ withPos segs 0 0,
        (mStart < x.endPos ∧ x.startPos < mStart + oldT.length) →
        (affSegs (withPos segs 0 0) mStart (mStart + oldT.length)).head? ≠ some x →
        (affSegs (withPos segs 0 0) mStart (mStart + oldT.length)).getLast? ≠ some x →
        (safeReplaceInXml segs oldT newT)[x.idx]? = some ⟨x.seg.attrs, []⟩) :=
  ⟨safeReplaceInXml_of_not_contains, safeReplaceInXml_length,
   safeReplaceInXml_unaffected, safeReplaceInXml_middle⟩

/-- Witness for **C2**: the three-run Block `["AB","CD","EF"]` with the
match `"BCDE"` spanning all three runs: a Block not containing `"GG"` is
unchanged, run count is preserved, and the middle run becomes an empty
run; for the two-run Block `["ABC","DEF"]` with match `"EF"` the first
run (outside the span) is returned unchanged. -/
theorem claim_C2_witness :
    safeReplaceInXml [⟨[], "AB".data⟩, ⟨[], "CD".data⟩, ⟨[], "EF".data⟩] "GG".data "Z".data
      = [⟨[], "AB".data⟩, ⟨[], "CD".data⟩, ⟨[], "EF".data⟩] ∧
    (safeReplaceInXml [⟨[], "AB".data⟩, ⟨[], "CD".data⟩, ⟨[], "EF".data⟩] "BCDE".data
      "Z".data).length = 3 ∧
    (safeReplaceInXml [⟨[], "ABC".data⟩, ⟨[], "DEF".data⟩] "EF".data "Z".data)[0]?
      = some ⟨[], "ABC".data⟩ ∧
    (safeReplaceInXml [⟨[], "AB".data⟩, ⟨[], "CD".data⟩, ⟨[], "EF".data⟩] "BCDE".data
      "Z".data)[1]? = some ⟨[], []⟩ := by
  refine ⟨claim_C2_frame_effect.1 _ _ _ (by decide),
    claim_C2_frame_effect.2.1 _ _ _,
    ?_, ?_⟩
  · have h := claim_C2_frame_effect.2.2.1 [⟨[], "ABC".data⟩, ⟨[], "DEF".data⟩]
      "EF".data "Z".data 4 (by decide) ⟨0, ⟨[], "ABC".data⟩, 0, 3⟩ (by decide) (by decide)
    exact h
  · have h := claim_C2_frame_effect.2.2.2 [⟨[], "AB".data⟩, ⟨[], "CD".data⟩, ⟨[], "EF".data⟩]
      "BCDE".data "Z".data 1 (by decide) ⟨1, ⟨[], "CD".data⟩, 2, 4⟩ (by decide) (by decide)
      (by decide) (by decide)
    exact h

theorem findReceiptPageGo_cons (ocr : Nat → List OcrWord) (p : Nat) (rest : List Nat)
    (bestP : Nat) (bestS : Option Int) :
    findReceiptPageGo ocr (p :: rest) bestP bestS =
      (if 50 ≤ scoreReceiptPage (ocr p) then (p, [p])
       else
        ((findReceiptPageGo ocr rest
            (if bestS.all (fun b => decide (b < scoreReceiptPage (ocr p))) then p else bestP)
            (if bestS.all (fun b => decide (b < scoreReceiptPage (ocr p))) then
              some (scoreReceiptPage (ocr p)) else bestS)).1,
         p :: (findReceiptPageGo ocr rest
            (if bestS.all (fun b => decide (b < scoreReceiptPage (ocr p))) then p else bestP)
            (if bestS.all (fun b => decide (b < scoreReceiptPage (ocr p))) then
              some (scoreReceiptPage (ocr p)) else bestS)).2)) := rfl

theorem findReceiptPageGo_early (ocr : Nat → List OcrWord) :
    ∀ (l : List Nat) (bestP : Nat) (bestS : Option Int) (p0 : Nat),
      l.find? (fun p => decide (50 ≤ scoreReceiptPage (ocr p))) = some p0 →
      (findReceiptPageGo ocr l bestP bestS).1 = p0 ∧
      (findReceiptPageGo ocr l bestP bestS).2 =
        l.takeWhile (fun p => decide (scoreReceiptPage (ocr p) < 50)) ++ [p0] := by
  intro l
  induction l with
  | nil => intro bestP bestS p0 h; exact absurd h (by simp)
  | cons p rest ih =>
    intro bestP bestS p0 h
    by_cases hp : 50 ≤ scoreReceiptPage (ocr p)
    · rw [List.find?_cons_of_pos _ (by simpa using hp)] at h
      cases h
      rw [findReceiptPageGo_cons, if_pos hp]
      exact ⟨rfl, by rw [List.takeWhile_cons_of_neg (by simpa using hp)]; rfl⟩
    · rw [List.find?_cons_of_neg _ (by simpa using hp)] at h
      rw [findReceiptPageGo_cons, if_neg hp]
      have := ih
        (if bestS.all (fun b => decide (b < scoreReceiptPage (ocr p))) then p else bestP)
        (if bestS.all (fun b => decide (b < scoreReceiptPage (ocr p))) then
          some (scoreReceiptPage (ocr p)) else bestS) p0 h
      refine ⟨this.1, ?_⟩
      rw [List.takeWhile_cons_of_pos (by simpa using hp)]
      simp [this.2]

theorem findReceiptPageGo_all_scored (ocr : Nat → List OcrWord) :
    ∀ (l : List Nat) (bestP : Nat) (bestS : Option Int),
      (∀ p ∈ l, scoreReceiptPage (ocr p) < 50) →
      (findReceiptPageGo ocr l bestP bestS).2 = l := by
  intro l
  induction l with
  | nil => intro bestP bestS _; rfl
  | cons p rest ih =>
    intro bestP bestS h
    have hp : ¬ 50 ≤ scoreReceiptPage (ocr p) := by
      have := h p (List.mem_cons_self p rest)
      omega
    rw [findReceiptPageGo_cons, if_neg hp]
    have := ih
      (if bestS.all (fun b => decide (b < scoreReceiptPage (ocr p))) then p else bestP)
      (if bestS.all (fun b => decide (b < scoreReceiptPage (ocr p))) then
        some (scoreReceiptPage (ocr p)) else bestS)
      (fun q hq => h q (List.mem_cons_of_mem p hq))
    simp [this]

theorem findReceiptPageGo_max (ocr : Nat → List OcrWord) :
    ∀ (l : List Nat) (bestP : Nat),
      (∀ p ∈ l, scoreReceiptPage (ocr p) < 50) →
      ((findReceiptPageGo ocr l bestP (some (scoreReceiptPage (ocr bestP)))).1 = bestP ∨
        (findReceiptPageGo ocr l bestP (some (scoreReceiptPage (ocr bestP)))).1 ∈ l) ∧
      scoreReceiptPage (ocr bestP) ≤
        scoreReceiptPage (ocr (findReceiptPageGo ocr l bestP
          (some (scoreReceiptPage (ocr bestP)))).1) ∧
      (∀ q ∈ l, scoreReceiptPage (ocr q) ≤
        scoreReceiptPage (ocr (findReceiptPageGo ocr l bestP
          (some (scoreReceiptPage (ocr bestP)))).1)) := by
  intro l
  induction l with
  | nil =>
    intro bestP _
    exact ⟨Or.inl rfl, le_refl _, by intro q hq; simp at hq⟩
  | cons p rest ih =>
    intro bestP h
    have hp : ¬ 50 ≤ scoreReceiptPage (ocr p) := by
      have := h p (List.mem_cons_self p rest)
      omega
    have hrest : ∀ q ∈ rest, scoreReceiptPage (ocr q) < 50 :=
      fun q hq => h q (List.mem_cons_of_mem p hq)
    rw [findReceiptPageGo_cons, if_neg hp]
    by_cases hbetter : scoreReceiptPage (ocr bestP) < scoreReceiptPage (ocr p)
    · have hd : (some (scoreReceiptPage (ocr bestP))).all
          (fun b => decide (b < scoreReceiptPage (ocr p))) = true := by
        simpa using hbetter
      rw [hd]
      simp only [if_true]
      have hih := ih p hrest
      refine ⟨?_, ?_, ?_⟩
      · rcases hih.1 with h1 | h1
        · exact Or.inr (by rw [h1]; exact List.mem_cons_self p rest)
        · exact Or.inr (List.mem_cons_of_mem p h1)
      · exact le_trans (le_of_lt hbetter) hih.2.1
      · intro q hq
        rcases List.mem_cons.mp hq with rfl | hq
        · exact hih.2.1
        · exact hih.2.2 q hq
    · have hd : (some (scoreReceiptPage (ocr bestP))).all
          (fun b => decide (b < scoreReceiptPage (ocr p))) = false := by
        simpa using hbetter
      rw [hd]
      simp only [Bool.false_eq_true, if_false]
      have hih := ih bestP hrest
      refine ⟨?_, hih.2.1, ?_⟩
      · rcases hih.1 with h1 | h1
        · exact Or.inl h1
        · exact Or.inr (List.mem_cons_of_mem p h1)
      · intro q hq
        rcases List.mem_cons.mp hq with rfl | hq
        · have := hih.2.1
          omega
        · exact hih.2.2 q hq

/-- **C3**.  The receipt-page locator: a single-page input returns page 1
immediately without scoring any page; a multi-page input scans the pages
in the order `[1, totalPages, 2, 3, …, totalPages−1]`; the scan stops at
the first page (in that order) whose score reaches 50, returning it with
no later page evaluated; when no page reaches 50, every page of the scan
order is evaluated and a page of maximal score is returned. -/
theorem claim_C3_receipt_page_locator :
    (∀ ocr : Nat → List OcrWord, findReceiptPage ocr 1 = (1, [])) ∧
    (∀ totalPages : Nat, 2 ≤ totalPages →
      scanOrder totalPages = 1 :: totalPages :: List.range' 2 (totalPages - 2)) ∧
    (∀ (ocr : Nat → List OcrWord) (totalPages p0 : Nat), 2 ≤ totalPages →
      (scanOrder totalPages).find? (fun p => decide (50 ≤ scoreReceiptPage (ocr p)))
        = some p0 →
      (findReceiptPage ocr totalPages).1 = p0 ∧
      (findReceiptPage ocr totalPages).2 =
        (scanOrder totalPages).takeWhile
          (fun p => decide (scoreReceiptPage (ocr p) < 50)) ++ [p0]) ∧
    (∀ (ocr : Nat → List OcrWord) (totalPages : Nat), 2 ≤ totalPages →
      (∀ p ∈ scanOrder totalPages, scoreReceiptPage (ocr p) < 50) →
      (findReceiptPage ocr totalPages).2 = scanOrder totalPages ∧
      (findReceiptPage ocr totalPages).1 ∈ scanOrder totalPages ∧
      ∀ q ∈ scanOrder totalPages,
        scoreReceiptPage (ocr q) ≤
          scoreReceiptPage (ocr (findReceiptPage ocr totalPages).1)) := by
  refine ⟨fun ocr => rfl, fun totalPages _ => rfl, ?_, ?_⟩
  · intro ocr totalPages p0 h2 hfind
    rw [findReceiptPage, if_neg (by omega)]
    exact findReceiptPageGo_early ocr (scanOrder totalPages) 1 none p0 hfind
  · intro ocr totalPages h2 hall
    rw [findReceiptPage, if_neg (by omega)]
    constructor
    · exact findReceiptPageGo_all_scored ocr (scanOrder totalPages) 1 none hall
    · rcases hsc : scanOrder totalPages with - | ⟨p, rest⟩
      · exact absurd hsc (by simp [scanOrder])
      · have hp : ¬ 50 ≤ scoreReceiptPage (ocr p) := by
          have := hall p (by rw [hsc]; exact List.mem_cons_self p rest)
          omega
        have hrest : ∀ q ∈ rest, scoreReceiptPage (ocr q) < 50 := by
          intro q hq
          exact hall q (by rw [hsc]; exact List.mem_cons_of_mem p hq)
        rw [findReceiptPageGo_cons, if_neg hp]
        simp only [Option.all_none, if_true]
        have hih := findReceiptPageGo_max ocr rest p hrest
        refine ⟨?_, ?_⟩
        · rcases hih.1 with h1 | h1
          · rw [h1]; exact List.mem_cons_self p rest
          · exact List.mem_cons_of_mem p h1
        · intro q hq
          rcases List.mem_cons.mp hq with rfl | hq
          · exact hih.2.1
          · exact hih.2.2 q hq

/-- Witness for **C3**: a five-page document where only page 4 carries the
「受領書」 label: the locator scans `[1, 5, 2, 3, 4]`, scores page 4 at 50
and returns it; and a single-page document returns page 1 with no page
scored. -/
theorem claim_C3_witness :
    findReceiptPage (fun p => if p = 4 then [⟨"受領書".data, 10, 20, 40, 30⟩] else []) 1
      = (1, []) ∧
    (findReceiptPage (fun p => if p = 4 then [⟨"受領書".data, 10, 20, 40, 30⟩] else []) 5).1
      = 4 ∧
    (findReceiptPage (fun p => if p = 4 then [⟨"受領書".data, 10, 20, 40, 30⟩] else []) 5).2
      = [1, 5, 2, 3, 4] := by
  refine ⟨claim_C3_receipt_page_locator.1 _, ?_⟩
  have h := claim_C3_receipt_page_locator.2.2.1
    (fun p => if p = 4 then [⟨"受領書".data, 10, 20, 40, 30⟩] else []) 5 4
    (by omega) (by decide)
  refine ⟨h.1, ?_⟩
  rw [h.2]
  decide

theorem foldl_choice_mem {α : Type} (c : α → α → Bool) :
    ∀ (l : List α) (a : α), l.foldl (fun x y => if c x y then x else y) a ∈ a :: l := by
  intro l
  induction l with
  | nil => intro a; simp
  | cons b t ih =>
    intro a
    rw [List.foldl_cons]
    by_cases hc : c a b = true
    · rw [if_pos hc]
      rcases List.mem_cons.mp (ih a) with h | h
      · rw [h]; exact List.mem_cons_self a (b :: t)
      · exact List.mem_cons_of_mem a (List.mem_cons_of_mem b h)
    · rw [if_neg hc]
      rcases List.mem_cons.mp (ih b) with h | h
      · rw [h]; exact List.mem_cons_of_mem a (List.mem_cons_self b t)
      · exact List.mem_cons_of_mem a (List.mem_cons_of_mem b h)

theorem pickRightmost_mem (g : OcrWord) (gs : List OcrWord) : pickRightmost g gs ∈ g :: gs := by
  have := foldl_choice_mem (fun a b : OcrWord => decide (a.x1 > b.x1)) gs g
  simpa [pickRightmost] using this

theorem pickTopmost_mem (g : OcrWord) (gs : List OcrWord) : pickTopmost g gs ∈ g :: gs := by
  have := foldl_choice_mem (fun a b : OcrWord => decide (a.y1 < b.y1)) gs g
  simpa [pickTopmost] using this

theorem detectGyouWord_none (words : List OcrWord)
    (h : ∀ w ∈ receiptRegionWords words, w.text ≠ "行".data) :
    detectGyouWord words = none := by
  have hnil : (receiptRegionWords words).filter (fun w => w.text = "行".data) = [] := by
    rw [List.filter_eq_nil_iff]
    intro w hw
    simp [h w hw]
  simp only [detectGyouWord, hnil]

theorem detectGyouWord_exact (words : List OcrWord) (g : OcrWord)
    (h : detectGyouWord words = some g) :
    g ∈ receiptRegionWords words ∧ g.text = "行".data := by
  simp only [detectGyouWord] at h
  rcases hfil : (receiptRegionWords words).filter (fun w => w.text = "行".data)
      with - | ⟨g0, gs⟩
  · rw [hfil] at h
    exact Option.noConfusion h
  · rw [hfil] at h
    simp only at h
    have hmem : g ∈ g0 :: gs := by
      rcases hbengo : (receiptRegionWords words).find? (fun w =>
          containsSub w.text "弁護".data || containsSub w.text "護士".data) with - | b
      · rw [hbengo] at h
        simp only [Option.some.injEq] at h
        rw [← h]
        exact pickTopmost_mem g0 gs
      · rw [hbengo] at h
        simp only at h
        rcases hline : (g0 :: gs).filter (fun w => decide ((w.y1 - b.y1).natAbs < 60))
            with - | ⟨g2, gs2⟩
        · rw [hline] at h
          simp only [Option.some.injEq] at h
          rw [← h]
          exact pickTopmost_mem g0 gs
        · rw [hline] at h
          simp only [Option.some.injEq] at h
          rw [← h]
          have hm : pickRightmost g2 gs2 ∈ g2 :: gs2 := pickRightmost_mem g2 gs2
          rw [← hline] at hm
          exact List.mem_of_mem_filter hm
    rw [← hfil] at hmem
    have hmf := List.mem_filter.mp hmem
    exact ⟨List.mem_of_mem_filter hmem, by simpa using hmf.2⟩

/-- **C4**.  The strike-target anchor: only a token whose OCR text is
exactly the literal word 「行」 (single-token equality) inside the receipt
sub-region can become the anchor; when no such token exists the anchor is
`none` — never estimated — and the downstream strike-through/「先生」
annotation step of `generateReceipt` is skipped. -/
theorem claim_C4_strike_anchor :
    (∀ words : List OcrWord,
      (∀ w ∈ receiptRegionWords words, w.text ≠ "行".data) →
      detectGyouWord words = none ∧ strikeAnnotationRuns words = false) ∧
    (∀ (words : List OcrWord) (g : OcrWord),
      detectGyouWord words = some g →
      g ∈ receiptRegionWords words ∧ g.text = "行".data) := by
  refine ⟨?_, detectGyouWord_exact⟩
  intro words h
  have := detectGyouWord_none words h
  exact ⟨this, by rw [strikeAnnotationRuns, this]; rfl⟩

/-- Witness for **C4**: a page with near-miss tokens (「殿」, a token
containing 「行」 inside longer text) but no exact 「行」 token: the
anchor stays `none` and the annotation step is skipped; and positively,
with an exact 「行」 token the anchor is that very token. -/
theorem claim_C4_witness :
    detectGyouWord [⟨"殿".data, 0, 0, 10, 10⟩, ⟨"銀行".data, 0, 20, 10, 30⟩] = none ∧
    strikeAnnotationRuns [⟨"殿".data, 0, 0, 10, 10⟩, ⟨"銀行".data, 0, 20, 10, 30⟩] = false ∧
    (⟨"行".data, 5, 7, 9, 11⟩ : OcrWord) ∈
      receiptRegionWords [⟨"行".data, 5, 7, 9, 11⟩] ∧
    (⟨"行".data, 5, 7, 9, 11⟩ : OcrWord).text = "行".data := by
  have h1 := claim_C4_strike_anchor.1
    [⟨"殿".data, 0, 0, 10, 10⟩, ⟨"銀行".data, 0, 20, 10, 30⟩] (by decide)
  have h2 := claim_C4_strike_anchor.2 [⟨"行".data, 5, 7, 9, 11⟩]
    ⟨"行".data, 5, 7, 9, 11⟩ (by decide)
  exact ⟨h1.1, h1.2, h2.1, h2.2⟩

theorem foldl_longest (l : List (List Char)) (a : List Char) :
    (l.foldl (fun x y => if x.length ≥ y.length then x else y) a) ∈ a :: l ∧
    a.length ≤ (l.foldl (fun x y => if x.length ≥ y.length then x else y) a).length ∧
    ∀ c ∈ l, c.length ≤ (l.foldl (fun x y => if x.length ≥ y.length then x else y) a).length := by
  induction l generalizing a with
  | nil => exact ⟨List.mem_cons_self a [], le_refl _, by intro c hc; simp at hc⟩
  | cons b t ih =>
    rw [List.foldl_cons]
    by_cases hab : a.length ≥ b.length
    · rw [if_pos hab]
      obtain ⟨h1, h2, h3⟩ := ih a
      refine ⟨?_, h2, ?_⟩
      · rcases List.mem_cons.mp h1 with h | h
        · rw [h]; exact List.mem_cons_self a (b :: t)
        · exact List.mem_cons_of_mem a (List.mem_cons_of_mem b h)
      · intro c hc
        rcases List.mem_cons.mp hc with rfl | hc
        · omega
        · exact h3 c hc
    · rw [if_neg hab]
      obtain ⟨h1, h2, h3⟩ := ih b
      refine ⟨?_, by omega, ?_⟩
      · rcases List.mem_cons.mp h1 with h | h
        · rw [h]; exact List.mem_cons_of_mem a (List.mem_cons_self b t)
        · exact List.mem_cons_of_mem a (List.mem_cons_of_mem b h)
      · intro c hc
        rcases List.mem_cons.mp hc with rfl | hc
        · exact h2
        · exact h3 c hc

/-- **C7**.  Whenever the court-name pattern matches more than once in the
normalized text, `extractInfoFromText` sets `courtName` to a longest
whitespace-stripped match: the value is one of the cleaned matches and no
cleaned match is longer. -/
theorem claim_C7_court_name_longest (cfg : ExtractConfig) (text : List Char)
    (h : 2 ≤ (courtMatches (normalizeNewlines text)).length) :
    ∃ m, (extractInfoFromText cfg text).courtName = some m ∧
      m ∈ (courtMatches (normalizeNewlines text)).map stripJsWs ∧
      ∀ c ∈ (courtMatches (normalizeNewlines text)).map stripJsWs,
        c.length ≤ m.length := by
  have hfield : (extractInfoFromText cfg text).courtName
      = extractCourtName (normalizeNewlines text) := rfl
  rw [hfield]
  rw [extractCourtName]
  rcases hc : (courtMatches (normalizeNewlines text)).map stripJsWs with - | ⟨c, cs⟩
  · exfalso
    have := congrArg List.length hc
    simp only [List.length_map, List.length_nil] at this
    omega
  · obtain ⟨h1, -, h3⟩ := foldl_longest cs c
    refine ⟨_, rfl, h1, ?_⟩
    intro d hd
    rcases List.mem_cons.mp hd with rfl | hd
    · exact (foldl_longest cs d).2.1
    · exact h3 d hd

/-- Witness for **C7**: a text containing both 「広島地方裁判所」 and
「広島地方裁判所民事第２部」 (two matches); the selected court name is
a longest cleaned match — no other candidate is longer. -/
theorem claim_C7_witness :
    ∃ m, (extractInfoFromText ⟨[], []⟩ "広島地方裁判所に出す。\n広島地方裁判所民事第２部".data).courtName
        = some m ∧
      m ∈ (courtMatches (normalizeNewlines
        "広島地方裁判所に出す。\n広島地方裁判所民事第２部".data)).map stripJsWs ∧
      ∀ c ∈ (courtMatches (normalizeNewlines
        "広島地方裁判所に出す。\n広島地方裁判所民事第２部".data)).map stripJsWs,
        c.length ≤ m.length :=
  claim_C7_court_name_longest ⟨[], []⟩ _ (by decide)

theorem explicitFaxStep_pres (own : List (List Char)) (cfp : Option (List Char))
    (acc : Option (List Char)) (e : List Char × List Char)
    (h : ∀ v, acc = some v → ∀ p ∈ own, containsSub v p = false) :
    ∀ v, explicitFaxStep own cfp acc e = some v → ∀ p ∈ own, containsSub v p = false := by
  intro v hv p hp
  rw [explicitFaxStep] at hv
  split_ifs at hv with h1 h2 h3
  · exact h v hv p hp
  · exact h v hv p hp
  · simp only [Option.some.injEq] at hv
    subst hv
    simp only [Bool.and_eq_true, Bool.not_eq_true'] at h3
    exact Bool.eq_false_iff.mpr ((List.any_eq_false.mp h3.1) p hp)
  · exact h v hv p hp

theorem explicitFax_foldl_pres (own : List (List Char)) (cfp : Option (List Char))
    (entries : List (List Char × List Char)) :
    ∀ acc, (∀ v, acc = some v → ∀ p ∈ own, containsSub v p = false) →
      ∀ v, entries.foldl (explicitFaxStep own cfp) acc = some v →
        ∀ p ∈ own, containsSub v p = false := by
  induction entries with
  | nil => intro acc h; exact h
  | cons e rest ih =>
    intro acc h
    rw [List.foldl_cons]
    exact ih _ (explicitFaxStep_pres own cfp acc e h)

theorem faxEntryStep_pres (cfg : ExtractConfig) (text : List Char) (st : FaxState)
    (entry : Nat × List Char)
    (h : ∀ v, st.plaintiffLawyerFax = some v →
      ∀ p ∈ cfg.faxNumbers, containsSub v p = false) :
    ∀ v, (faxEntryStep cfg text st entry).plaintiffLawyerFax = some v →
      ∀ p ∈ cfg.faxNumbers, containsSub v p = false := by
  intro v hv p hp
  rw [faxEntryStep] at hv
  simp only [] at hv
  split_ifs at hv with h1 h2 h3 h4 h5 h6 h7 h8
  all_goals
    first
      | exact h v hv p hp
      | (simp only [Option.some.injEq] at hv
         subst hv
         exact Bool.eq_false_iff.mpr
           ((List.any_eq_false.mp (Bool.eq_false_iff.mpr h1)) p hp))

theorem faxEntry_foldl_pres (cfg : ExtractConfig) (text : List Char)
    (entries : List (Nat × List Char)) :
    ∀ st, (∀ v, st.plaintiffLawyerFax = some v →
        ∀ p ∈ cfg.faxNumbers, containsSub v p = false) →
      ∀ v, (entries.foldl (faxEntryStep cfg text) st).plaintiffLawyerFax = some v →
        ∀ p ∈ cfg.faxNumbers, containsSub v p = false := by
  induction entries with
  | nil => intro st h; exact h
  | cons e rest ih =>
    intro st h
    rw [List.foldl_cons]
    exact ih _ (faxEntryStep_pres cfg text st e h)

/-- **C10**.  Whenever `extractInfoFromText` sets `plaintiffLawyerFax`,
the value contains no configured own-office fax number as a substring:
both the explicit-label path and the unlabeled-fallback path test the
candidate against the own-fax list before any assignment. -/
theorem claim_C10_own_fax_never_assigned (cfg : ExtractConfig) (text : List Char)
    (v : List Char)
    (hv : (extractInfoFromText cfg text).plaintiffLawyerFax = some v) :
    ∀ p ∈ cfg.faxNumbers, containsSub v p = false := by
  have hfield : (extractInfoFromText cfg text).plaintiffLawyerFax
      = (extractFaxSection cfg (normalizeNewlines text)).plaintiffLawyerFax := rfl
  rw [hfield] at hv
  rw [extractFaxSection] at hv
  refine faxEntry_foldl_pres cfg (normalizeNewlines text) _ _ ?_ v hv
  intro w hw
  exact explicitFax_foldl_pres cfg.faxNumbers _ _ none (by intro u hu; cases hu) w hw

/-- Witness for **C10**: with own-fax list `["99-9"]` and a text carrying
one fax, the assigned `plaintiffLawyerFax` does not contain `"99-9"`. -/
theorem claim_C10_witness :
    containsSub "06-1111-1111".data "99-9".data = false :=
  claim_C10_own_fax_never_assigned ⟨[], ["99-9".data]⟩
    "FAX 06-1111-1111".data "06-1111-1111".data (by decide) "99-9".data
    (List.mem_cons_self _ _)
/-- Any unlabeled fax entry whose 200-character lookback window matches
the defendant's-counsel pattern is skipped: the classification state is
returned unchanged, for every configuration and prior state. -/
theorem faxEntryStep_defendant_skip (cfg : ExtractConfig) (text : List Char)
    (st : FaxState) (entry : Nat × List Char)
    (hd : matchesDefendantCounsel (lookback text entry.1 200) = true) :
    faxEntryStep cfg text st entry = st := by
  rw [faxEntryStep]
  simp only []
  split_ifs
  all_goals rfl

set_option maxRecDepth 10000 in
/-- Counterexample to **C5** as stated: in `tAdj` the text contains
"被告訴訟代理人 FAX 03-0000-0000" followed later by
"原告訴訟代理人 FAX 06-1111-1111", yet `plaintiffLawyerFax` is not
assigned at all — the 200-character lookback window of the second fax
still contains the defendant's-counsel label of the first line, so both
entries are skipped. -/
theorem claim_C5_counterexample :
    containsSub tAdj "被告訴訟代理人 FAX 03-0000-0000".data = true ∧
    containsSub tAdj "原告訴訟代理人 FAX 06-1111-1111".data = true ∧
    (extractInfoFromText defaultConfig tAdj).plaintiffLawyerFax = none := by
  refine ⟨by decide, by decide, by decide⟩

set_option maxRecDepth 10000 in
/-- **C5** (amended): a fax whose 200-character lookback window matches
the defendant's-counsel phrase is skipped for every role; and when the
defendant's-counsel fax line precedes the plaintiff's-counsel fax line
by more than 200 characters — so the second window is clean — the first
fax is discarded and "06-1111-1111" is assigned to `plaintiffLawyerFax`. -/
theorem claim_C5_defendant_window_skip :
    (∀ (cfg : ExtractConfig) (text : List Char) (st : FaxState)
        (entry : Nat × List Char),
      matchesDefendantCounsel (lookback text entry.1 200) = true →
        faxEntryStep cfg text st entry = st) ∧
    (containsSub tFar "被告訴訟代理人 FAX 03-0000-0000".data = true ∧
     containsSub tFar "原告訴訟代理人 FAX 06-1111-1111".data = true ∧
     (extractInfoFromText defaultConfig tFar).plaintiffLawyerFax =
       some "06-1111-1111".data) :=
  ⟨fun cfg text st entry hd => faxEntryStep_defendant_skip cfg text st entry hd,
   by refine ⟨by decide, by decide, by decide⟩⟩

/-- Witness for **C5**: at a concrete entry whose lookback window shows
the defendant's-counsel label, the step leaves the empty state alone. -/
theorem claim_C5_witness :
    faxEntryStep defaultConfig "被告訴訟代理人FAX".data ⟨none, none⟩
      (9, "03-0000-0000".data) = ⟨none, none⟩ :=
  claim_C5_defendant_window_skip.1 defaultConfig "被告訴訟代理人FAX".data
    ⟨none, none⟩ (9, "03-0000-0000".data) (by decide)
lemma digit_toNat_bounds (c : Char) (hc : isHalfDigit c = true) :
    48 ≤ c.val.toBitVec.toNat ∧ c.val.toBitVec.toNat ≤ 57 := by
  simp only [isHalfDigit, Bool.and_eq_true, decide_eq_true_eq] at hc
  obtain ⟨h1, h2⟩ := hc
  rw [Char.le_def, UInt32.le_def, BitVec.le_def] at h1 h2
  exact ⟨h1, h2⟩

lemma digit_not_ws (c : Char) (hc : isHalfDigit c = true) : isJsWs c = false := by
  obtain ⟨h1, h2⟩ := digit_toNat_bounds c hc
  cases hiw : isJsWs c
  · rfl
  · exfalso
    simp only [isJsWs, Bool.or_eq_true, beq_iff_eq, Bool.and_eq_true,
      decide_eq_true_eq] at hiw
    rcases hiw with ((((((((((((((h|h)|h)|h)|h)|h)|h)|h)|⟨ha,hb⟩)|h)|h)|h)|h)|h)|h)
    all_goals first
      | (rw [h] at h1; exact absurd h1 (by decide))
      | (rw [h] at h2; exact absurd h2 (by decide))
      | (rw [UInt32.le_def, BitVec.le_def] at ha
         have ha' : 8192 ≤ c.val.toBitVec.toNat := ha
         omega)

lemma digit_ne_of (c d : Char) (hc : isHalfDigit c = true)
    (hd : isHalfDigit d = false) : (c = d) = false := by
  by_cases h : c = d
  · subst h; rw [hc] at hd; cases hd
  · simp [h]

lemma caseSymbol_facts (sym : Char) (h : isCaseSymbol sym = true) :
    isJsWs sym = false ∧ (sym = '令') = false ∧ (sym = '平') = false ∧
    (sym = '和') = false ∧ (sym = '（') = false ∧ (sym = '）') = false ∧
    (sym = '\r') = false := by
  have hm : sym ∈ caseSymbols := by simpa [isCaseSymbol, List.elem_iff] using h
  revert hm
  have hall : ∀ x ∈ caseSymbols,
      isJsWs x = false ∧ (x = '令') = false ∧ (x = '平') = false ∧
      (x = '和') = false ∧ (x = '（') = false ∧ (x = '）') = false ∧
      (x = '\r') = false := by decide
  exact hall sym

lemma matchCaseP1_none_head (c : Char) (t : List Char)
    (h1 : (c = '令') = false) (h2 : (c = '平') = false) :
    matchCaseP1 (c :: t) = none := by
  simp [matchCaseP1, pClass1, h1, h2, pLit, pWs, pDigits, pOpt]

lemma matchCaseP1_none_second (a c : Char) (t : List Char)
    (h : (c = '和') = false) : matchCaseP1 (a :: c :: t) = none := by
  by_cases ha : (a = '令' || a = '平') = true
  · simp [matchCaseP1, pClass1, ha, pLit, dropLit, h, pWs, pDigits, pOpt]
  · simp only [Bool.or_eq_true] at ha
    push_neg at ha
    simp [matchCaseP1, pClass1, eq_false ha.1, eq_false ha.2, pLit, pWs, pDigits, pOpt]

lemma suffix_all_nil {P : List Char → Prop} (h : P []) :
    ∀ t, t <:+ ([] : List Char) → P t := by
  intro t ht
  rw [List.suffix_nil.mp ht]
  exact h

lemma suffix_all_cons {P : List Char → Prop} {c : Char} {cs : List Char}
    (h1 : P (c :: cs)) (h2 : ∀ t, t <:+ cs → P t) : ∀ t, t <:+ c :: cs → P t := by
  intro t ht
  rcases List.suffix_cons_iff.mp ht with h | h
  · rw [h]; exact h1
  · exact h2 t h

lemma suffix_all_digitRun {P : List Char → Prop} (y : List Char) {rest : List Char}
    (hy : y.all isHalfDigit = true)
    (hd : ∀ c t, isHalfDigit c = true → P (c :: t))
    (h2 : ∀ t, t <:+ rest → P t) : ∀ t, t <:+ y ++ rest → P t := by
  induction y with
  | nil => simpa using h2
  | cons c y ih =>
    simp only [List.all_cons, Bool.and_eq_true] at hy
    exact suffix_all_cons (hd c _ hy.1) (ih hy.2)

lemma noP1_spaced (y n : List Char) (sym : Char)
    (hyd : y.all isHalfDigit = true) (hnd : n.all isHalfDigit = true)
    (hsym : isCaseSymbol sym = true) :
    ∀ t, t <:+ spacedCase y n sym → matchCaseP1 t = none := by
  obtain ⟨hsw, hs1, hs2, hs3, hs4, hs5, hs6⟩ := caseSymbol_facts sym hsym
  have hdig : ∀ c t, isHalfDigit c = true → matchCaseP1 (c :: t) = none := by
    intro c t hc
    exact matchCaseP1_none_head c t
      (digit_ne_of c '令' hc (by decide)) (digit_ne_of c '平' hc (by decide))
  show ∀ t, t <:+ '令' :: ' ' :: '和' :: ' ' ::
    (y ++ (' ' :: '年' :: ' ' :: '（' :: ' ' ::
      (sym :: (' ' :: '）' :: ' ' :: '第' :: ' ' ::
        (n ++ (' ' :: '号' :: [])))))) → matchCaseP1 t = none
  refine suffix_all_cons (matchCaseP1_none_second _ _ _ (by decide)) ?_
  refine suffix_all_cons (matchCaseP1_none_head _ _ (by decide) (by decide)) ?_
  refine suffix_all_cons (matchCaseP1_none_head _ _ (by decide) (by decide)) ?_
  refine suffix_all_cons (matchCaseP1_none_head _ _ (by decide) (by decide)) ?_
  refine suffix_all_digitRun y hyd hdig ?_
  refine suffix_all_cons (matchCaseP1_none_head _ _ (by decide) (by decide)) ?_
  refine suffix_all_cons (matchCaseP1_none_head _ _ (by decide) (by decide)) ?_
  refine suffix_all_cons (matchCaseP1_none_head _ _ (by decide) (by decide)) ?_
  refine suffix_all_cons (matchCaseP1_none_head _ _ (by decide) (by decide)) ?_
  refine suffix_all_cons (matchCaseP1_none_head _ _ (by decide) (by decide)) ?_
  refine suffix_all_cons (matchCaseP1_none_head _ _ hs1 hs2) ?_
  refine suffix_all_cons (matchCaseP1_none_head _ _ (by decide) (by decide)) ?_
  refine suffix_all_cons (matchCaseP1_none_head _ _ (by decide) (by decide)) ?_
  refine suffix_all_cons (matchCaseP1_none_head _ _ (by decide) (by decide)) ?_
  refine suffix_all_cons (matchCaseP1_none_head _ _ (by decide) (by decide)) ?_
  refine suffix_all_cons (matchCaseP1_none_head _ _ (by decide) (by decide)) ?_
  refine suffix_all_digitRun n hnd hdig ?_
  refine suffix_all_cons (matchCaseP1_none_head _ _ (by decide) (by decide)) ?_
  refine suffix_all_cons (matchCaseP1_none_head _ _ (by decide) (by decide)) ?_
  exact suffix_all_nil rfl

lemma dropWhile_cons_false {p : Char → Bool} {c : Char} (t : List Char)
    (hc : p c = false) : List.dropWhile p (c :: t) = c :: t := by
  simp [List.dropWhile_cons, hc]

lemma takeWhile_all_append {p : Char → Bool} (y r : List Char)
    (hy : y.all p = true) : (y ++ r).takeWhile p = y ++ r.takeWhile p := by
  induction y with
  | nil => rfl
  | cons c y ih =>
    simp only [List.all_cons, Bool.and_eq_true] at hy
    simp [List.takeWhile_cons, hy.1, ih hy.2]

lemma pDigits_run (y : List Char) (c : Char) (r : List Char)
    (hy : y ≠ []) (hyd : y.all isHalfDigit = true) (hc : isHalfDigit c = false) :
    pDigits (some (y ++ c :: r)) = some (c :: r) := by
  have ht : (y ++ c :: r).takeWhile isHalfDigit = y := by
    rw [takeWhile_all_append y (c :: r) hyd]
    simp [List.takeWhile_cons, hc]
  have hne : y.isEmpty = false := by
    cases y with
    | nil => exact absurd rfl hy
    | cons a t => rfl
  simp [pDigits, ht, hne, List.drop_left]

lemma matchCaseP2_spaced (y n : List Char) (sym : Char)
    (hy : y ≠ []) (hn : n ≠ []) (hyd : y.all isHalfDigit = true)
    (hnd : n.all isHalfDigit = true) (hsym : isCaseSymbol sym = true) :
    matchCaseP2 (spacedCase y n sym) = some [] := by
  obtain ⟨hsw, hs1, hs2, hs3, hs4, hs5, hs6⟩ := caseSymbol_facts sym hsym
  obtain ⟨cy, y', rfl⟩ : ∃ cy y', y = cy :: y' := by
    cases y with
    | nil => exact absurd rfl hy
    | cons a t => exact ⟨a, t, rfl⟩
  obtain ⟨cn, n', rfl⟩ : ∃ cn n', n = cn :: n' := by
    cases n with
    | nil => exact absurd rfl hn
    | cons a t => exact ⟨a, t, rfl⟩
  simp only [List.all_cons, Bool.and_eq_true] at hyd hnd
  have hcyw : isJsWs cy = false := digit_not_ws cy hyd.1
  have hcnw : isJsWs cn = false := digit_not_ws cn hnd.1
  show (some (spacedCase (cy :: y') (cn :: n') sym)
    |> pClass1 (fun c => c = '令' || c = '平') |> pWs |> pLit "和".data |> pWs
    |> pDigits |> pWs |> pLit "年".data |> pWs |> pClass1 isOpenParen
    |> pWs |> pClass1 isCaseSymbol |> pWs |> pClass1 isCloseParen
    |> pWs |> pOpt (pLit "第".data) |> pWs |> pDigits |> pWs |> pLit "号".data)
      = some []
  have e1 : (some (spacedCase (cy :: y') (cn :: n') sym)
      |> pClass1 (fun c => c = '令' || c = '平') |> pWs |> pLit "和".data |> pWs)
      = some ((cy :: y') ++ (' ' :: '年' :: ' ' :: '（' :: ' ' ::
          (sym :: (' ' :: '）' :: ' ' :: '第' :: ' ' ::
            ((cn :: n') ++ (' ' :: '号' :: [])))))) := by
    show pWs (pLit "和".data (pWs (pClass1 _ (some (spacedCase _ _ _))))) = _
    have : pLit "和".data (pWs (pClass1 (fun c => c = '令' || c = '平')
        (some (spacedCase (cy :: y') (cn :: n') sym))))
        = some (' ' :: ((cy :: y') ++ (' ' :: '年' :: ' ' :: '（' :: ' ' ::
          (sym :: (' ' :: '）' :: ' ' :: '第' :: ' ' ::
            ((cn :: n') ++ (' ' :: '号' :: []))))))) := rfl
    rw [this]
    show some (List.dropWhile isJsWs (' ' :: _)) = _
    rw [List.dropWhile_cons]
    simp only [show isJsWs ' ' = true from rfl, if_true]
    exact congrArg some (dropWhile_cons_false _ hcyw)
  rw [e1]
  have e2 : pDigits (some ((cy :: y') ++ (' ' :: '年' :: ' ' :: '（' :: ' ' ::
      (sym :: (' ' :: '）' :: ' ' :: '第' :: ' ' ::
        ((cn :: n') ++ (' ' :: '号' :: [])))))))
      = some (' ' :: '年' :: ' ' :: '（' :: ' ' ::
        (sym :: (' ' :: '）' :: ' ' :: '第' :: ' ' ::
          ((cn :: n') ++ (' ' :: '号' :: []))))) :=
    pDigits_run (cy :: y') ' ' _ (by simp)
      (by simp [List.all_cons, hyd.1, hyd.2]) (by decide)
  rw [e2]
  have e3 : (some (' ' :: '年' :: ' ' :: '（' :: ' ' ::
      (sym :: (' ' :: '）' :: ' ' :: '第' :: ' ' ::
        ((cn :: n') ++ (' ' :: '号' :: [])))))
      |> pWs |> pLit "年".data |> pWs |> pClass1 isOpenParen |> pWs)
      = some (sym :: (' ' :: '）' :: ' ' :: '第' :: ' ' ::
        ((cn :: n') ++ (' ' :: '号' :: [])))) := by
    show pWs (pClass1 isOpenParen (pWs (pLit "年".data (pWs _)))) = _
    have : pClass1 isOpenParen (pWs (pLit "年".data (pWs (some (' ' :: '年' ::
        ' ' :: '（' :: ' ' :: (sym :: (' ' :: '）' :: ' ' :: '第' :: ' ' ::
          ((cn :: n') ++ (' ' :: '号' :: [])))))))))
        = some (' ' :: (sym :: (' ' :: '）' :: ' ' :: '第' :: ' ' ::
          ((cn :: n') ++ (' ' :: '号' :: []))))) := rfl
    rw [this]
    show some (List.dropWhile isJsWs (' ' :: _)) = _
    rw [List.dropWhile_cons]
    simp only [show isJsWs ' ' = true from rfl, if_true]
    exact congrArg some (dropWhile_cons_false _ hsw)
  rw [e3]
  have e4 : pClass1 isCaseSymbol (some (sym :: (' ' :: '）' :: ' ' :: '第' :: ' ' ::
      ((cn :: n') ++ (' ' :: '号' :: [])))))
      = some (' ' :: '）' :: ' ' :: '第' :: ' ' ::
        ((cn :: n') ++ (' ' :: '号' :: []))) := by
    simp [pClass1, hsym]
  rw [e4]
  have e5 : (some (' ' :: '）' :: ' ' :: '第' :: ' ' ::
      ((cn :: n') ++ (' ' :: '号' :: [])))
      |> pWs |> pClass1 isCloseParen |> pWs |> pOpt (pLit "第".data) |> pWs)
      = some ((cn :: n') ++ (' ' :: '号' :: [])) := by
    show pWs (pOpt (pLit "第".data) (pWs (pClass1 isCloseParen (pWs _)))) = _
    have : pOpt (pLit "第".data) (pWs (pClass1 isCloseParen (pWs (some (' ' ::
        '）' :: ' ' :: '第' :: ' ' :: ((cn :: n') ++ (' ' :: '号' :: [])))))))
        = some (' ' :: ((cn :: n') ++ (' ' :: '号' :: []))) := rfl
    rw [this]
    show some (List.dropWhile isJsWs (' ' :: _)) = _
    rw [List.dropWhile_cons]
    simp only [show isJsWs ' ' = true from rfl, if_true]
    exact congrArg some (dropWhile_cons_false _ hcnw)
  rw [e5]
  have e6 : pDigits (some ((cn :: n') ++ (' ' :: '号' :: [])))
      = some (' ' :: '号' :: []) :=
    pDigits_run (cn :: n') ' ' _ (by simp)
      (by simp [List.all_cons, hnd.1, hnd.2]) (by decide)
  rw [e6]
  rfl

lemma matchCaseP1_plain (y n : List Char) (sym : Char)
    (hy : y ≠ []) (hn : n ≠ []) (hyd : y.all isHalfDigit = true)
    (hnd : n.all isHalfDigit = true) (hsym : isCaseSymbol sym = true) :
    matchCaseP1 (plainCase y n sym) = some [] := by
  obtain ⟨cn, n', rfl⟩ : ∃ cn n', n = cn :: n' := by
    cases n with
    | nil => exact absurd rfl hn
    | cons a t => exact ⟨a, t, rfl⟩
  simp only [List.all_cons, Bool.and_eq_true] at hnd
  have hcnw : isJsWs cn = false := digit_not_ws cn hnd.1
  show (some (plainCase y (cn :: n') sym)
    |> pClass1 (fun c => c = '令' || c = '平') |> pLit "和".data |> pDigits
    |> pLit "年".data |> pClass1 isOpenParen |> pClass1 isCaseSymbol
    |> pClass1 isCloseParen |> pWs |> pOpt (pLit "第".data) |> pWs
    |> pDigits |> pLit "号".data) = some []
  have e1 : (some (plainCase y (cn :: n') sym)
      |> pClass1 (fun c => c = '令' || c = '平') |> pLit "和".data |> pDigits)
      = some ('年' :: '（' :: (sym :: ('）' :: '第' ::
        ((cn :: n') ++ ('号' :: []))))) := by
    show pDigits (pLit "和".data (pClass1 _ (some (plainCase _ _ _)))) = _
    have : pLit "和".data (pClass1 (fun c => c = '令' || c = '平')
        (some (plainCase y (cn :: n') sym)))
        = some (y ++ ('年' :: '（' :: (sym :: ('）' :: '第' ::
          ((cn :: n') ++ ('号' :: [])))))) := rfl
    rw [this]
    exact pDigits_run y '年' _ hy hyd (by decide)
  rw [e1]
  have e2 : (some ('年' :: '（' :: (sym :: ('）' :: '第' ::
      ((cn :: n') ++ ('号' :: [])))))
      |> pLit "年".data |> pClass1 isOpenParen |> pClass1 isCaseSymbol)
      = some ('）' :: '第' :: ((cn :: n') ++ ('号' :: []))) := by
    show pClass1 isCaseSymbol (pClass1 isOpenParen (pLit "年".data _)) = _
    have : pClass1 isOpenParen (pLit "年".data (some ('年' :: '（' ::
        (sym :: ('）' :: '第' :: ((cn :: n') ++ ('号' :: [])))))))
        = some (sym :: ('）' :: '第' :: ((cn :: n') ++ ('号' :: [])))) := rfl
    rw [this]
    simp [pClass1, hsym]
  rw [e2]
  have e3 : (some ('）' :: '第' :: ((cn :: n') ++ ('号' :: [])))
      |> pClass1 isCloseParen |> pWs |> pOpt (pLit "第".data) |> pWs)
      = some ((cn :: n') ++ ('号' :: [])) := by
    show pWs (pOpt (pLit "第".data) (pWs (pClass1 isCloseParen _))) = _
    have : pOpt (pLit "第".data) (pWs (pClass1 isCloseParen (some ('）' :: '第' ::
        ((cn :: n') ++ ('号' :: []))))))
        = some ((cn :: n') ++ ('号' :: [])) := rfl
    rw [this]
    show some (List.dropWhile isJsWs (cn :: _)) = _
    exact congrArg some (dropWhile_cons_false _ hcnw)
  rw [e3]
  have e4 : pDigits (some ((cn :: n') ++ ('号' :: []))) = some ('号' :: []) :=
    pDigits_run (cn :: n') '号' [] (by simp)
      (by simp [List.all_cons, hnd.1, hnd.2]) (by decide)
  rw [e4]
  rfl

lemma scanFirstSlice_none {m : List Char → Option (List Char)} (s : List Char)
    (h : ∀ t, t <:+ s → m t = none) : scanFirstSlice m s = none := by
  induction s with
  | nil =>
    rw [scanFirstSlice, h [] (List.suffix_refl _)]
  | cons c cs ih =>
    rw [scanFirstSlice, h (c :: cs) (List.suffix_refl _)]
    exact ih (fun t ht => h t (ht.trans (List.suffix_cons c cs)))

lemma scanFirstSlice_some_full {m : List Char → Option (List Char)} (s : List Char)
    (hne : s ≠ []) (h : m s = some []) : scanFirstSlice m s = some s := by
  cases s with
  | nil => exact absurd rfl hne
  | cons c cs =>
    rw [scanFirstSlice, h]
    simp [List.take_length]

lemma map_id_on (f : Char → Char) (l : List Char) (h : ∀ c ∈ l, f c = c) :
    l.map f = l := by
  induction l with
  | nil => rfl
  | cons c t ih =>
    rw [List.map_cons, h c (List.mem_cons_self c t),
      ih (fun d hd => h d (List.mem_cons_of_mem c hd))]

lemma stripJsWs_digits (y : List Char) (hyd : y.all isHalfDigit = true) :
    List.filter (fun c => !(isJsWs c)) y = y := by
  refine List.filter_eq_self.mpr (fun c hc => ?_)
  rw [digit_not_ws c (List.all_eq_true.mp hyd c hc)]
  rfl

lemma normBrackets_digits (y : List Char) (hyd : y.all isHalfDigit = true) :
    normBrackets y = y := by
  refine map_id_on _ y (fun c hc => ?_)
  have hd := List.all_eq_true.mp hyd c hc
  rw [if_neg, if_neg]
  · intro h; rw [digit_ne_of c '）' hd (by decide)] at h; cases h
  · intro h; rw [digit_ne_of c '（' hd (by decide)] at h; cases h

lemma stripJsWs_spaced (y n : List Char) (sym : Char)
    (hyd : y.all isHalfDigit = true) (hnd : n.all isHalfDigit = true)
    (hsym : isCaseSymbol sym = true) :
    stripJsWs (spacedCase y n sym) = plainCase y n sym := by
  obtain ⟨hsw, -, -, -, -, -, -⟩ := caseSymbol_facts sym hsym
  have hshape : spacedCase y n sym = "令 和 ".data ++ (y ++ (" 年 （ ".data ++
      ([sym] ++ (" ） 第 ".data ++ (n ++ " 号".data))))) := rfl
  rw [hshape, stripJsWs]
  simp only [List.filter_append]
  rw [stripJsWs_digits y hyd, stripJsWs_digits n hnd,
    show List.filter (fun c => !(isJsWs c)) [sym] = [sym] by
      simp [List.filter_cons, hsw]]
  rfl

lemma stripJsWs_plain (y n : List Char) (sym : Char)
    (hyd : y.all isHalfDigit = true) (hnd : n.all isHalfDigit = true)
    (hsym : isCaseSymbol sym = true) :
    stripJsWs (plainCase y n sym) = plainCase y n sym := by
  obtain ⟨hsw, -, -, -, -, -, -⟩ := caseSymbol_facts sym hsym
  have hshape : plainCase y n sym = "令和".data ++ (y ++ ("年（".data ++
      ([sym] ++ ("）第".data ++ (n ++ "号".data))))) := rfl
  rw [hshape, stripJsWs]
  simp only [List.filter_append]
  rw [stripJsWs_digits y hyd, stripJsWs_digits n hnd,
    show List.filter (fun c => !(isJsWs c)) [sym] = [sym] by
      simp [List.filter_cons, hsw]]
  rfl

lemma normBrackets_plain (y n : List Char) (sym : Char)
    (hyd : y.all isHalfDigit = true) (hnd : n.all isHalfDigit = true)
    (hsym : isCaseSymbol sym = true) :
    normBrackets (plainCase y n sym) = caseValue y n sym := by
  obtain ⟨-, -, -, -, hs4, hs5, -⟩ := caseSymbol_facts sym hsym
  have hshape : plainCase y n sym = "令和".data ++ (y ++ ("年（".data ++
      ([sym] ++ ("）第".data ++ (n ++ "号".data))))) := rfl
  rw [hshape, normBrackets]
  simp only [List.map_append]
  rw [show List.map (fun c => if c = '（' then '(' else if c = '）' then ')' else c)
        y = y from normBrackets_digits y hyd,
    show List.map (fun c => if c = '（' then '(' else if c = '）' then ')' else c)
        n = n from normBrackets_digits n hnd,
    show List.map (fun c => if c = '（' then '(' else if c = '）' then ')' else c)
        [sym] = [sym] by
      simp only [List.map_cons, List.map_nil]
      rw [if_neg (fun h => Bool.false_ne_true (hs4 ▸ h)),
        if_neg (fun h => Bool.false_ne_true (hs5 ▸ h))]]
  rfl

lemma normalizeNewlines_id (s : List Char) (h : ∀ c ∈ s, (c = '\r') = false) :
    normalizeNewlines s = s := by
  induction s with
  | nil => rfl
  | cons c t ih =>
    have hc : ¬ c = '\r' := fun he => Bool.false_ne_true (h c (List.mem_cons_self c t) ▸ he)
    have ht : normalizeNewlines t = t :=
      ih (fun d hd => h d (List.mem_cons_of_mem c hd))
    rw [normalizeNewlines.eq_def]
    split <;> rename_i hs
    all_goals first
      | (exact absurd hs (List.cons_ne_nil c t))
      | (injection hs with h1 h2
         exact absurd h1 hc)
      | (injection hs with h1 h2
         rw [← h1, ← h2, ht])

lemma no_cr_spaced (y n : List Char) (sym : Char)
    (hyd : y.all isHalfDigit = true) (hnd : n.all isHalfDigit = true)
    (hsym : isCaseSymbol sym = true) :
    ∀ c ∈ spacedCase y n sym, (c = '\r') = false := by
  obtain ⟨-, -, -, -, -, -, hs6⟩ := caseSymbol_facts sym hsym
  intro c hc
  have hshape : spacedCase y n sym = "令 和 ".data ++ (y ++ (" 年 （ ".data ++
      ([sym] ++ (" ） 第 ".data ++ (n ++ " 号".data))))) := rfl
  rw [hshape] at hc
  simp only [List.mem_append] at hc
  rcases hc with hc | hc | hc | hc | hc | hc | hc
  · revert hc
    have : ∀ x ∈ "令 和 ".data, (x = '\r') = false := by decide
    exact this c
  · exact digit_ne_of c '\r' (List.all_eq_true.mp hyd c hc) (by decide)
  · revert hc
    have : ∀ x ∈ " 年 （ ".data, (x = '\r') = false := by decide
    exact this c
  · rw [List.mem_singleton] at hc; rw [hc]; exact hs6
  · revert hc
    have : ∀ x ∈ " ） 第 ".data, (x = '\r') = false := by decide
    exact this c
  · exact digit_ne_of c '\r' (List.all_eq_true.mp hnd c hc) (by decide)
  · revert hc
    have : ∀ x ∈ " 号".data, (x = '\r') = false := by decide
    exact this c

lemma no_cr_plain (y n : List Char) (sym : Char)
    (hyd : y.all isHalfDigit = true) (hnd : n.all isHalfDigit = true)
    (hsym : isCaseSymbol sym = true) :
    ∀ c ∈ plainCase y n sym, (c = '\r') = false := by
  obtain ⟨-, -, -, -, -, -, hs6⟩ := caseSymbol_facts sym hsym
  intro c hc
  have hshape : plainCase y n sym = "令和".data ++ (y ++ ("年（".data ++
      ([sym] ++ ("）第".data ++ (n ++ "号".data))))) := rfl
  rw [hshape] at hc
  simp only [List.mem_append] at hc
  rcases hc with hc | hc | hc | hc | hc | hc | hc
  · revert hc
    have : ∀ x ∈ "令和".data, (x = '\r') = false := by decide
    exact this c
  · exact digit_ne_of c '\r' (List.all_eq_true.mp hyd c hc) (by decide)
  · revert hc
    have : ∀ x ∈ "年（".data, (x = '\r') = false := by decide
    exact this c
  · rw [List.mem_singleton] at hc; rw [hc]; exact hs6
  · revert hc
    have : ∀ x ∈ "）第".data, (x = '\r') = false := by decide
    exact this c
  · exact digit_ne_of c '\r' (List.all_eq_true.mp hnd c hc) (by decide)
  · revert hc
    have : ∀ x ∈ "号".data, (x = '\r') = false := by decide
    exact this c

lemma extractCaseNumberMain_spaced (y n : List Char) (sym : Char)
    (hy : y ≠ []) (hn : n ≠ []) (hyd : y.all isHalfDigit = true)
    (hnd : n.all isHalfDigit = true) (hsym : isCaseSymbol sym = true) :
    extractCaseNumberMain (spacedCase y n sym) = some (caseValue y n sym) := by
  have hP1 : scanFirstSlice matchCaseP1 (spacedCase y n sym) = none :=
    scanFirstSlice_none _ (noP1_spaced y n sym hyd hnd hsym)
  have hP2 : scanFirstSlice matchCaseP2 (spacedCase y n sym)
      = some (spacedCase y n sym) :=
    scanFirstSlice_some_full _ (by intro h; cases h)
      (matchCaseP2_spaced y n sym hy hn hyd hnd hsym)
  rw [extractCaseNumberMain, hP1, hP2]
  show some (normBrackets (stripJsWs (spacedCase y n sym))) = some (caseValue y n sym)
  rw [stripJsWs_spaced y n sym hyd hnd hsym, normBrackets_plain y n sym hyd hnd hsym]

lemma extractCaseNumberMain_plain (y n : List Char) (sym : Char)
    (hy : y ≠ []) (hn : n ≠ []) (hyd : y.all isHalfDigit = true)
    (hnd : n.all isHalfDigit = true) (hsym : isCaseSymbol sym = true) :
    extractCaseNumberMain (plainCase y n sym) = some (caseValue y n sym) := by
  have hP1 : scanFirstSlice matchCaseP1 (plainCase y n sym)
      = some (plainCase y n sym) :=
    scanFirstSlice_some_full _ (by intro h; cases h)
      (matchCaseP1_plain y n sym hy hn hyd hnd hsym)
  rw [extractCaseNumberMain, hP1]
  show some (normBrackets (stripJsWs (plainCase y n sym))) = some (caseValue y n sym)
  rw [stripJsWs_plain y n sym hyd hnd hsym, normBrackets_plain y n sym hyd hnd hsym]

/-- **C6** (amended): case-number extraction tolerates inserted single
spaces between the characters of an otherwise-matching case number
PROVIDED no space splits a digit run: for every era-year digit run `y`,
serial digit run `n` and case-type symbol, the fully spaced variant and
the unspaced variant both extract to the same normalized value (all
whitespace stripped, full-width brackets converted to half-width). -/
theorem claim_C6_spacing_tolerance (y n : List Char) (sym : Char)
    (hy : y ≠ []) (hn : n ≠ []) (hyd : y.all isHalfDigit = true)
    (hnd : n.all isHalfDigit = true) (hsym : isCaseSymbol sym = true) :
    (extractInfoFromText defaultConfig (spacedCase y n sym)).caseNumber
        = some (caseValue y n sym) ∧
    (extractInfoFromText defaultConfig (plainCase y n sym)).caseNumber
        = some (caseValue y n sym) := by
  have hfield : ∀ t : List Char, (extractInfoFromText defaultConfig t).caseNumber
      = (extractCaseNumber (normalizeNewlines t)).1 := fun t => rfl
  constructor
  · rw [hfield, normalizeNewlines_id _ (no_cr_spaced y n sym hyd hnd hsym),
      extractCaseNumber, extractCaseNumberMain_spaced y n sym hy hn hyd hnd hsym]
  · rw [hfield, normalizeNewlines_id _ (no_cr_plain y n sym hyd hnd hsym),
      extractCaseNumber, extractCaseNumberMain_plain y n sym hy hn hyd hnd hsym]

/-- Witness for **C6**: the spaced and unspaced variants of
令和6年(ワ)第228号 both extract to the same normalized case number. -/
theorem claim_C6_witness :
    (extractInfoFromText defaultConfig
        (spacedCase ['6'] ['2','2','8'] 'ワ')).caseNumber
      = some (caseValue ['6'] ['2','2','8'] 'ワ') ∧
    (extractInfoFromText defaultConfig
        (plainCase ['6'] ['2','2','8'] 'ワ')).caseNumber
      = some (caseValue ['6'] ['2','2','8'] 'ワ') :=
  claim_C6_spacing_tolerance ['6'] ['2','2','8'] 'ワ' (by decide) (by decide)
    (by decide) (by decide) (by decide)

set_option maxRecDepth 10000 in
/-- Counterexample to **C6** as stated: inserting a space between EVERY
pair of adjacent characters (as the spec's "between every character"
demands) splits the serial-number digit run, `\d+` cannot match across
the spaces, and extraction returns nothing instead of the unspaced
variant's normalized value. -/
theorem claim_C6_counterexample :
    spaceEvery "令和6年（ワ）第228号".data
      = "令 和 6 年 （ ワ ） 第 2 2 8 号".data ∧
    (extractInfoFromText defaultConfig "令和6年（ワ）第228号".data).caseNumber
      = some "令和6年(ワ)第228号".data ∧
    (extractInfoFromText defaultConfig
      (spaceEvery "令和6年（ワ）第228号".data)).caseNumber = none := by
  refine ⟨by decide, by decide, by decide⟩
/-- Counterexample to **C8** as stated: in `t8bad` the winning candidate
石口俊一知 has exactly 5 characters and the collected candidate 石口俊一
is a strict prefix of it, yet the final value is NOT trimmed to 4
characters — the source only accepts prefix candidates of length ≤ 3. -/
theorem claim_C8_counterexample :
    (extractInfoFromText defaultConfig t8bad).plaintiffLawyer
      = some "石口俊一知".data ∧
    ("石口俊一知".data).length = 5 ∧
    (∃ c ∈ lawyerCandidates defaultConfig (normalizeNewlines t8bad),
      c.name = "石口俊一".data) ∧
    "石口俊一".data.isPrefixOf "石口俊一知".data = true ∧
    "石口俊一".data ≠ "石口俊一知".data := by
  refine ⟨by decide, by decide, by decide, by decide, by decide⟩

/-- **C8** (amended): whenever the winning counsel-name candidate is
exactly 5 characters long and some collected candidate OF LENGTH AT MOST
3 is a prefix of it, the final value is the winner trimmed to its first
4 characters; the spec's example 石 口 俊 一 知 with shorter candidate
石口 yields 石口俊一. -/
theorem claim_C8_prefix_trim :
    (∀ (cands : List LawyerCand) (best : LawyerCand) (rest : List LawyerCand),
      cands ≠ [] →
      sortStable (dedupCandidates cands) = best :: rest →
      best.name.length = 5 →
      (∃ c ∈ best :: rest, c.name.length ≤ 3 ∧ c.name.isPrefixOf best.name = true) →
      resolveLawyer cands = some (best.name.take 4)) ∧
    (extractInfoFromText defaultConfig t8good).plaintiffLawyer
      = some "石口俊一".data := by
  constructor
  · intro cands best rest hne hsort hlen hex
    cases cands with
    | nil => exact absurd rfl hne
    | cons a as =>
      have hfind : (List.find? (fun c =>
          decide (c.name.length ≤ 3) && c.name.isPrefixOf best.name)
          (best :: rest)).isSome = true := by
        refine List.find?_isSome.mpr ?_
        obtain ⟨c, hc1, hc2, hc3⟩ := hex
        exact ⟨c, hc1, by simp [hc2, hc3]⟩
      obtain ⟨c0, hc0⟩ := Option.isSome_iff_exists.mp hfind
      simp only [resolveLawyer]
      rw [hsort]
      simp only [if_pos hlen, hc0]
  · decide

/-- Witness for **C8**: a concrete candidate pool with a 5-character
winner and a 2-character prefix candidate resolves to the first 4
characters of the winner. -/
theorem claim_C8_witness :
    resolveLawyer [⟨"石口俊一知".data, 1⟩, ⟨"石口".data, 2⟩]
      = some "石口俊一".data :=
  claim_C8_prefix_trim.1 [⟨"石口俊一知".data, 1⟩, ⟨"石口".data, 2⟩]
    ⟨"石口俊一知".data, 1⟩ [⟨"石口".data, 2⟩] (by decide) (by decide) (by decide)
    ⟨⟨"石口".data, 2⟩, by decide, by decide, by decide⟩
lemma ws_val (c : Char) (h : isJsWs c = true) :
    c.val.toBitVec.toNat = 32 ∨ c.val.toBitVec.toNat = 9 ∨
    c.val.toBitVec.toNat = 10 ∨ c.val.toBitVec.toNat = 11 ∨
    c.val.toBitVec.toNat = 12 ∨ c.val.toBitVec.toNat = 13 ∨
    c.val.toBitVec.toNat = 160 ∨ c.val.toBitVec.toNat = 5760 ∨
    (8192 ≤ c.val.toBitVec.toNat ∧ c.val.toBitVec.toNat ≤ 8202) ∨
    c.val.toBitVec.toNat = 8232 ∨ c.val.toBitVec.toNat = 8233 ∨
    c.val.toBitVec.toNat = 8239 ∨ c.val.toBitVec.toNat = 8287 ∨
    c.val.toBitVec.toNat = 12288 ∨ c.val.toBitVec.toNat = 65279 := by
  simp only [isJsWs, Bool.or_eq_true, beq_iff_eq, Bool.and_eq_true,
    decide_eq_true_eq] at h
  rcases h with ((((((((((((((h|h)|h)|h)|h)|h)|h)|h)|⟨ha,hb⟩)|h)|h)|h)|h)|h)|h)
  · rw [h] <;> decide
  · rw [h] <;> decide
  · rw [h] <;> decide
  · have h' : c.val.toBitVec.toNat = 11 := by rw [h] <;> rfl
    omega
  · have h' : c.val.toBitVec.toNat = 12 := by rw [h] <;> rfl
    omega
  · rw [h] <;> decide
  · have h' : c.val.toBitVec.toNat = 160 := by rw [h] <;> rfl
    omega
  · have h' : c.val.toBitVec.toNat = 5760 := by rw [h] <;> rfl
    omega
  · rw [UInt32.le_def, BitVec.le_def] at ha hb
    have ha' : 8192 ≤ c.val.toBitVec.toNat := ha
    have hb' : c.val.toBitVec.toNat ≤ 8202 := hb
    omega
  · have h' : c.val.toBitVec.toNat = 8232 := by rw [h] <;> rfl
    omega
  · have h' : c.val.toBitVec.toNat = 8233 := by rw [h] <;> rfl
    omega
  · have h' : c.val.toBitVec.toNat = 8239 := by rw [h] <;> rfl
    omega
  · have h' : c.val.toBitVec.toNat = 8287 := by rw [h] <;> rfl
    omega
  · have h' : c.val.toBitVec.toNat = 12288 := by rw [h] <;> rfl
    omega
  · have h' : c.val.toBitVec.toNat = 65279 := by rw [h] <;> rfl
    omega

lemma cjk_not_ws (c : Char) (h : cjkNameChar c = true) : isJsWs c = false := by
  cases hiw : isJsWs c
  · rfl
  · exfalso
    have hv := ws_val c hiw
    simp only [cjkNameChar, isKanji, isHiragana, isKatakana, Bool.or_eq_true,
      Bool.and_eq_true, decide_eq_true_eq] at h
    rcases h with (⟨ha, hb⟩ | ⟨ha, hb⟩) | ⟨ha, hb⟩
    · rw [UInt32.le_def, BitVec.le_def] at ha hb
      have ha' : 19968 ≤ c.val.toBitVec.toNat := ha
      have hb' : c.val.toBitVec.toNat ≤ 40959 := hb
      omega
    · rw [UInt32.le_def, BitVec.le_def] at ha hb
      have ha' : 12352 ≤ c.val.toBitVec.toNat := ha
      have hb' : c.val.toBitVec.toNat ≤ 12447 := hb
      omega
    · rw [UInt32.le_def, BitVec.le_def] at ha hb
      have ha' : 12448 ≤ c.val.toBitVec.toNat := ha
      have hb' : c.val.toBitVec.toNat ≤ 12543 := hb
      omega

lemma hyphen_not_ws : isJsWs '-' = false := by decide

lemma faxCanon_wsFree (s : List Char) (h : faxCanon s = true) : wsFree s = true := by
  refine List.all_eq_true.mpr (fun c hc => ?_)
  have := List.all_eq_true.mp h c hc
  simp only [Bool.or_eq_true, decide_eq_true_eq] at this
  rcases this with hd | hd
  · rw [digit_not_ws c hd]; rfl
  · rw [hd]; decide

lemma all_takeWhile (p : Char → Bool) (l : List Char) :
    (l.takeWhile p).all p = true := by
  induction l with
  | nil => rfl
  | cons c t ih =>
    rw [List.takeWhile_cons]
    by_cases hc : p c = true
    · simp [hc, ih]
    · simp [Bool.eq_false_iff.mpr hc]

lemma wsFree_subset (s t : List Char) (hsub : s ⊆ t) (h : wsFree t = true) :
    wsFree s = true :=
  List.all_eq_true.mpr (fun c hc => List.all_eq_true.mp h c (hsub hc))

lemma scanFirst_some {α : Type} (m : List Char → Option α) (s : List Char) (x : α)
    (h : scanFirst m s = some x) : ∃ t, t <:+ s ∧ m t = some x := by
  induction s with
  | nil => exact ⟨[], List.suffix_refl _, h⟩
  | cons c cs ih =>
    rw [scanFirst] at h
    cases hm : m (c :: cs) with
    | some r =>
      rw [hm] at h
      exact ⟨c :: cs, List.suffix_refl _, hm.trans h⟩
    | none =>
      rw [hm] at h
      obtain ⟨t, ht, hmt⟩ := ih h
      exact ⟨t, ht.trans (List.suffix_cons c cs), hmt⟩

lemma scanAll_sources {α : Type} (m : List Char → Option (α × List Char)) :
    ∀ (fuel : Nat) (s : List Char) (i : Nat) (x : Nat × α),
      x ∈ scanAll m fuel s i → ∃ t r, m t = some (x.2, r) := by
  intro fuel
  induction fuel with
  | zero => intro s i x hx; cases hx
  | succ fuel ih =>
    intro s i x hx
    cases s with
    | nil =>
      rw [scanAll] at hx
      cases hm : m [] with
      | some p =>
        rw [hm] at hx
        rcases List.mem_singleton.mp hx with rfl
        exact ⟨[], p.2, by rw [hm]⟩
      | none => rw [hm] at hx; cases hx
    | cons c cs =>
      rw [scanAll] at hx
      cases hm : m (c :: cs) with
      | some p =>
        rw [hm] at hx
        rcases List.mem_cons.mp hx with rfl | hx'
        · exact ⟨c :: cs, p.2, by rw [hm]⟩
        · exact ih _ _ _ hx'
      | none =>
        rw [hm] at hx
        exact ih _ _ _ hx

lemma lazyGap_succ {α : Type} (tail : List Char → Option α) (cs : List Char) (g : Nat) :
    lazyGap tail cs (g + 1) =
      match tail cs, cs with
      | some r, _ => some r
      | none, [] => none
      | none, _ :: cs2 => lazyGap tail cs2 g := by
  rw [lazyGap.eq_def]

lemma lazyGap_some {α : Type} (tail : List Char → Option α) :
    ∀ (cs : List Char) (g : Nat) (x : α), lazyGap tail cs g = some x →
      ∃ t, tail t = some x := by
  intro cs g
  induction g generalizing cs with
  | zero =>
    intro x h
    rw [lazyGap.eq_def] at h
    exact ⟨cs, h⟩
  | succ g ih =>
    intro x h
    rw [lazyGap_succ] at h
    cases ht : tail cs with
    | some r =>
      rw [ht] at h
      exact ⟨cs, ht.trans h⟩
    | none =>
      rw [ht] at h
      cases cs with
      | nil => cases h
      | cons c cs2 => exact ih cs2 x h

lemma scanFirstSlice_within (m : List Char → Option (List Char)) (s sl : List Char)
    (h : scanFirstSlice m s = some sl) : sl <:+: s := by
  induction s with
  | nil =>
    rw [scanFirstSlice] at h
    cases hm : m [] with
    | some r =>
      rw [hm] at h
      cases h
      exact List.infix_refl []
    | none => rw [hm] at h; cases h
  | cons c cs ih =>
    rw [scanFirstSlice] at h
    cases hm : m (c :: cs) with
    | some rest =>
      rw [hm] at h
      cases h
      exact (List.take_prefix _ _).isInfix
    | none =>
      rw [hm] at h
      exact (ih h).trans (List.infix_cons (List.infix_refl cs))

lemma halfDigit_not_full (c : Char) (h : isHalfDigit c = true) :
    isFullDigit c = false := by
  cases hf : isFullDigit c
  · rfl
  · exfalso
    obtain ⟨h1, h2⟩ := digit_toNat_bounds c h
    simp only [isFullDigit, Bool.and_eq_true, decide_eq_true_eq] at hf
    obtain ⟨h3, h4⟩ := hf
    rw [Char.le_def, UInt32.le_def, BitVec.le_def] at h3
    have h3' : 65296 ≤ c.val.toBitVec.toNat := h3
    omega

lemma fullDigit_norm (c : Char) (h : isFullDigit c = true) :
    isHalfDigit (Char.ofNat (c.toNat - 0xFEE0)) = true := by
  simp only [isFullDigit, Bool.and_eq_true, decide_eq_true_eq] at h
  obtain ⟨h1, h2⟩ := h
  rw [Char.le_def, UInt32.le_def, BitVec.le_def] at h1 h2
  have h1' : 65296 ≤ c.val.toBitVec.toNat := h1
  have h2' : c.val.toBitVec.toNat ≤ 65305 := h2
  have hc : c.toNat = c.val.toBitVec.toNat := rfl
  have hm : c.toNat - 0xFEE0 = 48 ∨ c.toNat - 0xFEE0 = 49 ∨ c.toNat - 0xFEE0 = 50 ∨
      c.toNat - 0xFEE0 = 51 ∨ c.toNat - 0xFEE0 = 52 ∨ c.toNat - 0xFEE0 = 53 ∨
      c.toNat - 0xFEE0 = 54 ∨ c.toNat - 0xFEE0 = 55 ∨ c.toNat - 0xFEE0 = 56 ∨
      c.toNat - 0xFEE0 = 57 := by omega
  rcases hm with h|h|h|h|h|h|h|h|h|h <;> (rw [h]; decide)

lemma normalizeFax_canon (raw : List Char) (h : raw.all isFaxChar = true) :
    faxCanon (normalizeFax raw) = true := by
  rw [faxCanon, normalizeFax, List.all_map]
  refine List.all_eq_true.mpr (fun c hc => ?_)
  have hfc := List.all_eq_true.mp h c hc
  simp only [isFaxChar, Bool.or_eq_true, decide_eq_true_eq, beq_iff_eq] at hfc
  simp only [Function.comp]
  rcases hfc with (((hd | hd) | hd) | hd) | hd
  · have hf : isFullDigit c = false := halfDigit_not_full c hd
    have h1 : (c = '－') = false := digit_ne_of c '－' hd (by decide)
    have h2 : (c = 'ー') = false := digit_ne_of c 'ー' hd (by decide)
    simp [hf, h1, h2, hd]
  · simp [hd, fullDigit_norm c hd]
  · rw [hd]; decide
  · rw [hd]; decide
  · rw [hd]; decide

lemma stripJsWs_wsFree (s : List Char) : wsFree (stripJsWs s) = true := by
  refine List.all_eq_true.mpr (fun c hc => ?_)
  exact (List.mem_filter.mp hc).2

lemma extractCourtName_wsFree (t v : List Char)
    (h : extractCourtName t = some v) : wsFree v = true := by
  rw [extractCourtName] at h
  cases hm : (courtMatches t).map stripJsWs with
  | nil => rw [hm] at h; cases h
  | cons c cs =>
    rw [hm] at h
    injection h with h'
    have hmem := (foldl_longest cs c).1
    rw [h'] at hmem
    have hv : v ∈ (courtMatches t).map stripJsWs := by rw [hm]; exact hmem
    obtain ⟨m, -, rfl⟩ := List.mem_map.mp hv
    exact stripJsWs_wsFree m

lemma digits_wsFree (y : List Char) (hy : y.all isHalfDigit = true) :
    wsFree y = true := by
  refine List.all_eq_true.mpr (fun c hc => ?_)
  rw [digit_not_ws c (List.all_eq_true.mp hy c hc)]
  rfl

lemma digits_noFw (y : List Char) (hy : y.all isHalfDigit = true) :
    noFwBrackets y = true := by
  refine List.all_eq_true.mpr (fun c hc => ?_)
  have hd := List.all_eq_true.mp hy c hc
  simp [digit_ne_of c '（' hd (by decide), digit_ne_of c '）' hd (by decide)]

lemma symbol_wsFree_noFw (sym : Char) (hs : isCaseSymbol sym = true) :
    wsFree [sym] = true ∧ noFwBrackets [sym] = true := by
  obtain ⟨h1, -, -, -, h5, h6, -⟩ := caseSymbol_facts sym hs
  constructor
  · simp [wsFree, h1]
  · simp [noFwBrackets, h5, h6]

lemma normBrackets_wsFree (s : List Char) (h : wsFree s = true) :
    wsFree (normBrackets s) = true := by
  rw [wsFree, normBrackets, List.all_map]
  refine List.all_eq_true.mpr (fun c hc => ?_)
  have hcw := List.all_eq_true.mp h c hc
  simp only [Function.comp]
  by_cases h1 : c = '（'
  · subst h1; decide
  · by_cases h2 : c = '）'
    · subst h2; decide
    · simp only [if_neg h1, if_neg h2]
      exact hcw

lemma normBrackets_noFw (s : List Char) : noFwBrackets (normBrackets s) = true := by
  rw [noFwBrackets, normBrackets, List.all_map]
  refine List.all_eq_true.mpr (fun c hc => ?_)
  simp only [Function.comp]
  by_cases h1 : c = '（'
  · subst h1; decide
  · by_cases h2 : c = '）'
    · subst h2; decide
    · simp [if_neg h1, if_neg h2, h1, h2]

lemma wsFree_append (a b : List Char) :
    wsFree (a ++ b) = (wsFree a && wsFree b) := List.all_append

lemma noFw_append (a b : List Char) :
    noFwBrackets (a ++ b) = (noFwBrackets a && noFwBrackets b) := List.all_append

lemma digitChar_digit (m : Nat) : isHalfDigit (digitChar m) = true := by
  rw [digitChar]
  split_ifs <;> decide

lemma natToDecAux_digits : ∀ (n : Nat) (acc : List Char),
    acc.all isHalfDigit = true → (natToDecAux n acc).all isHalfDigit = true := by
  intro n
  induction n using Nat.strong_induction_on with
  | _ n ih =>
    intro acc hacc
    rw [natToDecAux]
    split_ifs with h
    · simp [List.all_cons, digitChar_digit, hacc]
    · exact ih (n / 10) (Nat.div_lt_self (by omega) (by omega)) _
        (by simp [List.all_cons, digitChar_digit, hacc])

lemma natToDec_digits (n : Nat) : (natToDec n).all isHalfDigit = true :=
  natToDecAux_digits n [] rfl

lemma matchDispFullAt_shape (cs : List Char) (y : List Char) (sym : Char)
    (num : List Char) (h : matchDispFullAt cs = some (y, sym, num)) :
    y.all isHalfDigit = true ∧ isCaseSymbol sym = true ∧
    num.all isHalfDigit = true := by
  rw [matchDispFullAt] at h
  split at h
  · cases h
  · rename_i r1 heq1
    simp only [] at h
    split at h
    · cases h
    · split at h
      · cases h
      · rename_i r2 heq2
        split at h
        · cases h
        · rename_i sym2 r3
          split at h
          · split at h
            · cases h
            · rename_i r4 heq4
              split at h
              · cases h
              · split at h
                · cases h
                · rename_i hsome
                  injection h with h'
                  injection h' with h1 h2
                  injection h2 with h2 h3
                  subst h1; subst h2; subst h3
                  exact ⟨all_takeWhile _ _, by assumption, all_takeWhile _ _⟩
          · cases h

lemma matchNumAt_shape (cs num : List Char) (h : matchNumAt cs = some num) :
    num.all isHalfDigit = true := by
  rw [matchNumAt] at h
  split at h
  · cases h
  · simp only [] at h
    split at h
    · cases h
    · split at h
      · cases h
      · injection h with h'
        subst h'
        exact all_takeWhile _ _

lemma matchSymbolAt_shape (cs : List Char) (sym : Char)
    (h : matchSymbolAt cs = some sym) : isCaseSymbol sym = true := by
  rw [matchSymbolAt.eq_def] at h
  split at h
  · cases h
  · split at h
    · split at h
      · cases h
      · split at h
        · split at h
          · injection h with h'
            subst h'
            assumption
          · cases h
        · cases h
    · cases h

lemma extractCaseNumberMain_shape (t v : List Char)
    (h : extractCaseNumberMain t = some v) :
    ∃ s, v = normBrackets (stripJsWs s) := by
  rw [extractCaseNumberMain] at h
  split at h
  · injection h with h'; exact ⟨_, h'.symm⟩
  · split at h
    · injection h with h'; exact ⟨_, h'.symm⟩
    · split at h
      · injection h with h'; exact ⟨_, h'.symm⟩
      · split at h
        · injection h with h'; exact ⟨_, h'.symm⟩
        · cases h

lemma assembled_canon (pre : List Char) (year : List Char) (mid : List Char)
    (symbol : Char) (mid2 : List Char) (num : List Char) (post : List Char)
    (hpre : wsFree pre = true ∧ noFwBrackets pre = true)
    (hy : year.all isHalfDigit = true)
    (hmid : wsFree mid = true ∧ noFwBrackets mid = true)
    (hs : isCaseSymbol symbol = true)
    (hmid2 : wsFree mid2 = true ∧ noFwBrackets mid2 = true)
    (hn : num.all isHalfDigit = true)
    (hpost : wsFree post = true ∧ noFwBrackets post = true) :
    wsFree (pre ++ year ++ mid ++ [symbol] ++ mid2 ++ num ++ post) = true ∧
    noFwBrackets (pre ++ year ++ mid ++ [symbol] ++ mid2 ++ num ++ post) = true := by
  obtain ⟨hsw, hsf⟩ := symbol_wsFree_noFw symbol hs
  constructor
  · simp only [wsFree_append, Bool.and_eq_true]
    exact ⟨⟨⟨⟨⟨⟨hpre.1, digits_wsFree year hy⟩, hmid.1⟩, hsw⟩, hmid2.1⟩,
      digits_wsFree num hn⟩, hpost.1⟩
  · simp only [noFw_append, Bool.and_eq_true]
    exact ⟨⟨⟨⟨⟨⟨hpre.2, digits_noFw year hy⟩, hmid.2⟩, hsf⟩, hmid2.2⟩,
      digits_noFw num hn⟩, hpost.2⟩

lemma extractCaseNumberFallback_canon (t v : List Char)
    (h : (extractCaseNumberFallback t).1 = some v) :
    wsFree v = true ∧ noFwBrackets v = true := by
  rw [extractCaseNumberFallback] at h
  split at h
  · cases h
  · rename_i sectionText hsect
    split at h
    · rename_i year symbol num hfull
      injection h with h'
      subst h'
      obtain ⟨t2, -, hm⟩ := scanFirst_some matchDispFullAt sectionText _ hfull
      obtain ⟨hy, hsym, hnum⟩ := matchDispFullAt_shape t2 year symbol num hm
      exact assembled_canon "令和".data year "年(".data symbol ")第".data num
        "号".data ⟨by decide, by decide⟩ hy ⟨by decide, by decide⟩ hsym
        ⟨by decide, by decide⟩ hnum ⟨by decide, by decide⟩
    · split at h
      · cases h
      · rename_i caseNum hnum0
        simp only [] at h
        obtain ⟨t3, -, hm3⟩ := scanFirst_some matchNumAt sectionText _ hnum0
        have hnum : caseNum.all isHalfDigit = true := matchNumAt_shape t3 caseNum hm3
        have hsymok : isCaseSymbol (match scanFirst matchSymbolAt sectionText with
            | some s => s | none => 'ワ') = true := by
          cases hms : scanFirst matchSymbolAt sectionText with
          | some s =>
            obtain ⟨t4, -, hm4⟩ := scanFirst_some matchSymbolAt sectionText _ hms
            exact matchSymbolAt_shape t4 s hm4
          | none => decide
        split at h
        · injection h with h'
          subst h'
          obtain ⟨hsw, hsf⟩ := symbol_wsFree_noFw _ hsymok
          constructor
          · simp only [wsFree_append, Bool.and_eq_true]
            exact ⟨⟨⟨⟨by decide, hsw⟩, by decide⟩, digits_wsFree _ hnum⟩, by decide⟩
          · simp only [noFw_append, Bool.and_eq_true]
            exact ⟨⟨⟨⟨by decide, hsf⟩, by decide⟩, digits_noFw _ hnum⟩, by decide⟩
        · injection h with h'
          subst h'
          exact assembled_canon "令和".data _ "年(".data _ ")第".data caseNum
            "号".data ⟨by decide, by decide⟩ (natToDec_digits _)
            ⟨by decide, by decide⟩ hsymok ⟨by decide, by decide⟩ hnum
            ⟨by decide, by decide⟩

lemma extractCaseNumber_canon (t v : List Char)
    (h : (extractCaseNumber t).1 = some v) :
    wsFree v = true ∧ noFwBrackets v = true := by
  rw [extractCaseNumber] at h
  split at h
  · rename_i cn hcn
    injection h with h'
    subst h'
    obtain ⟨s, rfl⟩ := extractCaseNumberMain_shape t cn hcn
    exact ⟨normBrackets_wsFree _ (stripJsWs_wsFree s), normBrackets_noFw _⟩
  · exact extractCaseNumberFallback_canon t v h

lemma caseNameTail_wsFree (s v : List Char) (hws : wsFree s = true)
    (h : (match cleanCaseNameInner s with
          | some cl => some cl
          | none =>
            if containsSub s "事件".data then some s else none) = some v) :
    wsFree v = true := by
  split at h
  · rename_i cl hcl
    injection h with h'
    subst h'
    exact wsFree_subset _ _ (List.IsInfix.subset (scanFirstSlice_within _ s cl hcl)) hws
  · split at h
    · injection h with h'
      subst h'
      exact hws
    · cases h

lemma caseNameFromMatch_wsFree (m0 : List Char) (g1 : Option (List Char))
    (v : List Char) (h : caseNameFromMatch m0 g1 = some v) : wsFree v = true :=
  caseNameTail_wsFree _ v (stripJsWs_wsFree _) h

lemma extractCaseName_wsFree (t v : List Char)
    (h : extractCaseName t = some v) : wsFree v = true := by
  rw [extractCaseName] at h
  split at h
  · exact caseNameFromMatch_wsFree _ _ v h
  · split at h
    · exact caseNameFromMatch_wsFree _ _ v h
    · split at h
      · exact caseNameFromMatch_wsFree _ _ v h
      · split at h
        · exact caseNameFromMatch_wsFree _ _ v h
        · cases h

lemma splitGaiEndAt_shape (cs tok : List Char) (h : splitGaiEndAt cs = some tok) :
    ∃ ds, tok = "外".data ++ ds ++ "名".data ∧ ds ≠ [] ∧
      ds.all isHalfDigit = true := by
  rw [splitGaiEndAt.eq_def] at h
  split at h
  · simp only [] at h
    split at h
    · cases h
    · split at h
      · cases h
      · split at h
        · injection h with h'
          refine ⟨_, h'.symm, ?_, all_takeWhile _ _⟩
          rename_i hne _
          intro hd
          rw [hd] at hne
          simp at hne
        · cases h
  · cases h

lemma splitGaiEndGo_shape : ∀ (cs acc : List Char) (pre tok : List Char),
    splitGaiEndGo acc cs = some (pre, tok) →
    ∃ ds, tok = "外".data ++ ds ++ "名".data ∧ ds ≠ [] ∧
      ds.all isHalfDigit = true := by
  intro cs
  induction cs with
  | nil => intro acc pre tok h; cases h
  | cons c cs ih =>
    intro acc pre tok h
    rw [splitGaiEndGo] at h
    split at h
    · rename_i tok2 htok
      injection h with h'
      injection h' with h1 h2
      subst h2
      exact splitGaiEndAt_shape _ _ htok
    · exact ih _ _ _ h

lemma cleanPartyName_shape (raw : List Char) :
    wsFree (cleanPartyName raw) = true ∨
    ∃ pre ds, cleanPartyName raw = pre ++ [' '] ++ ("外".data ++ ds ++ "名".data) ∧
      wsFree pre = true ∧ ds ≠ [] ∧ ds.all isHalfDigit = true := by
  rw [cleanPartyName]
  simp only []
  split
  · rename_i pre tok hsplit
    obtain ⟨ds, rfl, hne, hds⟩ := splitGaiEndGo_shape _ _ _ _ hsplit
    right
    exact ⟨stripJsWs pre, ds, rfl, stripJsWs_wsFree pre, hne, hds⟩
  · left
    exact stripJsWs_wsFree _

lemma extractPlaintiffName_shape (t v : List Char)
    (h : extractPlaintiffName t = some v) : ∃ raw, v = cleanPartyName raw := by
  rw [extractPlaintiffName] at h
  repeat' split at h
  all_goals first
    | (injection h with h'
       exact ⟨_, h'.symm⟩)
    | (injection h)

lemma extractDefendantName_shape (t v : List Char)
    (h : extractDefendantName t = some v) : ∃ raw, v = cleanPartyName raw := by
  rw [extractDefendantName] at h
  repeat' split at h
  all_goals first
    | (injection h with h'
       exact ⟨_, h'.symm⟩)
    | (injection h)

lemma insertStable_mem (a x : LawyerCand) : ∀ l, x ∈ insertStable a l →
    x = a ∨ x ∈ l := by
  intro l
  induction l with
  | nil =>
    intro h
    rw [insertStable] at h
    rcases List.mem_singleton.mp h with rfl
    exact Or.inl rfl
  | cons b rest ih =>
    intro h
    rw [insertStable] at h
    split at h
    · rcases List.mem_cons.mp h with rfl | h2
      · exact Or.inl rfl
      · exact Or.inr h2
    · rcases List.mem_cons.mp h with rfl | h2
      · exact Or.inr (List.mem_cons_self _ _)
      · rcases ih h2 with h3 | h3
        · exact Or.inl h3
        · exact Or.inr (List.mem_cons_of_mem _ h3)

lemma sortStable_mem (x : LawyerCand) : ∀ l, x ∈ sortStable l → x ∈ l := by
  intro l
  induction l with
  | nil => intro h; cases h
  | cons a rest ih =>
    intro h
    rw [sortStable] at h
    rcases insertStable_mem a x _ h with rfl | h2
    · exact List.mem_cons_self _ _
    · exact List.mem_cons_of_mem _ (ih h2)

lemma foldl_pick_mem (l : List LawyerCand) : ∀ (acc : Option LawyerCand)
    (c : LawyerCand),
    l.foldl (fun best c =>
      match best with
      | none => some c
      | some b => if c.priority < b.priority then some c else some b) acc = some c →
    acc = some c ∨ c ∈ l := by
  induction l with
  | nil => intro acc c h; exact Or.inl h
  | cons a rest ih =>
    intro acc c h
    rw [List.foldl_cons] at h
    rcases ih _ c h with h2 | h2
    · cases acc with
      | none =>
        simp only [] at h2
        injection h2 with h'
        exact Or.inr (h' ▸ List.mem_cons_self _ _)
      | some b =>
        simp only [] at h2
        split at h2
        · injection h2 with h'
          exact Or.inr (h' ▸ List.mem_cons_self _ _)
        · exact Or.inl h2
    · exact Or.inr (List.mem_cons_of_mem _ h2)

lemma bestForName_mem (n : List Char) (cands : List LawyerCand) (c : LawyerCand)
    (h : bestForName n cands = some c) : c ∈ cands := by
  rw [bestForName] at h
  rcases foldl_pick_mem _ none c h with h2 | h2
  · cases h2
  · exact List.mem_of_mem_filter h2

lemma dedupCandidates_mem (cands : List LawyerCand) (c : LawyerCand)
    (h : c ∈ dedupCandidates cands) : c ∈ cands := by
  rw [dedupCandidates] at h
  obtain ⟨n, -, hb⟩ := List.mem_filterMap.mp h
  exact bestForName_mem n cands c hb

lemma dropSuffixLit_subset (lit s : List Char) : dropSuffixLit lit s ⊆ s := by
  rw [dropSuffixLit]
  split
  · exact List.take_subset _ _
  · exact fun x hx => hx

lemma dropSuffixClassRun_subset (p : Char → Bool) (s : List Char) :
    dropSuffixClassRun p s ⊆ s := by
  intro x hx
  rw [dropSuffixClassRun] at hx
  rw [List.mem_reverse] at hx
  have := (List.dropWhile_sublist p).subset hx
  rwa [List.mem_reverse] at this

lemma cleanLawyerName_wsFree (raw v : List Char)
    (h : cleanLawyerName raw = some v) : wsFree v = true := by
  rw [cleanLawyerName] at h
  simp only [] at h
  split at h
  · cases h
  · split at h
    · cases h
    · split at h
      · cases h
      · split at h
        · cases h
        · injection h with h'
          subst h'
          refine List.all_eq_true.mpr (fun c hc => ?_)
          have h1 := dropSuffixClassRun_subset _ _ hc
          have h2 := dropSuffixLit_subset "宛て".data _ h1
          have h3 := (List.mem_filter.mp h2).2
          rw [cjk_not_ws c h3]
          rfl

lemma lawyerCandidates_names (cfg : ExtractConfig) (t : List Char)
    (c : LawyerCand) (h : c ∈ lawyerCandidates cfg t) :
    ∃ raw, cleanLawyerName raw = some c.name := by
  rw [lawyerCandidates] at h
  simp only [List.mem_append] at h
  rcases h with ((h | h) | h) | h
  · obtain ⟨x, -, hf⟩ := List.mem_filterMap.mp h
    obtain ⟨n, hn, hc⟩ := Option.map_eq_some'.mp hf
    exact ⟨x.2, by rw [hn, ← hc]⟩
  · obtain ⟨x, -, hf⟩ := List.mem_filterMap.mp h
    split at hf
    · cases hf
    · obtain ⟨n, hn, hc⟩ := Option.map_eq_some'.mp hf
      exact ⟨x.2, by rw [hn, ← hc]⟩
  · obtain ⟨x, -, hf⟩ := List.mem_filterMap.mp h
    obtain ⟨n, hn, hc⟩ := Option.map_eq_some'.mp hf
    exact ⟨x.2, by rw [hn, ← hc]⟩
  · obtain ⟨x, -, hf⟩ := List.mem_filterMap.mp h
    split at hf
    · cases hf
    · split at hf
      · cases hf
      · rename_i n hn
        split at hf
        · cases hf
        · injection hf with h'
          exact ⟨x.2, by rw [hn, ← h']⟩

lemma resolveLawyer_wsFree (cands : List LawyerCand) (v : List Char)
    (hnames : ∀ c ∈ cands, wsFree c.name = true)
    (h : resolveLawyer cands = some v) : wsFree v = true := by
  rw [resolveLawyer.eq_def] at h
  split at h
  · cases h
  · rename_i b0 rest0
    split at h
    · cases h
    · rename_i best restSorted hsort
      simp only [] at h
      have hbest : best ∈ b0 :: rest0 := by
        have hmem : best ∈ sortStable (dedupCandidates (b0 :: rest0)) := by
          rw [hsort]; exact List.mem_cons_self _ _
        exact dedupCandidates_mem _ _ (sortStable_mem _ _ hmem)
      have hbw : wsFree best.name = true := hnames best hbest
      split at h
      · split at h
        · injection h with h'
          subst h'
          exact wsFree_subset _ _ (List.take_subset _ _) hbw
        · injection h with h'
          subst h'
          exact hbw
      · injection h with h'
        subst h'
        exact hbw

lemma extractPlaintiffLawyer_wsFree (cfg : ExtractConfig) (t v : List Char)
    (h : extractPlaintiffLawyer cfg t = some v) : wsFree v = true := by
  rw [extractPlaintiffLawyer] at h
  refine resolveLawyer_wsFree _ v (fun c hc => ?_) h
  obtain ⟨raw, hraw⟩ := lawyerCandidates_names cfg t c hc
  exact cleanLawyerName_wsFree raw c.name hraw

lemma matchParenFaxTail_shape (cs ds rest : List Char)
    (h : matchParenFaxTail cs = some (ds, rest)) : ds.all isFaxChar = true := by
  rw [matchParenFaxTail.eq_def] at h
  split at h
  · split at h
    · split at h
      · cases h
      · simp only [] at h
        split at h
        · cases h
        · split at h
          · split at h
            · injection h with h'
              injection h' with h1 h2
              subst h1
              exact all_takeWhile _ _
            · cases h
          · cases h
    · cases h
  · cases h

lemma matchExplicitCourtFaxAt_shape (cs raw : List Char)
    (h : matchExplicitCourtFaxAt cs = some raw) : raw.all isFaxChar = true := by
  rw [matchExplicitCourtFaxAt] at h
  split at h
  · cases h
  · obtain ⟨t, ht⟩ := lazyGap_some _ _ _ _ h
    obtain ⟨⟨ds, rest⟩, hp, hr⟩ := Option.map_eq_some'.mp ht
    subst hr
    exact matchParenFaxTail_shape t ds rest hp

lemma explicitFaxGo_shape : ∀ (L : Nat) (cs lab ds rest : List Char),
    explicitFaxGo cs L = some ((lab, ds), rest) → ds.all isFaxChar = true := by
  intro L
  induction L with
  | zero => intro cs lab ds rest h; cases h
  | succ L ih =>
    intro cs lab ds rest h
    rw [explicitFaxGo] at h
    split at h
    · split at h
      · rename_i p hp
        injection h with h'
        injection h' with h1 h2
        injection h1 with h1a h1b
        subst h1b
        exact matchParenFaxTail_shape _ _ _ hp
      · exact ih _ _ _ _ h
    · exact ih _ _ _ _ h

lemma matchFaxEntryAt_shape (cs v rest : List Char)
    (h : matchFaxEntryAt cs = some (v, rest)) :
    ∃ ds, v = normalizeFax ds ∧ ds.all isFaxChar = true := by
  rw [matchFaxEntryAt] at h
  split at h
  · cases h
  · simp only [] at h
    split at h
    · cases h
    · injection h with h'
      injection h' with h1 h2
      exact ⟨_, h1.symm, all_takeWhile _ _⟩

lemma explicitFaxStep_canon (own : List (List Char)) (cfp : Option (List Char))
    (acc : Option (List Char)) (e : List Char × List Char)
    (hacc : ∀ v, acc = some v → faxCanon v = true) (he : faxCanon e.2 = true) :
    ∀ v, explicitFaxStep own cfp acc e = some v → faxCanon v = true := by
  intro v hv
  rw [explicitFaxStep] at hv
  split_ifs at hv
  · exact hacc v hv
  · exact hacc v hv
  · simp only [Option.some.injEq] at hv
    subst hv
    exact he
  · exact hacc v hv

lemma explicitFax_foldl_canon (own : List (List Char)) (cfp : Option (List Char))
    (entries : List (List Char × List Char))
    (hent : ∀ e ∈ entries, faxCanon e.2 = true) :
    ∀ acc, (∀ v, acc = some v → faxCanon v = true) →
      ∀ v, entries.foldl (explicitFaxStep own cfp) acc = some v →
        faxCanon v = true := by
  induction entries with
  | nil => intro acc h; exact h
  | cons e rest ih =>
    intro acc h
    rw [List.foldl_cons]
    exact ih (fun x hx => hent x (List.mem_cons_of_mem e hx)) _
      (explicitFaxStep_canon own cfp acc e h (hent e (List.mem_cons_self e rest)))

lemma faxEntryStep_canon (cfg : ExtractConfig) (text : List Char) (st : FaxState)
    (entry : Nat × List Char)
    (h1 : ∀ v, st.courtFaxFromPdf = some v → faxCanon v = true)
    (h2 : ∀ v, st.plaintiffLawyerFax = some v → faxCanon v = true)
    (he : faxCanon entry.2 = true) :
    (∀ v, (faxEntryStep cfg text st entry).courtFaxFromPdf = some v →
      faxCanon v = true) ∧
    (∀ v, (faxEntryStep cfg text st entry).plaintiffLawyerFax = some v →
      faxCanon v = true) := by
  rw [faxEntryStep]
  simp only []
  split_ifs
  all_goals refine ⟨fun v hv => ?_, fun v hv => ?_⟩
  all_goals first
    | exact h1 v hv
    | exact h2 v hv
    | (simp only [Option.some.injEq] at hv
       subst hv
       exact he)

lemma faxEntry_foldl_canon (cfg : ExtractConfig) (text : List Char)
    (entries : List (Nat × List Char))
    (hent : ∀ e ∈ entries, faxCanon e.2 = true) :
    ∀ st, (∀ v, st.courtFaxFromPdf = some v → faxCanon v = true) →
      (∀ v, st.plaintiffLawyerFax = some v → faxCanon v = true) →
      (∀ v, (entries.foldl (faxEntryStep cfg text) st).courtFaxFromPdf = some v →
        faxCanon v = true) ∧
      (∀ v, (entries.foldl (faxEntryStep cfg text) st).plaintiffLawyerFax = some v →
        faxCanon v = true) := by
  induction entries with
  | nil => intro st hc hp; exact ⟨hc, hp⟩
  | cons e rest ih =>
    intro st hc hp
    rw [List.foldl_cons]
    obtain ⟨hc', hp'⟩ := faxEntryStep_canon cfg text st e hc hp
      (hent e (List.mem_cons_self e rest))
    exact ih (fun x hx => hent x (List.mem_cons_of_mem e hx)) _ hc' hp'

lemma extractFaxSection_canon (cfg : ExtractConfig) (t : List Char) :
    (∀ v, (extractFaxSection cfg t).courtFaxFromPdf = some v →
      faxCanon v = true) ∧
    (∀ v, (extractFaxSection cfg t).plaintiffLawyerFax = some v →
      faxCanon v = true) := by
  rw [extractFaxSection]
  have hcfp : ∀ v, (scanFirst matchExplicitCourtFaxAt t).map normalizeFax = some v →
      faxCanon v = true := by
    intro v hv
    obtain ⟨raw, hraw, hmap⟩ := Option.map_eq_some'.mp hv
    subst hmap
    exact normalizeFax_canon raw (by
      obtain ⟨t', -, hm⟩ := scanFirst_some matchExplicitCourtFaxAt t raw hraw
      exact matchExplicitCourtFaxAt_shape t' raw hm)
  have hexp : ∀ e ∈ (scanAll matchExplicitFaxAt (t.length + 1) t 0).map
      (fun x => (x.2.1, normalizeFax x.2.2)), faxCanon e.2 = true := by
    intro e he
    obtain ⟨x, hx, hmap⟩ := List.mem_map.mp he
    subst hmap
    obtain ⟨t', r, hm⟩ := scanAll_sources matchExplicitFaxAt _ t 0 x hx
    exact normalizeFax_canon _ (explicitFaxGo_shape 10 t' x.2.1 x.2.2 r hm)
  have hplf : ∀ v, ((scanAll matchExplicitFaxAt (t.length + 1) t 0).map
        (fun x => (x.2.1, normalizeFax x.2.2))).foldl
        (explicitFaxStep cfg.faxNumbers
          ((scanFirst matchExplicitCourtFaxAt t).map normalizeFax)) none = some v →
      faxCanon v = true :=
    explicitFax_foldl_canon _ _ _ hexp none (fun v hv => by cases hv)
  have hent : ∀ e ∈ scanAll matchFaxEntryAt (t.length + 1) t 0,
      faxCanon e.2 = true := by
    intro e he
    obtain ⟨t', r, hm⟩ := scanAll_sources matchFaxEntryAt _ t 0 e he
    obtain ⟨ds, hds, hall⟩ := matchFaxEntryAt_shape t' e.2 r hm
    rw [hds]
    exact normalizeFax_canon ds hall
  exact faxEntry_foldl_canon cfg t _ hent _ hcfp hplf

lemma extractCourtFaxDict_canon (cn : Option (List Char)) (v : List Char)
    (h : extractCourtFaxDict cn = some v) : faxCanon v = true := by
  rw [extractCourtFaxDict.eq_def] at h
  split at h
  · split at h
    · cases h
    · split at h
      · rename_i fax hfind
        injection h with h'
        subst h'
        rw [courtFaxLookup] at hfind
        obtain ⟨e, he, hmap⟩ := Option.map_eq_some'.mp hfind
        have hmem := List.mem_of_find?_eq_some he
        have hall : ∀ p ∈ COURT_FAX_MAP, faxCanon p.2 = true := by decide
        rw [← hmap]
        exact hall e hmem
      · injection h with h'
        subst h'
        rfl
  · cases h

/-- Counterexample to **C9** as stated: the extracted plaintiff name
keeps one literal space before the 外N名 token, so the field is not
whitespace-free. -/
theorem claim_C9_counterexample :
    (extractInfoFromText defaultConfig t9).plaintiffName
      = some "山田民子 外1名".data ∧
    ("山田民子 外1名".data).any isJsWs = true := by
  refine ⟨by decide, by decide⟩

/-- **C9** (amended): for every configuration and input text, each
extracted field is canonical — courtName, caseName and plaintiffLawyer
are whitespace-free; caseNumber is whitespace-free with half-width
brackets only; courtFax and plaintiffLawyerFax consist of half-width
digits and ASCII hyphens only (hence whitespace-free); and each party
name is either whitespace-free or a whitespace-free name followed by a
single space and an 外N名 token (the one canonical exception the code
produces deliberately). -/
theorem claim_C9_field_canonical_forms (cfg : ExtractConfig) (text : List Char) :
    (∀ v, (extractInfoFromText cfg text).courtName = some v →
      wsFree v = true) ∧
    (∀ v, (extractInfoFromText cfg text).caseNumber = some v →
      wsFree v = true ∧ noFwBrackets v = true) ∧
    (∀ v, (extractInfoFromText cfg text).caseName = some v →
      wsFree v = true) ∧
    (∀ v, (extractInfoFromText cfg text).plaintiffLawyer = some v →
      wsFree v = true) ∧
    (∀ v, (extractInfoFromText cfg text).courtFax = some v →
      faxCanon v = true ∧ wsFree v = true) ∧
    (∀ v, (extractInfoFromText cfg text).plaintiffLawyerFax = some v →
      faxCanon v = true ∧ wsFree v = true) ∧
    (∀ v, (extractInfoFromText cfg text).plaintiffName = some v →
      wsFree v = true ∨
      ∃ pre ds, v = pre ++ [' '] ++ ("外".data ++ ds ++ "名".data) ∧
        wsFree pre = true ∧ ds ≠ [] ∧ ds.all isHalfDigit = true) ∧
    (∀ v, (extractInfoFromText cfg text).defendantName = some v →
      wsFree v = true ∨
      ∃ pre ds, v = pre ++ [' '] ++ ("外".data ++ ds ++ "名".data) ∧
        wsFree pre = true ∧ ds ≠ [] ∧ ds.all isHalfDigit = true) := by
  refine ⟨?_, ?_, ?_, ?_, ?_, ?_, ?_, ?_⟩
  · intro v hv
    exact extractCourtName_wsFree _ v hv
  · intro v hv
    exact extractCaseNumber_canon _ v hv
  · intro v hv
    exact extractCaseName_wsFree _ v hv
  · intro v hv
    exact extractPlaintiffLawyer_wsFree cfg _ v hv
  · intro v hv
    have hv' : (if truthy (extractFaxSection cfg (normalizeNewlines text)).courtFaxFromPdf
        then (extractFaxSection cfg (normalizeNewlines text)).courtFaxFromPdf
        else extractCourtFaxDict (extractCourtName (normalizeNewlines text)))
        = some v := hv
    split at hv'
    · have hc := (extractFaxSection_canon cfg (normalizeNewlines text)).1 v hv'
      exact ⟨hc, faxCanon_wsFree v hc⟩
    · have hc := extractCourtFaxDict_canon _ v hv'
      exact ⟨hc, faxCanon_wsFree v hc⟩
  · intro v hv
    have hc := (extractFaxSection_canon cfg (normalizeNewlines text)).2 v hv
    exact ⟨hc, faxCanon_wsFree v hc⟩
  · intro v hv
    obtain ⟨raw, rfl⟩ := extractPlaintiffName_shape _ v hv
    exact cleanPartyName_shape raw
  · intro v hv
    obtain ⟨raw, rfl⟩ := extractDefendantName_shape _ v hv
    exact cleanPartyName_shape raw

/-- Witness for **C9**: a concrete court name extracted from a concrete
sheet is whitespace-free. -/
theorem claim_C9_witness : wsFree "広島地方裁判所".data = true :=
  (claim_C9_field_canonical_forms defaultConfig "広島地方裁判所".data).1
    "広島地方裁判所".data (by decide)
